import Mathlib

/-!
Shallow embedding of `cr2fits.py` (the `NetpbmFile` parser/serializer and the
`cr2fits` channel/destination helpers), together with theorems checking the
specification's claims about them.

Byte streams are modelled as `List Nat` with each element a byte value `< 256`.
-/

namespace Cr2fits

/-! ## Byte-class predicates (Python `\s`, `\d`, `\w` over bytes) -/

/-- Python's `\s` for bytes: space, tab, newline, carriage return, form feed,
vertical tab. -/
def isWs (b : Nat) : Bool :=
  b = 32 || b = 9 || b = 10 || b = 13 || b = 12 || b = 11

/-- Python's `\d` for bytes: ASCII `0`-`9`. -/
def isDigit (b : Nat) : Bool := 48 ≤ b && b ≤ 57

/-- Python's `\w` for bytes: ASCII letters, digits and underscore. -/
def isWord (b : Nat) : Bool :=
  (48 ≤ b && b ≤ 57) || (65 ≤ b && b ≤ 90) || (97 ≤ b && b ≤ 122) || b = 95

/-- Characters counted by `[\n\r]` in the PAM header regex. -/
def isNL (b : Nat) : Bool := b = 10 || b = 13

/-- ASCII bytes of a string literal (all headers in the source are ASCII). -/
def strBytes (s : String) : List Nat := s.toList.map Char.toNat

/-! ## Decimal rendering and parsing -/

/-- Digits of `n` (ASCII, most-significant first, empty for `0`); structural
fuel recursion (`n/10` strictly decreases, so `n` steps suffice). -/
def natToDecF : Nat → Nat → List Nat
  | 0, _ => []
  | fuel + 1, n => if n = 0 then [] else natToDecF fuel (n / 10) ++ [n % 10 + 48]

/-- Decimal rendering of a natural number, as ASCII bytes (Python `"%i" % n`). -/
def natToDec (n : Nat) : List Nat :=
  if n = 0 then [48] else natToDecF n n

/-- Value of a list of ASCII digit bytes read most-significant first. -/
def decVal (l : List Nat) : Nat := l.foldl (fun a d => 10 * a + (d - 48)) 0

theorem natToDecF_ne_nil {fuel n : Nat} (hn : n ≠ 0) (hf : n ≤ fuel) :
    natToDecF fuel n ≠ [] := by
  rcases fuel with _ | fuel
  · omega
  · rw [natToDecF, if_neg hn]
    simp

theorem natToDec_ne_nil (n : Nat) : natToDec n ≠ [] := by
  rw [natToDec]
  split
  · simp
  · next h => exact natToDecF_ne_nil h le_rfl

theorem natToDecF_digits : ∀ fuel n, ∀ b ∈ natToDecF fuel n,
    isDigit b = true := by
  intro fuel
  induction fuel with
  | zero => intro n b hb; simp [natToDecF] at hb
  | succ fuel ih =>
    intro n b hb
    rw [natToDecF] at hb
    split at hb
    · simp at hb
    · rcases List.mem_append.mp hb with hb2 | hb2
      · exact ih (n / 10) b hb2
      · simp at hb2
        subst hb2
        have : n % 10 < 10 := Nat.mod_lt n (by omega)
        simp [isDigit]
        omega

theorem natToDec_digits (n : Nat) : ∀ b ∈ natToDec n, isDigit b = true := by
  intro b hb
  rw [natToDec] at hb
  split at hb
  · simp at hb; subst hb; decide
  · exact natToDecF_digits n n b hb

theorem decValF : ∀ fuel n acc, n ≤ fuel →
    List.foldl (fun a d => 10 * a + (d - 48)) acc (natToDecF fuel n)
      = acc * 10 ^ (natToDecF fuel n).length + n := by
  intro fuel
  induction fuel with
  | zero =>
    intro n acc hn
    have : n = 0 := by omega
    subst this
    simp [natToDecF]
  | succ fuel ih =>
    intro n acc hn
    rw [natToDecF]
    split
    · next h => subst h; simp
    · next h =>
      rw [List.foldl_append]
      have hdiv : n / 10 ≤ fuel := by omega
      rw [ih (n / 10) acc hdiv]
      simp only [List.foldl_cons, List.foldl_nil, List.length_append,
        List.length_cons, List.length_nil]
      have hmod : n % 10 + 48 - 48 = n % 10 := by omega
      rw [hmod]
      have hdm : 10 * (n / 10) + n % 10 = n := Nat.div_add_mod n 10
      ring_nf
      omega

theorem decVal_natToDec (n : Nat) : decVal (natToDec n) = n := by
  rw [natToDec, decVal]
  split
  · next h => subst h; rfl
  · rw [decValF n n 0 le_rfl]
    simp

/-! ## Data model -/

/-- The eight magic tokens of `NetpbmFile._types`. -/
inductive Magic
  | p1 | p2 | p3 | p4 | p5 | p6 | p7_332 | p7
deriving DecidableEq, Repr

/-- Values of the `_types` dictionary. -/
def typeName : Magic → List Nat
  | .p1 | .p4 => strBytes "BLACKANDWHITE"
  | .p2 | .p5 => strBytes "GRAYSCALE"
  | .p3 | .p6 | .p7_332 => strBytes "RGB"
  | .p7 => strBytes "RGB_ALPHA"

/-- Depth assigned by `_read_pnm_header`:
`3 if self.magicnum in b"P3P6P7 332" else 1`. -/
def depthOf : Magic → Nat
  | .p3 | .p6 | .p7_332 => 3
  | _ => 1

/-- Parsed header fields of a `NetpbmFile` instance, together with the length
of the matched header region (`len(self.header)`, the payload offset). -/
structure Header where
  magic : Magic
  width : Nat
  height : Nat
  maxval : Nat
  depth : Nat
  tupltypes : List (List Nat)
  hdrLen : Nat
deriving DecidableEq, Repr

/-- A decoded image buffer: the header fields kept on the instance plus the
flat row-major sample list returned by `asarray` (length
`frames · height · width · depth'`). `frames` is the leading reshape
dimension (1 unless the bilevel payload holds several frames). -/
structure Buffer where
  magic : Magic
  width : Nat
  height : Nat
  maxval : Nat
  depth : Nat
  tupltypes : List (List Nat)
  frames : Nat
  samples : List Nat
deriving DecidableEq, Repr

/-! ## Classic (PNM) header grammar

Models the regex of `_read_pnm_header` as a leftmost-greedy match:

`(^(P[123456]|P7 332)\s+(?:#.*[\r\n])*`
`\s*(\d+)\s+(?:#.*[\r\n])*` (this group once for bitmap variants, twice
otherwise) `\s*(\d+)\s(?:\s*#.*[\r\n]\s)*)` -/

/-- `\s+` (greedy): requires at least one whitespace byte, returns the rest. -/
def spanWs1 (l : List Nat) : Option (List Nat) :=
  if l.takeWhile isWs = [] then none else some (l.dropWhile isWs)

/-- `(\d+)` (greedy): the parsed value and the rest. -/
def parseDigits (l : List Nat) : Option (Nat × List Nat) :=
  if l.takeWhile isDigit = [] then none
  else some (decVal (l.takeWhile isDigit), l.dropWhile isDigit)

/-- One iteration of `#.*[\r\n]`: a `#`, a greedy run of non-`\n` bytes, then
the newline the backtracking settles on (the first `\n` if any, else the last
`\r`). Returns the number of bytes consumed. -/
def commentA1 (l : List Nat) : Option Nat :=
  match l with
  | b :: body =>
    if b = 35 then
      match body.findIdx? (· = 10) with
      | some k => some (k + 2)
      | none =>
        match body.reverse.findIdx? (· = 13) with
        | some rk => some (body.length - rk + 1)
        | none => none
    else none
  | [] => none

/-- Fueled loop for `(?:#.*[\r\n])*`; each iteration consumes at least one
byte, so `l.length` steps of fuel reach the fixed point. -/
def commentsAF : Nat → List Nat → List Nat
  | 0, l => l
  | fuel + 1, l =>
    match commentA1 l with
    | some k => commentsAF fuel (l.drop k)
    | none => l

/-- `(?:#.*[\r\n])*` (greedy): the rest after consuming every comment. -/
def commentsA (l : List Nat) : List Nat := commentsAF l.length l

/-- Upper bound (exclusive) on the positions the `[\r\n]` of a trailing
comment can occupy: `.*` cannot cross the first `\n`. -/
def nlCap (body : List Nat) : Nat :=
  match body.findIdx? (· = 10) with
  | some j => j + 1
  | none => body.length

/-- One iteration of the trailing `\s*#.*[\r\n]\s` group: whitespace, `#`, a
run of non-`\n` bytes up to a newline candidate (any `\r` before the first
`\n`, or that `\n`), then one whitespace byte.  Backtracking picks the largest
candidate followed by whitespace. Returns the bytes consumed. -/
def commentB1 (l : List Nat) : Option Nat :=
  match l.dropWhile isWs with
  | b :: body =>
    if b = 35 then
      match (List.range (nlCap body)).reverse.find?
          (fun i => isNL (body.getD i 0) && decide (i + 1 < body.length)
            && isWs (body.getD (i + 1) 0)) with
      | some i => some ((l.takeWhile isWs).length + i + 3)
      | none => none
    else none
  | [] => none

/-- Fueled loop for the trailing `(?:\s*#.*[\r\n]\s)*` group. -/
def commentsBF : Nat → List Nat → List Nat
  | 0, l => l
  | fuel + 1, l =>
    match commentB1 l with
    | some k => commentsBF fuel (l.drop k)
    | none => l

/-- `(?:\s*#.*[\r\n]\s)*` (greedy): the rest after the trailing comments. -/
def commentsB (l : List Nat) : List Nat := commentsBF l.length l

/-- `(P[123456]|P7 332)`: the classic magic token. -/
def parsePnmMagic (l : List Nat) : Option (Magic × List Nat) :=
  if [80, 49].isPrefixOf l then some (.p1, l.drop 2)
  else if [80, 50].isPrefixOf l then some (.p2, l.drop 2)
  else if [80, 51].isPrefixOf l then some (.p3, l.drop 2)
  else if [80, 52].isPrefixOf l then some (.p4, l.drop 2)
  else if [80, 53].isPrefixOf l then some (.p5, l.drop 2)
  else if [80, 54].isPrefixOf l then some (.p6, l.drop 2)
  else if [80, 55, 32, 51, 51, 50].isPrefixOf l then some (.p7_332, l.drop 6)
  else none

/-- Field group `\s*(\d+)\s+(?:#.*[\r\n])*`. -/
def pnmField (l : List Nat) : Option (Nat × List Nat) :=
  match parseDigits (l.dropWhile isWs) with
  | none => none
  | some (v, l1) =>
    match spanWs1 l1 with
    | none => none
    | some l2 => some (v, commentsA l2)

/-- Final field group `\s*(\d+)\s`. -/
def pnmLastField (l : List Nat) : Option (Nat × List Nat) :=
  match parseDigits (l.dropWhile isWs) with
  | none => none
  | some (v, l1) =>
    match l1 with
    | b :: r => if isWs b then some (v, r) else none
    | [] => none

/-- Header record assembled by `_read_pnm_header` once all fields parsed;
`l5` is the input left after the matched region. -/
def mkPnmHeader (magic : Magic) (w h m : Nat) (data l5 : List Nat) : Header :=
  { magic := magic, width := w, height := h, maxval := m,
    depth := depthOf magic, tupltypes := [typeName magic],
    hdrLen := data.length - l5.length }

/-- Classic (PNM) header parser, modelling `_read_pnm_header`.  `data` is the
prefix `__init__` hands to `re.search` (at most 4096 bytes). -/
def pnmHeader (data : List Nat) : Option Header :=
  match parsePnmMagic data with
  | none => none
  | some (magic, l0) =>
    match spanWs1 l0 with
    | none => none
    | some l1 =>
      match pnmField (commentsA l1) with
      | none => none
      | some (w, l3) =>
        if data.getD 1 0 = 49 || data.getD 1 0 = 52 then   -- data[1:2] in b"14"
          match pnmLastField l3 with
          | none => none
          | some (h, l4) => some (mkPnmHeader magic w h 1 data (commentsB l4))
        else
          match pnmField l3 with
          | none => none
          | some (h, l3b) =>
            match pnmLastField l3b with
            | none => none
            | some (m, l4) =>
              some (mkPnmHeader magic w h m data (commentsB l4))

/-! ## Self-describing (PAM) header grammar

Models the regex of `_read_pam_header` as a leftmost-greedy match:
`(^P7[\n\r]+(?:(?:[\n\r]+)|(?:#.*)|(HEIGHT\s+\d+)|(WIDTH\s+\d+)|`
`(DEPTH\s+\d+)|(MAXVAL\s+\d+)|(?:TUPLTYPE\s+\w+))*ENDHDR\n)` -/

/-- Numeric fields collected while scanning the PAM header; last occurrence
wins (the regex keeps only the last match of a repeated group, `setattr`
overwrites). -/
structure PamState where
  height : Option Nat
  width : Option Nat
  depth : Option Nat
  maxval : Option Nat
deriving DecidableEq, Repr

/-- `\s+\d+` after a numeric keyword: value and bytes consumed. -/
def keywordNum (l : List Nat) : Option (Nat × Nat) :=
  let ws := l.takeWhile isWs
  if ws = [] then none
  else
    let r := l.dropWhile isWs
    let ds := r.takeWhile isDigit
    if ds = [] then none else some (decVal ds, ws.length + ds.length)

/-- `\s+\w+` after `TUPLTYPE`: bytes consumed. -/
def keywordWord (l : List Nat) : Option Nat :=
  let ws := l.takeWhile isWs
  if ws = [] then none
  else
    let r := l.dropWhile isWs
    let wd := r.takeWhile isWord
    if wd = [] then none else some (ws.length + wd.length)

/-- One header item (the regex alternatives, in order): newline run, comment,
numeric field, or `TUPLTYPE` line. Returns the updated field state and the
bytes consumed. -/
def pamItem (st : PamState) (l : List Nat) : Option (PamState × Nat) :=
  match l with
  | [] => none
  | b :: _ =>
    if isNL b then some (st, (l.takeWhile isNL).length)
    else if b = 35 then some (st, ((l.drop 1).takeWhile (· ≠ 10)).length + 1)
    else if (strBytes "HEIGHT").isPrefixOf l then do
      let (v, n) ← keywordNum (l.drop 6)
      some ({st with height := some v}, 6 + n)
    else if (strBytes "WIDTH").isPrefixOf l then do
      let (v, n) ← keywordNum (l.drop 5)
      some ({st with width := some v}, 5 + n)
    else if (strBytes "DEPTH").isPrefixOf l then do
      let (v, n) ← keywordNum (l.drop 5)
      some ({st with depth := some v}, 5 + n)
    else if (strBytes "MAXVAL").isPrefixOf l then do
      let (v, n) ← keywordNum (l.drop 6)
      some ({st with maxval := some v}, 6 + n)
    else if (strBytes "TUPLTYPE").isPrefixOf l then do
      let n ← keywordWord (l.drop 8)
      some (st, 8 + n)
    else none

/-- Fueled greedy item loop followed by `ENDHDR\n`: returns the final field
state and the input left after the header region. Every item consumes at
least one byte, so `l.length + 1` steps of fuel suffice. -/
def pamLoopF : Nat → PamState → List Nat → Option (PamState × List Nat)
  | 0, _, _ => none
  | fuel + 1, st, l =>
    if (strBytes "ENDHDR\n").isPrefixOf l then some (st, l.drop 7)
    else match pamItem st l with
      | some (st', n) => pamLoopF fuel st' (l.drop n)
      | none => none

/-- The PAM header item loop at its natural fuel. -/
def pamLoop (st : PamState) (l : List Nat) : Option (PamState × List Nat) :=
  pamLoopF (l.length + 1) st l

/-- One attempted match of `TUPLTYPE\s+\w+` at the head of `l`: the captured
word (`split(None, 1)[1]` of the match) and the match length. -/
def tuplMatch1 (l : List Nat) : Option (List Nat × Nat) :=
  if (strBytes "TUPLTYPE").isPrefixOf l then
    let r := l.drop 8
    let ws := r.takeWhile isWs
    if ws = [] then none
    else
      let r2 := r.dropWhile isWs
      let wd := r2.takeWhile isWord
      if wd = [] then none else some (wd, 8 + ws.length + wd.length)
  else none

/-- Fueled scan for `re.findall(b"(TUPLTYPE\\s+\\w+)", header)` with each
match split after the keyword: left to right, collecting non-overlapping
matches; the scan advances at least one byte per step. -/
def findTupltypesF : Nat → List Nat → List (List Nat)
  | 0, _ => []
  | fuel + 1, l =>
    match tuplMatch1 l with
    | some (wd, n) => wd :: findTupltypesF fuel (l.drop n)
    | none =>
      match l with
      | [] => []
      | _ :: t => findTupltypesF fuel t

/-- The `TUPLTYPE` findall scan at its natural fuel. -/
def findTupltypes (l : List Nat) : List (List Nat) := findTupltypesF l.length l

/-- PAM header parser, modelling `_read_pam_header` plus the source's
mandatory-field behaviour: a missing `HEIGHT`/`WIDTH`/`DEPTH`/`MAXVAL` group
is `None`, `None.split()` raises, and `__init__` falls through to the classic
parser. -/
def pamHeader (data : List Nat) : Option Header :=
  if [80, 55].isPrefixOf data then
    if ((data.drop 2).takeWhile isNL) = [] then none
    else
      match pamLoop ⟨none, none, none, none⟩ ((data.drop 2).dropWhile isNL) with
      | none => none
      | some (st, rest) =>
        match st.height, st.width, st.depth, st.maxval with
        | some h, some w, some d, some m =>
          some { magic := .p7, width := w, height := h, maxval := m,
                 depth := d,
                 tupltypes := findTupltypes
                   (data.take (data.length - rest.length)),
                 hdrLen := data.length - rest.length }
        | _, _, _, _ => none
  else none

/-- Model of `NetpbmFile.__init__`'s header detection: read the first 4096
bytes, pre-check the length and second byte, try the PAM grammar, then the
classic grammar. `none` models `ValueError("Not a Netpbm file")`. -/
def parseHeader (s : List Nat) : Option Header :=
  let data := s.take 4096
  if data.length < 7 then none
  else if 48 < data.getD 1 0 ∧ data.getD 1 0 < 56 then
    match pamHeader data with
    | some h => some h
    | none => pnmHeader data
  else none

/-! ## Payload decoding (`_read_data`) -/

/-- Fueled whitespace tokenization of a byte string; every token consumes at
least one byte. -/
def wsTokensF : Nat → List Nat → List (List Nat)
  | 0, _ => []
  | fuel + 1, l =>
    match l.dropWhile isWs with
    | [] => []
    | b :: t =>
      ((b :: t).takeWhile (fun x => !isWs x))
        :: wsTokensF fuel ((b :: t).dropWhile (fun x => !isWs x))

/-- Whitespace tokenization (Python `bytes.split(None)`).
`data.split(None, size)[:size]` equals the first `size` tokens of the full
split, the remainder token (if any) being dropped by the slice. -/
def wsTokens (l : List Nat) : List (List Nat) := wsTokensF l.length l

/-- Conversion of one ASCII token by `np.array(tokens, dtype)`: the token must
be a decimal numeral that fits the target dtype (`int(tok)` then a checked
cast; numpy raises otherwise). -/
def tokenVal (bound : Nat) (t : List Nat) : Option Nat :=
  if t ≠ [] ∧ t.all isDigit ∧ decVal t < bound then some (decVal t) else none

/-- `np.reshape([-1, …])` with `rows` the product of the known dimensions:
the unknown dimension, failing (numpy `ValueError`) when `rows` is zero or
does not divide the element count. -/
def reshapeRows (n rows : Nat) : Option Nat :=
  if rows = 0 then none
  else if n % rows ≠ 0 then none
  else some (n / rows)

/-- Bit `t` (MSB first) of byte `b`. -/
def bitAt (b t : Nat) : Nat := b / 2 ^ (7 - t) % 2

/-- `np.unpackbits(data, axis=-2)[:, :, :width, :]` on an array of shape
`(k, height, rowbytes, d)` flattened as `bytes`: sample `(framerow, col, ch)`
is bit `col % 8` of byte `(framerow * rowbytes + col / 8) * d + ch`. -/
def unpack1bit (kh rb d w : Nat) (bytes : List Nat) : List Nat :=
  (List.range kh).flatMap fun fr =>
    (List.range w).flatMap fun c =>
      (List.range d).map fun ch =>
        bitAt (bytes.getD ((fr * rb + c / 8) * d + ch) 0) (c % 8)

/-- Big-endian 16-bit decoding (`dtype '>u2'`). -/
def decodeU2 : List Nat → List Nat
  | b0 :: b1 :: rest => (b0 * 256 + b1) :: decodeU2 rest
  | _ => []

/-- The `rgb332` lookup table:
`np.array(list(np.ndindex(8, 8, 4)), np.uint8) * [36, 36, 85]`. -/
def rgb332Table : List (List Nat) :=
  (List.range 8).flatMap fun i =>
    (List.range 8).flatMap fun j =>
      (List.range 4).map fun k => [i * 36, j * 36, k * 85]

/-- `np.take(rgb332, data, axis=0)`: expand each sample through the table
(numpy raises `IndexError` past the 256 rows). -/
def take332 (samples : List Nat) : Option (List Nat) :=
  if samples.all (· < 256) then
    some (samples.flatMap fun s => rgb332Table.getD s [])
  else none

/-- The ASCII branch of `_read_data` (`P1`/`P2`/`P3`): whitespace tokens
converted to numbers, then reshaped. -/
def readRawAscii (bound size : Nat) (payload : List Nat) :
    Option (Nat × List Nat) := do
  let vals ← ((wsTokens payload).take size).mapM (tokenVal bound)
  let k ← reshapeRows vals.length size
  some (k, vals)

/-- The bilevel branch of `_read_data` (`maxval == 1`): reshape the payload
into `(frames, height, rowbytes, d)` then unpack and slice the bits. -/
def readRawBits (h rb d w : Nat) (payload : List Nat) :
    Option (Nat × List Nat) := do
  let k ← reshapeRows payload.length (h * rb * d)
  some (k, unpack1bit (k * h) rb d w payload)

/-- The plain binary branch of `_read_data`: trim to one frame's bytes
(`data[:size]`), then `frombuffer` (element size must divide) and reshape. -/
def readRawBytes (itm size : Nat) (payload : List Nat) :
    Option (Nat × List Nat) :=
  let bytes := payload.take (size * itm)
  if bytes.length % itm ≠ 0 then none
  else do
    let k ← reshapeRows (bytes.length / itm) size
    some (k, if itm = 1 then bytes else decodeU2 bytes)

/-- The branch structure of `_read_data`: decode the payload (the stream
after the header region) into the reshape frame count and the raw
(pre-332-expansion) flat sample list. -/
def readRaw (hd : Header) (payload : List Nat) : Option (Nat × List Nat) :=
  let itm := if hd.maxval < 256 then 1 else 2
  let d' := if hd.magic = .p7_332 then 1 else hd.depth
  let size := hd.height * hd.width * d'
  if hd.magic = .p1 ∨ hd.magic = .p2 ∨ hd.magic = .p3 then
    readRawAscii (2 ^ (8 * itm)) size payload
  else if hd.maxval = 1 then
    readRawBits hd.height ((hd.width + 7) / 8) d' hd.width payload
  else
    readRawBytes itm size payload

/-- Model of `NetpbmFile._read_data`: seek past the header region, decode the
payload into a flat row-major sample list.  `none` models the exceptions the
source lets escape (reshape mismatch, bad or oversized ASCII token,
out-of-range table index; the squeeze `data.reshape(data.shape[1:])` raises
when the frame count is 0). -/
def readData (hd : Header) (s : List Nat) : Option Buffer := do
  let (k, raw) ← readRaw hd (s.drop hd.hdrLen)
  if k = 0 then none
  else do
    let samples ← if hd.magic = .p7_332 then take332 raw else some raw
    some { magic := hd.magic, width := hd.width, height := hd.height,
           maxval := hd.maxval, depth := hd.depth, tupltypes := hd.tupltypes,
           frames := k, samples }

/-- `NetpbmFile(stream).asarray()`: header detection then payload decoding. -/
def parseNetpbm (s : List Nat) : Option Buffer := do
  let h ← parseHeader s
  readData h s

/-! ## Serialization (`_tofile` / `_header`) -/

/-- Header bytes produced by `_header` (with `pam=False`: the `write` path
taken by the library). -/
def renderHeader (b : Buffer) : List Nat :=
  if b.magic = .p7 then
    strBytes "P7\nHEIGHT " ++ natToDec b.height
      ++ strBytes "\nWIDTH " ++ natToDec b.width
      ++ strBytes "\nDEPTH " ++ natToDec b.depth
      ++ strBytes "\nMAXVAL " ++ natToDec b.maxval ++ [10]
      ++ (match b.tupltypes with
          | [] => [10]
          | ts => ts.flatMap fun t => strBytes "TUPLTYPE " ++ t ++ [10])
      ++ strBytes "ENDHDR\n"
  else if b.maxval = 1 then
    strBytes "P4 " ++ natToDec b.width ++ [32] ++ natToDec b.height ++ [10]
  else if b.depth = 1 then
    strBytes "P5 " ++ natToDec b.width ++ [32] ++ natToDec b.height ++ [32]
      ++ natToDec b.maxval ++ [10]
  else
    strBytes "P6 " ++ natToDec b.width ++ [32] ++ natToDec b.height ++ [32]
      ++ natToDec b.maxval ++ [10]

/-- Significant bit of a sample for `np.packbits` (non-zero counts as 1). -/
def sigBit (v : Nat) : Nat := if v = 0 then 0 else 1

/-- Pack up to 8 samples into one byte, MSB first, zero-padded. -/
def packByte (grp : List Nat) : Nat :=
  (List.range 8).foldl (fun a t => a + sigBit (grp.getD t 0) * 2 ^ (7 - t)) 0

/-- `np.packbits(data, axis=-1)` on an array whose last axis has length `g`:
each length-`g` group of the row-major sample list is packed separately,
zero-padded to a byte boundary. -/
def packLast (g : Nat) (samples : List Nat) : List Nat :=
  (List.range (if g = 0 then 0 else samples.length / g)).flatMap fun i =>
    (List.range ((g + 7) / 8)).map fun j =>
      packByte ((samples.drop (i * g + 8 * j)).take (min 8 (g - 8 * j)))

/-- Payload bytes produced by `_tofile`: 1-bit data re-packed along the
squeezed array's **last** axis (the channel axis when depth ≥ 2, else the
width axis), other data written via `tofile` (u1 bytes, or big-endian u2
pairs). -/
def encodePayload (b : Buffer) : List Nat :=
  if b.maxval = 1 then
    packLast (if 2 ≤ b.depth then b.depth else b.width) b.samples
  else if b.maxval < 256 then b.samples.map (· % 256)
  else b.samples.flatMap fun v => [v / 256 % 256, v % 256]

/-- `_tofile`: header bytes then payload bytes. -/
def serialize (b : Buffer) : List Nat := renderHeader b ++ encodePayload b

/-! ## The `cr2fits` class helpers -/

/-- Row-major extraction of channel `idx` from an `(h, w, d)` array
(`image[:, :, idx]` for an in-range index). -/
def extractChannel (h w d idx : Nat) (samples : List Nat) : List Nat :=
  (List.range (h * w)).map fun p => samples.getD (p * d + idx) 0

/-- Model of `cr2fits.get_color` on an `(h, w, d)` image: numpy basic
indexing `image[:, :, index]` — in-range indices (including negative
wraparound) give a channel view, out-of-range indices raise `IndexError`. -/
def get_color (h w d : Nat) (samples : List Nat) (index : Int) : Option (List Nat) :=
  if 0 ≤ index ∧ index < d then
    some (extractChannel h w d index.toNat samples)
  else if -(d : Int) ≤ index ∧ index < 0 then
    some (extractChannel h w d (index + d).toNat samples)
  else none

/-- The channel step of `cr2fits.convert`: the raw sentinel (color 3) passes
the buffer through unchanged, otherwise `get_color` extracts the channel. -/
def convertChannel (colorInput : Nat) (h w d : Nat) (samples : List Nat) :
    Option (List Nat) :=
  if colorInput = 3 then some samples
  else get_color h w d samples colorInput

/-- The `colors` dictionary (`{0: "Red", 1: "Green", 2: "Blue", 3: "Raw"}`). -/
def colors (i : Nat) : Option String :=
  if i = 0 then some "Red"
  else if i = 1 then some "Green"
  else if i = 2 then some "Blue"
  else if i = 3 then some "Raw"
  else none

/-- Channel tag used in the destination name: `"RAW"` for the raw sentinel,
else the first letter of the color name. -/
def channelName (colorindex : Nat) : Option String :=
  if colorindex = 3 then some "RAW"
  else (colors colorindex).map fun s => s.take 1

/-- Python `str.split('.')`: split a character list on `'.'`, keeping empty
components. -/
def splitDots : List Char → List (List Char)
  | [] => [[]]
  | c :: t =>
    if c = '.' then [] :: splitDots t
    else match splitDots t with
      | [] => [[c]]
      | g :: gs => (c :: g) :: gs

/-- `"".join(filename.split('.')[:-1])`: the input filename with its last
dot-separated component removed and the remaining components concatenated
without separators. -/
def strippedName (filename : String) : String :=
  String.join (((splitDots filename.toList).dropLast).map fun l => String.mk l)

/-- The collision loop of `_generate_destination`: try
`{fn}-{ch}-{i}.fits` for `i = first, first+1, …` (`range(1, 9000000)`),
stopping at the first free name; if none is free the last tried name is
returned. -/
def searchName (existsF : String → Bool) (fn ch : String) :
    Nat → Nat → String
  | _, 0 => fn ++ "-" ++ ch ++ "-" ++ toString (8999999 : Nat) ++ ".fits"
  | i, fuel + 1 =>
    if existsF (fn ++ "-" ++ ch ++ "-" ++ toString i ++ ".fits") then
      if fuel = 0 then fn ++ "-" ++ ch ++ "-" ++ toString i ++ ".fits"
      else searchName existsF fn ch (i + 1) fuel
    else fn ++ "-" ++ ch ++ "-" ++ toString i ++ ".fits"

/-- Model of `cr2fits._generate_destination` with the filesystem abstracted
as the predicate `existsF`. -/
def generate_destination (existsF : String → Bool) (filename : String)
    (colorindex : Nat) : Option String := do
  let ch ← channelName colorindex
  let fn := strippedName filename
  let writename := fn ++ "-" ++ ch ++ ".fits"
  if existsF writename then some (searchName existsF fn ch 1 8999999)
  else some writename

/-! ## Auxiliary definitions used by the claim statements -/

/-- A stream whose payload is shorter than the header requires: fewer
whitespace-separated tokens than `width·height·depth` samples for the ASCII
variants, fewer bytes than the bit-packed row bytes for bilevel payloads,
fewer bytes than `width·height·depth·itemsize` otherwise. -/
def truncatedPayload (hd : Header) (s : List Nat) : Prop :=
  let payload := s.drop hd.hdrLen
  let d' := if hd.magic = .p7_332 then 1 else hd.depth
  if hd.magic = .p1 ∨ hd.magic = .p2 ∨ hd.magic = .p3 then
    (wsTokens payload).length < hd.height * hd.width * d'
  else if hd.maxval = 1 then
    payload.length < hd.height * ((hd.width + 7) / 8) * d'
  else
    payload.length < hd.height * hd.width * d' * (if hd.maxval < 256 then 1 else 2)

/-- Dot-joined rendering of components (used only by `specDestination`). -/
def joinDots : List (List Char) → List Char
  | [] => []
  | [g] => g
  | g :: gs => g ++ '.' :: joinDots gs

/-- Modelled from the spec: the destination name §6 describes — the input
filename with its extension stripped (only the part after the last dot
removed, earlier components kept verbatim) and `-<ChannelLetter>.fits`
appended. -/
def specDestination (filename ch : String) : String :=
  String.mk (joinDots ((splitDots filename.toList).dropLast))
    ++ "-" ++ ch ++ ".fits"

/-- Keys of the numeric PAM header fields. -/
inductive PamKey
  | height | width | depth | maxval
deriving DecidableEq, Repr

/-- Keyword bytes of a numeric PAM field. -/
def keyBytes : PamKey → List Nat
  | .height => strBytes "HEIGHT"
  | .width => strBytes "WIDTH"
  | .depth => strBytes "DEPTH"
  | .maxval => strBytes "MAXVAL"

/-- An abstract line of a P7 header region: a numeric field, a `TUPLTYPE`
line, or a comment line. -/
inductive PamLine
  | field (k : PamKey) (v : Nat)
  | tupl (word : List Nat)
  | comment (body : List Nat)
deriving DecidableEq, Repr

/-- Byte rendering of one header line (newline-terminated). -/
def renderLine : PamLine → List Nat
  | .field k v => keyBytes k ++ [32] ++ natToDec v ++ [10]
  | .tupl w => strBytes "TUPLTYPE " ++ w ++ [10]
  | .comment b => 35 :: (b ++ [10])

/-- Byte rendering of a header-line list. -/
def renderLines (ls : List PamLine) : List Nat := ls.flatMap renderLine

/-- Well-formedness of an abstract header line: `TUPLTYPE` words are nonempty
`\w+` tokens; comment bodies contain no newline (they could not be rendered on
one line otherwise) and no `T` (so they cannot alias a `TUPLTYPE` match). -/
def wfLine : PamLine → Prop
  | .field _ _ => True
  | .tupl w => w ≠ [] ∧ ∀ b ∈ w, isWord b = true
  | .comment b => ∀ x ∈ b, x ≠ 10 ∧ x ≠ 84

/-- Effect of one header line on the field state (`setattr`: last wins). -/
def applyLine (st : PamState) : PamLine → PamState
  | .field .height v => { st with height := some v }
  | .field .width v => { st with width := some v }
  | .field .depth v => { st with depth := some v }
  | .field .maxval v => { st with maxval := some v }
  | _ => st

/-- Value of the last occurrence of field `k` in a line list, if any. -/
def lastFieldVal (k : PamKey) (ls : List PamLine) : Option Nat :=
  ls.foldl (fun acc l => match l with
    | .field k2 v => if k2 = k then some v else acc
    | _ => acc) none

/-- The `TUPLTYPE` word of a line, if it is a `TUPLTYPE` line. -/
def tuplWord : PamLine → Option (List Nat)
  | .tupl w => some w
  | _ => none

/-- Byte streams are lists of values below 256. -/
def isByteStream (s : List Nat) : Prop := ∀ b ∈ s, b < 256

/-! ## Generic list lemmas -/

theorem takeWhile_append_eq {p : Nat → Bool} {l1 l2 : List Nat}
    (h1 : ∀ b ∈ l1, p b = true)
    (h2 : ∀ b, l2.head? = some b → p b = false) :
    (l1 ++ l2).takeWhile p = l1 := by
  induction l1 with
  | nil =>
    cases l2 with
    | nil => rfl
    | cons c t => simp [List.takeWhile_cons, h2 c rfl]
  | cons a t ih =>
    simp [List.takeWhile_cons, h1 a (by simp),
      ih (fun b hb => h1 b (by simp [hb]))]

theorem dropWhile_append_eq {p : Nat → Bool} {l1 l2 : List Nat}
    (h1 : ∀ b ∈ l1, p b = true)
    (h2 : ∀ b, l2.head? = some b → p b = false) :
    (l1 ++ l2).dropWhile p = l2 := by
  induction l1 with
  | nil =>
    cases l2 with
    | nil => rfl
    | cons c t => simp [List.dropWhile_cons, h2 c rfl]
  | cons a t ih =>
    simp [List.dropWhile_cons, h1 a (by simp),
      ih (fun b hb => h1 b (by simp [hb]))]

theorem getD_map_range (f : Nat → Nat) {n i : Nat} (hi : i < n) :
    ((List.range n).map f).getD i 0 = f i := by
  rw [List.getD_eq_getElem?_getD, List.getElem?_map, List.getElem?_range hi]
  rfl

theorem getD_append_left_eq {l1 l2 : List Nat} {i : Nat} (h : i < l1.length) :
    (l1 ++ l2).getD i 0 = l1.getD i 0 := by
  rw [List.getD_eq_getElem?_getD, List.getElem?_append_left h,
    List.getD_eq_getElem?_getD]

theorem getD_append_right_eq {l1 l2 : List Nat} {i : Nat}
    (h : l1.length ≤ i) :
    (l1 ++ l2).getD i 0 = l2.getD (i - l1.length) 0 := by
  rw [List.getD_eq_getElem?_getD, List.getElem?_append_right h,
    List.getD_eq_getElem?_getD]

theorem flatMap_range_succ (f : Nat → List Nat) (n : Nat) :
    (List.range (n + 1)).flatMap f
      = f 0 ++ (List.range n).flatMap (fun i => f (i + 1)) := by
  rw [List.range_succ_eq_map]
  simp [List.flatMap_cons, List.flatMap_map]

theorem flatMap_range_length (f : Nat → List Nat) (n m : Nat)
    (hlen : ∀ i, i < n → (f i).length = m) :
    ((List.range n).flatMap f).length = n * m := by
  induction n generalizing f with
  | zero => simp
  | succ n ih =>
    rw [flatMap_range_succ, List.length_append, hlen 0 (by omega),
      ih _ (fun i hi => hlen (i + 1) (by omega))]
    ring

theorem flatMap_range_getD (f : Nat → List Nat) {n m r j : Nat}
    (hlen : ∀ i, i < n → (f i).length = m) (hr : r < n) (hj : j < m) :
    ((List.range n).flatMap f).getD (r * m + j) 0 = (f r).getD j 0 := by
  induction r generalizing f n with
  | zero =>
    cases n with
    | zero => omega
    | succ n =>
      rw [flatMap_range_succ]
      rw [getD_append_left_eq (by rw [hlen 0 (by omega)]; omega)]
      simp
  | succ r ih =>
    cases n with
    | zero => omega
    | succ n =>
      rw [flatMap_range_succ]
      have hm : (r + 1) * m + j = m + (r * m + j) := by ring
      rw [getD_append_right_eq (by rw [hlen 0 (by omega)]; omega)]
      rw [hlen 0 (by omega)]
      have harith : (r + 1) * m + j - m = r * m + j := by omega
      rw [harith]
      exact ih (fun i => f (i + 1)) (fun i hi => hlen (i + 1) (by omega))
        (Nat.lt_of_succ_lt_succ hr)

theorem unpack1bit_getD {kh rb d w r c ch : Nat} (bytes : List Nat)
    (hr : r < kh) (hc : c < w) (hch : ch < d) :
    (unpack1bit kh rb d w bytes).getD ((r * w + c) * d + ch) 0
      = bitAt (bytes.getD ((r * rb + c / 8) * d + ch) 0) (c % 8) := by
  have hinner : ∀ fr, fr < kh →
      (((List.range w).flatMap fun c => (List.range d).map fun ch =>
        bitAt (bytes.getD ((fr * rb + c / 8) * d + ch) 0) (c % 8)).length)
        = w * d := by
    intro fr _
    exact flatMap_range_length _ _ _ (fun i _ => by simp)
  have hidx : (r * w + c) * d + ch = r * (w * d) + (c * d + ch) := by ring
  have hcd : c * d + ch < w * d := by nlinarith
  rw [unpack1bit, hidx, flatMap_range_getD _ hinner hr hcd,
    flatMap_range_getD _ (fun i _ => by simp) hc hch, getD_map_range _ hch]

theorem unpack1bit_length (kh rb d w : Nat) (bytes : List Nat) :
    (unpack1bit kh rb d w bytes).length = kh * (w * d) := by
  refine flatMap_range_length _ _ _ (fun i _ => ?_)
  exact flatMap_range_length _ _ _ (fun j _ => by simp)

theorem mapM_opt_length {α β : Type} {f : α → Option β} {l : List α}
    {vals : List β} (h : l.mapM f = some vals) :
    vals.length = l.length := by
  induction l generalizing vals with
  | nil =>
    rw [List.mapM_nil] at h
    simp at h
    simp [← h]
  | cons t ts ih =>
    rw [List.mapM_cons] at h
    rcases hv : f t with _ | v <;> rw [hv] at h
    · simp at h
    · rcases hvs : ts.mapM f with _ | vs <;> rw [hvs] at h
      · simp at h
      · have h2 : v :: vs = vals := Option.some.inj h
        simp [← h2, ih hvs]

/-! ## Evaluation lemmas for `readData` -/

theorem reshapeRows_self {n : Nat} (h : 0 < n) : reshapeRows n n = some 1 := by
  rw [reshapeRows, if_neg (by omega)]
  simp [Nat.mod_self, Nat.div_self h]

theorem reshapeRows_none_of_lt {n rows : Nat} (h0 : 0 < n) (h : n < rows) :
    reshapeRows n rows = none := by
  rw [reshapeRows, if_neg (by omega), if_pos]
  rw [Nat.mod_eq_of_lt h]
  omega

theorem reshapeRows_zero_pos {rows : Nat} (h : 0 < rows) :
    reshapeRows 0 rows = some 0 := by
  rw [reshapeRows, if_neg (by omega)]
  simp

theorem readData_of_readRaw_none {hd : Header} {s : List Nat}
    (h : readRaw hd (s.drop hd.hdrLen) = none) : readData hd s = none := by
  rw [readData, h]
  rfl

theorem readData_of_readRaw_zero {hd : Header} {s : List Nat}
    {raw : List Nat} (h : readRaw hd (s.drop hd.hdrLen) = some (0, raw)) :
    readData hd s = none := by
  rw [readData, h]
  rfl

theorem readRawAscii_trunc {bound size : Nat} {payload : List Nat}
    (h : (wsTokens payload).length < size) :
    readRawAscii bound size payload = none
      ∨ ∃ raw, readRawAscii bound size payload = some (0, raw) := by
  rw [readRawAscii]
  rcases hm : ((wsTokens payload).take size).mapM (tokenVal bound) with _ | vals
  · left
    rfl
  · have hvl : vals.length < size := by
      rw [mapM_opt_length hm]
      have := List.length_take size (wsTokens payload)
      omega
    rcases Nat.eq_zero_or_pos vals.length with hz | hp
    · right
      refine ⟨vals, ?_⟩
      show (reshapeRows vals.length size).bind (fun k => some (k, vals))
        = some (0, vals)
      rw [hz, reshapeRows_zero_pos (by omega)]
      rfl
    · left
      show (reshapeRows vals.length size).bind (fun k => some (k, vals))
        = none
      rw [reshapeRows_none_of_lt hp hvl]
      rfl

theorem readRawBits_trunc {h rb d w : Nat} {payload : List Nat}
    (hlt : payload.length < h * rb * d) :
    readRawBits h rb d w payload = none
      ∨ ∃ raw, readRawBits h rb d w payload = some (0, raw) := by
  rw [readRawBits]
  rcases Nat.eq_zero_or_pos payload.length with hz | hp
  · right
    refine ⟨unpack1bit (0 * h) rb d w payload, ?_⟩
    rw [hz, reshapeRows_zero_pos (by omega)]
    rfl
  · left
    rw [reshapeRows_none_of_lt hp hlt]
    rfl

theorem readRawBytes_trunc {itm size : Nat} {payload : List Nat}
    (hitm : 0 < itm) (hlt : payload.length < size * itm) :
    readRawBytes itm size payload = none
      ∨ ∃ raw, readRawBytes itm size payload = some (0, raw) := by
  rw [readRawBytes]
  have hsize : 0 < size := by
    rcases Nat.eq_zero_or_pos size with h0 | h0
    · subst h0
      simp at hlt
    · exact h0
  have htk : (payload.take (size * itm)).length = payload.length := by
    rw [List.length_take]
    omega
  by_cases hdvd : (payload.take (size * itm)).length % itm = 0
  · rw [if_neg (by omega)]
    have hcnt : (payload.take (size * itm)).length / itm < size := by
      rw [htk, Nat.div_lt_iff_lt_mul hitm]
      exact hlt
    rcases Nat.eq_zero_or_pos ((payload.take (size * itm)).length / itm)
      with hz | hp
    · right
      refine ⟨if itm = 1 then payload.take (size * itm)
        else decodeU2 (payload.take (size * itm)), ?_⟩
      rw [hz, reshapeRows_zero_pos hsize]
      rfl
    · left
      rw [reshapeRows_none_of_lt hp hcnt]
      rfl
  · rw [if_pos (by omega)]
    left
    rfl

/-- Evaluation of `_read_data` on a bilevel (`maxval == 1`) non-ASCII,
non-332 stream whose payload holds exactly one frame. -/
theorem readData_bilevel (hd : Header) (s : List Nat)
    (hascii : ¬(hd.magic = .p1 ∨ hd.magic = .p2 ∨ hd.magic = .p3))
    (h332 : hd.magic ≠ .p7_332) (hmax : hd.maxval = 1)
    (hlen : (s.drop hd.hdrLen).length
      = hd.height * ((hd.width + 7) / 8) * hd.depth)
    (hpos : 0 < hd.height * ((hd.width + 7) / 8) * hd.depth) :
    readData hd s = some
      { magic := hd.magic, width := hd.width, height := hd.height,
        maxval := hd.maxval, depth := hd.depth, tupltypes := hd.tupltypes,
        frames := 1,
        samples := unpack1bit (1 * hd.height) ((hd.width + 7) / 8) hd.depth
          hd.width (s.drop hd.hdrLen) } := by
  have hraw : readRaw hd (s.drop hd.hdrLen)
      = some (1, unpack1bit (1 * hd.height) ((hd.width + 7) / 8) hd.depth
          hd.width (s.drop hd.hdrLen)) := by
    rw [readRaw, if_neg hascii, if_pos hmax]
    simp only [if_neg h332]
    rw [readRawBits, hlen, reshapeRows_self hpos]
    rfl
  rw [readData, hraw]
  simp only [if_neg h332]
  rfl

/-! ## Header-length and dispatch lemmas -/

theorem pamLoopF_some_length {fuel : Nat} {st st' : PamState}
    {l rest : List Nat} (h : pamLoopF fuel st l = some (st', rest)) :
    rest.length + 7 ≤ l.length := by
  induction fuel generalizing st l with
  | zero => simp [pamLoopF] at h
  | succ fuel ih =>
    rw [pamLoopF] at h
    split at h
    · next hpre =>
      simp only [Option.some.injEq, Prod.mk.injEq] at h
      obtain ⟨-, h2⟩ := h
      have hlen : 7 ≤ l.length := by
        have := (List.isPrefixOf_iff_prefix.mp hpre).length_le
        simpa using this
      subst h2
      simp only [List.length_drop]
      omega
    · rcases hit : pamItem st l with _ | ⟨st2, n⟩ <;> rw [hit] at h
      · simp at h
      · have h1 := ih h
        have h2 : (l.drop n).length ≤ l.length := by simp
        omega

theorem pamHeader_some_length {data : List Nat} {hd : Header}
    (hp : pamHeader data = some hd) : 10 ≤ data.length := by
  rw [pamHeader] at hp
  by_cases hpre : [80, 55].isPrefixOf data
  · rw [if_pos hpre] at hp
    by_cases hnl : ((data.drop 2).takeWhile isNL) = []
    · rw [if_pos hnl] at hp
      exact absurd hp (by simp)
    · rw [if_neg hnl] at hp
      rcases hloop : pamLoop ⟨none, none, none, none⟩
          ((data.drop 2).dropWhile isNL) with _ | ⟨st, rest⟩ <;>
        rw [hloop] at hp
      · exact absurd hp (by simp)
      · rw [pamLoop] at hloop
        have hlen := pamLoopF_some_length hloop
        have hsplit : (data.drop 2).length
            = ((data.drop 2).takeWhile isNL).length
              + ((data.drop 2).dropWhile isNL).length := by
          conv_lhs => rw [← @List.takeWhile_append_dropWhile Nat isNL (data.drop 2)]
          rw [List.length_append]
        have hnl1 : 1 ≤ ((data.drop 2).takeWhile isNL).length := by
          rcases hq : ((data.drop 2).takeWhile isNL) with _ | ⟨x, xs⟩
          · exact absurd hq hnl
          · simp
        have hdl : (data.drop 2).length = data.length - 2 := by simp
        have hpl : 2 ≤ data.length := by
          have := (List.isPrefixOf_iff_prefix.mp hpre).length_le
          simpa using this
        omega
  · rw [if_neg hpre] at hp
    exact absurd hp (by simp)

theorem spanWs1_some_length {l l1 : List Nat} (h : spanWs1 l = some l1) :
    l1.length + 1 ≤ l.length := by
  rw [spanWs1] at h
  split at h
  · exact absurd h (by simp)
  · next hne =>
    simp only [Option.some.injEq] at h
    subst h
    have hone : 1 ≤ (l.takeWhile isWs).length := by
      rcases hq : l.takeWhile isWs with _ | _
      · exact absurd hq hne
      · simp
    have htotal : (l.takeWhile isWs).length + (l.dropWhile isWs).length
        = l.length := by
      rw [← List.length_append, List.takeWhile_append_dropWhile]
    omega

theorem parseDigits_some_length {l : List Nat} {v : Nat} {l1 : List Nat}
    (h : parseDigits l = some (v, l1)) : l1.length + 1 ≤ l.length := by
  rw [parseDigits] at h
  split at h
  · exact absurd h (by simp)
  · next hne =>
    simp only [Option.some.injEq, Prod.mk.injEq] at h
    obtain ⟨-, h1⟩ := h
    subst h1
    have hone : 1 ≤ (l.takeWhile isDigit).length := by
      rcases hq : l.takeWhile isDigit with _ | _
      · exact absurd hq hne
      · simp
    have htotal : (l.takeWhile isDigit).length + (l.dropWhile isDigit).length
        = l.length := by
      rw [← List.length_append, List.takeWhile_append_dropWhile]
    omega

theorem commentsAF_length_le (fuel : Nat) (l : List Nat) :
    (commentsAF fuel l).length ≤ l.length := by
  induction fuel generalizing l with
  | zero => simp [commentsAF]
  | succ fuel ih =>
    rw [commentsAF]
    rcases commentA1 l with _ | k
    · exact le_rfl
    · calc (commentsAF fuel (l.drop k)).length
          ≤ (l.drop k).length := ih (l.drop k)
        _ ≤ l.length := by simp

theorem commentsA_length_le (l : List Nat) :
    (commentsA l).length ≤ l.length := commentsAF_length_le l.length l

theorem commentsBF_length_le (fuel : Nat) (l : List Nat) :
    (commentsBF fuel l).length ≤ l.length := by
  induction fuel generalizing l with
  | zero => simp [commentsBF]
  | succ fuel ih =>
    rw [commentsBF]
    rcases commentB1 l with _ | k
    · exact le_rfl
    · calc (commentsBF fuel (l.drop k)).length
          ≤ (l.drop k).length := ih (l.drop k)
        _ ≤ l.length := by simp

theorem commentsB_length_le (l : List Nat) :
    (commentsB l).length ≤ l.length := commentsBF_length_le l.length l

theorem pnmField_some_length {l : List Nat} {v : Nat} {l3 : List Nat}
    (h : pnmField l = some (v, l3)) : l3.length + 2 ≤ l.length := by
  rw [pnmField] at h
  rcases hd : parseDigits (l.dropWhile isWs) with _ | ⟨v1, l1⟩ <;>
    rw [hd] at h <;> dsimp only at h
  · exact absurd h (by simp)
  · rcases hw : spanWs1 l1 with _ | l2 <;> rw [hw] at h
    · exact absurd h (by simp)
    · simp only [Option.some.injEq, Prod.mk.injEq] at h
      obtain ⟨-, h2⟩ := h
      subst h2
      have c1 := parseDigits_some_length hd
      have c2 := spanWs1_some_length hw
      have c3 := commentsA_length_le l2
      have c4 : (l.dropWhile isWs).length ≤ l.length :=
        (List.dropWhile_sublist isWs).length_le
      omega

theorem pnmLastField_some_length {l : List Nat} {v : Nat} {l4 : List Nat}
    (h : pnmLastField l = some (v, l4)) : l4.length + 2 ≤ l.length := by
  rw [pnmLastField] at h
  rcases hd : parseDigits (l.dropWhile isWs) with _ | ⟨v1, l1⟩ <;>
    rw [hd] at h <;> dsimp only at h
  · exact absurd h (by simp)
  · have c1 := parseDigits_some_length hd
    have c4 : (l.dropWhile isWs).length ≤ l.length :=
      (List.dropWhile_sublist isWs).length_le
    rcases hl1 : l1 with _ | ⟨b, r⟩ <;> rw [hl1] at h <;> dsimp only at h
    · exact absurd h (by simp)
    · split at h
      · simp only [Option.some.injEq, Prod.mk.injEq] at h
        obtain ⟨-, h2⟩ := h
        subst h2
        subst hl1
        simp only [List.length_cons] at c1
        omega
      · exact absurd h (by simp)

theorem parsePnmMagic_some_length {data : List Nat} {mg : Magic}
    {l0 : List Nat} (hm : parsePnmMagic data = some (mg, l0)) :
    l0.length + 2 ≤ data.length := by
  rw [parsePnmMagic] at hm
  repeat' split at hm
  all_goals
    first
    | exact Option.noConfusion hm
    | (next hpre =>
        simp only [Option.some.injEq, Prod.mk.injEq] at hm
        obtain ⟨-, h2⟩ := hm
        subst h2
        have := (List.isPrefixOf_iff_prefix.mp hpre).length_le
        simp only [List.length_drop]
        simp only [List.length_cons, List.length_nil] at this
        omega)

theorem pnmHeader_some_length {data : List Nat} {hd : Header}
    (hp : pnmHeader data = some hd) : 7 ≤ data.length := by
  rw [pnmHeader] at hp
  rcases hm : parsePnmMagic data with _ | ⟨mg, l0⟩ <;> rw [hm] at hp <;>
    dsimp only at hp
  · exact absurd hp (by simp)
  · have c0 := parsePnmMagic_some_length hm
    rcases hw : spanWs1 l0 with _ | l1 <;> rw [hw] at hp <;> dsimp only at hp
    · exact absurd hp (by simp)
    · have c1 := spanWs1_some_length hw
      rcases hf : pnmField (commentsA l1) with _ | ⟨w, l3⟩ <;> rw [hf] at hp <;>
        dsimp only at hp
      · exact absurd hp (by simp)
      · have c2 := commentsA_length_le l1
        have c3 := pnmField_some_length hf
        split at hp
        · rcases hlf : pnmLastField l3 with _ | ⟨h2, l4⟩ <;> rw [hlf] at hp <;>
            dsimp only at hp
          · exact absurd hp (by simp)
          · have c4 := pnmLastField_some_length hlf
            omega
        · rcases hf2 : pnmField l3 with _ | ⟨h2, l3b⟩ <;> rw [hf2] at hp <;>
            dsimp only at hp
          · exact absurd hp (by simp)
          · rcases hlf : pnmLastField l3b with _ | ⟨m2, l4⟩ <;>
              rw [hlf] at hp <;> dsimp only at hp
            · exact absurd hp (by simp)
            · have c4 := pnmField_some_length hf2
              have c5 := pnmLastField_some_length hlf
              omega

theorem pamHeader_none_of_not_p7 {data : List Nat}
    (h : ¬ [80, 55].isPrefixOf data) : pamHeader data = none := by
  rw [pamHeader, if_neg h]

theorem pamHeader_none_of_no_nl {data : List Nat}
    (h : ((data.drop 2).takeWhile isNL) = []) : pamHeader data = none := by
  rw [pamHeader]
  split
  all_goals rfl

theorem pnmHeader_none_of_no_magic {data : List Nat}
    (h : parsePnmMagic data = none) : pnmHeader data = none := by
  rw [pnmHeader, h]

theorem isPrefixOf_take {p l : List Nat} {n : Nat} (hn : p.length ≤ n) :
    p.isPrefixOf (l.take n) = p.isPrefixOf l := by
  by_cases hb : p.isPrefixOf l = true
  · rw [hb, List.isPrefixOf_iff_prefix]
    exact List.prefix_take_iff.mpr
      ⟨List.isPrefixOf_iff_prefix.mp hb, hn⟩
  · rw [Bool.not_eq_true] at hb
    rw [hb]
    rw [Bool.eq_false_iff]
    intro habs
    rw [List.isPrefixOf_iff_prefix] at habs
    have : p <+: l := habs.trans (List.take_prefix n l)
    rw [← List.isPrefixOf_iff_prefix] at this
    simp [this] at hb

theorem getD_take_eq {l : List Nat} {n i : Nat} (h : i < n) :
    (l.take n).getD i 0 = l.getD i 0 := by
  rw [List.getD_eq_getElem?_getD, List.getD_eq_getElem?_getD,
    List.getElem?_take, if_pos h]

/-! ## C3: packed-RGB-332 decoding -/

set_option maxRecDepth 10000 in
/-- C3: for every payload byte `b` in `0..255` of a packed-RGB-332 stream,
decoding expands `b` into exactly the three samples
`(b / 32) · 36`, `((b / 4) % 8) · 36` and `(b % 4) · 85`, via the 256-entry
lookup table; in particular `0xE0` decodes to `R = 252, G = 0, B = 0`
(checked in the witness). -/
theorem c3_rgb332_decode : ∀ b, b < 256 →
    readData { magic := .p7_332, width := 1, height := 1, maxval := 255,
               depth := 3, tupltypes := [strBytes "RGB"], hdrLen := 0 } [b]
      = some { magic := .p7_332, width := 1, height := 1, maxval := 255,
               depth := 3, tupltypes := [strBytes "RGB"], frames := 1,
               samples := [b / 32 * 36, b / 4 % 8 * 36, b % 4 * 85] } := by
  decide

/-- Witness for C3 at the claim's example byte `0xE0 = 224`:
`R = 7·36 = 252`, `G = 0`, `B = 0`. -/
theorem c3_rgb332_decode_witness :
    readData { magic := .p7_332, width := 1, height := 1, maxval := 255,
               depth := 3, tupltypes := [strBytes "RGB"], hdrLen := 0 } [224]
      = some { magic := .p7_332, width := 1, height := 1, maxval := 255,
               depth := 3, tupltypes := [strBytes "RGB"], frames := 1,
               samples := [252, 0, 0] } :=
  c3_rgb332_decode 224 (by decide)

/-! ## C2: bilevel (1-bit) payload unpacking -/

/-- C2: for a binary 1-bit stream (`max_value == 1`), payload bytes are
unpacked MSB-first along the width axis with each row padded to a byte
boundary (`⌈width/8⌉` bytes per row), and padding bits beyond `width` are
discarded: the decode of a one-frame payload yields `height·width·depth`
samples, and sample `(r, c, ch)` equals bit `c % 8` (MSB first) of payload
byte `(r·⌈width/8⌉ + c/8)·depth + ch`. The claim's width-10 instance is the
witness. -/
theorem c2_bilevel_unpack (mg : Magic) (w h d hl : Nat) (tt : List (List Nat))
    (s : List Nat) (r c ch : Nat)
    (hmg : mg ≠ .p1 ∧ mg ≠ .p2 ∧ mg ≠ .p3 ∧ mg ≠ .p7_332)
    (hlen : (s.drop hl).length = h * ((w + 7) / 8) * d)
    (hw : 0 < w) (hh : 0 < h) (hd : 0 < d)
    (hr : r < h) (hc : c < w) (hch : ch < d) :
    ∃ buf,
      readData { magic := mg, width := w, height := h, maxval := 1, depth := d,
                 tupltypes := tt, hdrLen := hl } s = some buf
      ∧ buf.samples.length = h * (w * d)
      ∧ buf.samples.getD ((r * w + c) * d + ch) 0
          = bitAt ((s.drop hl).getD ((r * ((w + 7) / 8) + c / 8) * d + ch) 0)
              (c % 8) := by
  obtain ⟨h1, h2, h3, h4⟩ := hmg
  have hrb : 0 < (w + 7) / 8 := by omega
  have hpos : 0 < h * ((w + 7) / 8) * d := by positivity
  refine ⟨_, readData_bilevel _ s (by simp [h1, h2, h3]) (by simp [h4]) rfl
    (by simpa using hlen) (by simpa using hpos), ?_, ?_⟩
  · simpa using unpack1bit_length (1 * h) ((w + 7) / 8) d w (s.drop hl)
  · have := @unpack1bit_getD (1 * h) ((w + 7) / 8) d w r c ch
      (s.drop hl) (by omega) hc hch
    simpa using this

/-- Witness for C2 at the claim's instance: width 10, height 1, payload
bytes `0b10101010, 0b10000000` (pattern `1010101010` then 6 padding bits)
decode to the row `[1,0,1,0,1,0,1,0,1,0]`. -/
theorem c2_bilevel_unpack_witness :
    (∃ buf,
      readData { magic := .p4, width := 10, height := 1, maxval := 1,
                 depth := 1, tupltypes := [strBytes "BLACKANDWHITE"],
                 hdrLen := 8 } (strBytes "P4 10 1\n" ++ [170, 128]) = some buf
      ∧ buf.samples.length = 1 * (10 * 1)
      ∧ buf.samples.getD ((0 * 10 + 2) * 1 + 0) 0
          = bitAt (((strBytes "P4 10 1\n" ++ [170, 128]).drop 8).getD
              ((0 * ((10 + 7) / 8) + 2 / 8) * 1 + 0) 0) (2 % 8))
    ∧ (parseNetpbm (strBytes "P4 10 1\n" ++ [170, 128])).map Buffer.samples
        = some [1, 0, 1, 0, 1, 0, 1, 0, 1, 0] :=
  ⟨c2_bilevel_unpack .p4 10 1 1 8 [strBytes "BLACKANDWHITE"]
      (strBytes "P4 10 1\n" ++ [170, 128]) 0 2 0
      (by refine ⟨?_, ?_, ?_, ?_⟩ <;> decide) (by decide)
      (by decide) (by decide) (by decide) (by decide) (by decide) (by decide),
    by decide⟩

/-! ## C5: truncated payloads -/

/-- C5: a stream whose payload is truncated — fewer payload bytes (binary
variants) or fewer decimal tokens (ASCII variants) than the header requires —
fails to decode instead of returning a buffer. -/
theorem c5_truncated_payload (hd : Header) (s : List Nat)
    (h : truncatedPayload hd s) : readData hd s = none := by
  rw [truncatedPayload] at h
  have key : readRaw hd (s.drop hd.hdrLen) = none
      ∨ ∃ raw, readRaw hd (s.drop hd.hdrLen) = some (0, raw) := by
    rw [readRaw]
    by_cases hascii : hd.magic = .p1 ∨ hd.magic = .p2 ∨ hd.magic = .p3
    · rw [if_pos hascii] at h ⊢
      exact readRawAscii_trunc h
    · rw [if_neg hascii] at h ⊢
      by_cases hmax : hd.maxval = 1
      · rw [if_pos hmax] at h ⊢
        exact readRawBits_trunc h
      · rw [if_neg hmax] at h ⊢
        refine readRawBytes_trunc ?_ h
        split <;> omega
  rcases key with hnone | ⟨raw, hzero⟩
  · exact readData_of_readRaw_none hnone
  · exact readData_of_readRaw_zero hzero

/-- Witness for C5: a 2×2 8-bit grayscale stream with a 3-byte payload. -/
theorem c5_truncated_payload_witness :
    readData { magic := .p5, width := 2, height := 2, maxval := 255,
               depth := 1, tupltypes := [strBytes "GRAYSCALE"], hdrLen := 11 }
        (strBytes "P5 2 2 255\n" ++ [7, 8, 9]) = none :=
  c5_truncated_payload _ _ (by rw [truncatedPayload]; decide)

/-! ## C9: destination-name generation -/

theorem searchName_finds (existsF : String → Bool) (fn ch : String)
    (i j fuel : Nat) (hij : i ≤ j) (hfuel : j - i < fuel)
    (htaken : ∀ t, i ≤ t → t < j →
      existsF (fn ++ "-" ++ ch ++ "-" ++ toString t ++ ".fits") = true)
    (hfree : existsF (fn ++ "-" ++ ch ++ "-" ++ toString j ++ ".fits")
      = false) :
    searchName existsF fn ch i fuel
      = fn ++ "-" ++ ch ++ "-" ++ toString j ++ ".fits" := by
  induction fuel generalizing i with
  | zero => omega
  | succ fuel ih =>
    rw [searchName]
    by_cases hi : i = j
    · subst hi
      rw [hfree]
      simp
    · have hlt : i < j := by omega
      rw [htaken i le_rfl hlt, if_pos rfl,
        if_neg (by omega : ¬fuel = 0)]
      exact ih (i + 1) (by omega) (by omega)
        (fun t ht1 ht2 => htaken t (by omega) ht2)

/-- C9 counterexample: the claim says the output stem is the input filename
with its extension stripped, but the source runs
`"".join(filename.split('.')[:-1])`, which also deletes interior dots:
on `my.photo.cr2` the generated name is `myphoto-G.fits`, not the claimed
`my.photo-G.fits`. -/
theorem c9_counterexample :
    generate_destination (fun _ => false) "my.photo.cr2" 1
        = some "myphoto-G.fits"
      ∧ specDestination "my.photo.cr2" "G" = "my.photo-G.fits"
      ∧ ("myphoto-G.fits" : String) ≠ "my.photo-G.fits" := by
  refine ⟨by decide, by decide, by decide⟩

/-- C9 (amended): the destination stem is the input filename split on dots
with the last component dropped and the rest concatenated (interior dots
removed); `-<ChannelLetter>.fits` is appended; when that name exists, the
names `-1`, `-2`, … are tried in order (bounded at 8999999) and the first
unused one is returned. -/
theorem c9_destination_naming (existsF : String → Bool) (filename ch : String)
    (ci : Nat) (hch : channelName ci = some ch) :
    (existsF (strippedName filename ++ "-" ++ ch ++ ".fits") = false →
      generate_destination existsF filename ci
        = some (strippedName filename ++ "-" ++ ch ++ ".fits"))
    ∧ (∀ j, 1 ≤ j → j ≤ 8999999 →
        existsF (strippedName filename ++ "-" ++ ch ++ ".fits") = true →
        (∀ t, 1 ≤ t → t < j → existsF (strippedName filename ++ "-" ++ ch
          ++ "-" ++ toString t ++ ".fits") = true) →
        existsF (strippedName filename ++ "-" ++ ch ++ "-" ++ toString j
          ++ ".fits") = false →
        generate_destination existsF filename ci
          = some (strippedName filename ++ "-" ++ ch ++ "-" ++ toString j
            ++ ".fits")) := by
  have hgen : generate_destination existsF filename ci
      = if existsF (strippedName filename ++ "-" ++ ch ++ ".fits")
        then some (searchName existsF (strippedName filename) ch 1 8999999)
        else some (strippedName filename ++ "-" ++ ch ++ ".fits") := by
    rw [generate_destination, hch]
    rfl
  constructor
  · intro hfree
    rw [hgen, hfree]
    simp
  · intro j hj1 hj2 hbase htaken hfree
    rw [hgen, hbase, if_pos rfl,
      searchName_finds existsF (strippedName filename) ch 1 j 8999999 hj1
        (by omega) htaken hfree]

/-- Witness for C9: with `photo-G.fits` taken, the result is
`photo-G-1.fits`. -/
theorem c9_destination_naming_witness :
    generate_destination (fun n => n == "photo-G.fits") "photo.cr2" 1
      = some "photo-G-1.fits" :=
  (c9_destination_naming (fun n => n == "photo-G.fits") "photo.cr2" "G" 1
    (by decide)).2 1 (by decide) (by decide) (by decide)
    (fun t ht1 ht2 => by omega) (by decide)

/-! ## C7, C8, C10: channel extraction -/

/-- C7: on a depth-3 buffer, extracting channel `i < 3` yields a depth-1
buffer whose sample at every pixel `(r, c)` equals the original buffer's
channel-`i` sample there (same width and height), and the full-buffer
sentinel (index 3) passes the buffer through unchanged. -/
theorem c7_channel_extraction (h w : Nat) (samples : List Nat) (i : Nat)
    (hi : i < 3) :
    get_color h w 3 samples (i : Int)
        = some (extractChannel h w 3 i samples)
      ∧ (extractChannel h w 3 i samples).length = h * w
      ∧ (∀ r, r < h → ∀ c, c < w →
          (extractChannel h w 3 i samples).getD (r * w + c) 0
            = samples.getD ((r * w + c) * 3 + i) 0)
      ∧ convertChannel 3 h w 3 samples = some samples := by
  refine ⟨?_, by simp [extractChannel], ?_, rfl⟩
  · rw [get_color, if_pos ⟨Int.natCast_nonneg i, by exact_mod_cast hi⟩]
    simp
  · intro r hr c hc
    have hp : r * w + c < h * w := by nlinarith
    rw [extractChannel, getD_map_range _ hp]

/-- Witness for C7 on a concrete 1×2×3 buffer, extracting the middle
channel. -/
theorem c7_channel_extraction_witness :
    (get_color 1 2 3 [10, 20, 30, 40, 50, 60] ((1 : Nat) : Int)
        = some (extractChannel 1 2 3 1 [10, 20, 30, 40, 50, 60])
      ∧ (extractChannel 1 2 3 1 [10, 20, 30, 40, 50, 60]).length = 1 * 2
      ∧ (∀ r, r < 1 → ∀ c, c < 2 →
          (extractChannel 1 2 3 1 [10, 20, 30, 40, 50, 60]).getD (r * 2 + c) 0
            = [10, 20, 30, 40, 50, 60].getD ((r * 2 + c) * 3 + 1) 0)
      ∧ convertChannel 3 1 2 3 [10, 20, 30, 40, 50, 60]
        = some [10, 20, 30, 40, 50, 60])
    ∧ extractChannel 1 2 3 1 [10, 20, 30, 40, 50, 60] = [20, 50] :=
  ⟨c7_channel_extraction 1 2 [10, 20, 30, 40, 50, 60] 1 (by decide), by decide⟩

/-- C8: a channel index at or above the buffer's depth makes `get_color`
fail (numpy raises `IndexError`, the spec's `RangeError`), with no silent
wraparound. -/
theorem c8_index_out_of_range (h w d : Nat) (samples : List Nat) (i : Int)
    (hi : (d : Int) ≤ i) : get_color h w d samples i = none := by
  have hd : (0 : Int) ≤ (d : Int) := Int.natCast_nonneg d
  rw [get_color, if_neg (by omega), if_neg (by omega)]

/-- Witness for C8: index 5 on a depth-3 buffer. -/
theorem c8_index_out_of_range_witness :
    get_color 1 2 3 [10, 20, 30, 40, 50, 60] 5 = none :=
  c8_index_out_of_range 1 2 3 [10, 20, 30, 40, 50, 60] 5 (by decide)

/-- C10 (implicit): a negative channel index `-3 ≤ i ≤ -1` on a depth-3
buffer does not fail; it silently returns the channel at position
`depth + i` (numpy wraparound). -/
theorem c10_negative_index_wraps (h w : Nat) (samples : List Nat) (i : Int)
    (h1 : -3 ≤ i) (h2 : i < 0) :
    get_color h w 3 samples i
        = some (extractChannel h w 3 (i + 3).toNat samples)
      ∧ get_color h w 3 samples i = get_color h w 3 samples (i + 3) := by
  have he : get_color h w 3 samples i
      = some (extractChannel h w 3 (i + 3).toNat samples) := by
    rw [get_color, if_neg (by omega), if_pos ⟨by exact_mod_cast h1, h2⟩]
    norm_num
  refine ⟨he, he.trans ?_⟩
  rw [get_color, if_pos ⟨by omega, by omega⟩]

/-- Witness for C10: index `-1` returns the blue channel. -/
theorem c10_negative_index_wraps_witness :
    (get_color 1 2 3 [10, 20, 30, 40, 50, 60] (-1)
        = some (extractChannel 1 2 3 (-1 + 3).toNat [10, 20, 30, 40, 50, 60])
      ∧ get_color 1 2 3 [10, 20, 30, 40, 50, 60] (-1)
        = get_color 1 2 3 [10, 20, 30, 40, 50, 60] (-1 + 3))
    ∧ get_color 1 2 3 [10, 20, 30, 40, 50, 60] (-1) = some [30, 60] :=
  ⟨c10_negative_index_wraps 1 2 [10, 20, 30, 40, 50, 60] (-1)
      (by decide) (by decide),
    by decide⟩

/-! ## C4: header grammar selection -/

theorem parseHeader_unfold (s : List Nat) :
    parseHeader s =
      if (s.take 4096).length < 7 then none
      else if 48 < (s.take 4096).getD 1 0 ∧ (s.take 4096).getD 1 0 < 56 then
        match pamHeader (s.take 4096) with
        | some h => some h
        | none => pnmHeader (s.take 4096)
      else none := rfl

theorem parsePnmMagic_none_of {l : List Nat}
    (h1 : ¬ [80, 49].isPrefixOf l) (h2 : ¬ [80, 50].isPrefixOf l)
    (h3 : ¬ [80, 51].isPrefixOf l) (h4 : ¬ [80, 52].isPrefixOf l)
    (h5 : ¬ [80, 53].isPrefixOf l) (h6 : ¬ [80, 54].isPrefixOf l)
    (h7 : ¬ [80, 55, 32, 51, 51, 50].isPrefixOf l) :
    parsePnmMagic l = none := by
  rw [parsePnmMagic, if_neg h1, if_neg h2, if_neg h3, if_neg h4, if_neg h5,
    if_neg h6, if_neg h7]

theorem pamHeader_none_of_short {data : List Nat} (h : data.length < 10) :
    pamHeader data = none := by
  rcases hq : pamHeader data with _ | hd
  · rfl
  · exact absurd (pamHeader_some_length hq) (by omega)

theorem pnmHeader_none_of_short {data : List Nat} (h : data.length < 7) :
    pnmHeader data = none := by
  rcases hq : pnmHeader data with _ | hd
  · rfl
  · exact absurd (pnmHeader_some_length hq) (by omega)

/-- C4 counterexample: the stream `P7 332 2 1 255\n\0\0` starts with the
token `P7` *not* followed by a newline (byte 2 is a space); the PAM grammar
rejects it, yet header parsing succeeds via the classic grammar instead of
failing, contradicting the claimed trichotomy. -/
theorem c4_counterexample :
    (strBytes "P7 332 2 1 255\n" ++ [0, 0]).take 2 = strBytes "P7"
    ∧ (strBytes "P7 332 2 1 255\n" ++ [0, 0]).getD 2 0 = 32
    ∧ pamHeader (strBytes "P7 332 2 1 255\n" ++ [0, 0]) = none
    ∧ parseHeader (strBytes "P7 332 2 1 255\n" ++ [0, 0])
        = some { magic := .p7_332, width := 2, height := 1, maxval := 255,
                 depth := 3, tupltypes := [strBytes "RGB"], hdrLen := 15 } := by
  refine ⟨by decide, by decide, by decide, by decide⟩

/-- C4 (amended): header parsing dispatches on the leading bytes of the
first 4096-byte window as follows: a stream starting with `P7` followed by a
newline byte (`\n` or `\r`) is handled by the self-describing (PAM) grammar
alone; a stream starting with `P1`-`P6`, and also one starting with the
six-byte classic token `P7 332`, is handled by the classic (PNM) grammar
alone; any other stream fails (`ValueError`, modelled as `none`).  (In
particular a failing PAM parse of a `P7\n` stream is *not* rescued by the
classic grammar, and the global minimum-length/second-byte gate is absorbed
by the grammars themselves.) -/
theorem c4_header_dispatch (s : List Nat) :
    parseHeader s =
      if [80, 55, 10].isPrefixOf s ∨ [80, 55, 13].isPrefixOf s then
        pamHeader (s.take 4096)
      else if [80, 49].isPrefixOf s ∨ [80, 50].isPrefixOf s
          ∨ [80, 51].isPrefixOf s ∨ [80, 52].isPrefixOf s
          ∨ [80, 53].isPrefixOf s ∨ [80, 54].isPrefixOf s then
        pnmHeader (s.take 4096)
      else if [80, 55, 32, 51, 51, 50].isPrefixOf s then
        pnmHeader (s.take 4096)
      else none := by
  by_cases hshort : s.length < 7
  · have h1 : parseHeader s = none := by
      rw [parseHeader_unfold, if_pos (by simp only [List.length_take]; omega)]
    have h2 : pamHeader (s.take 4096) = none :=
      pamHeader_none_of_short (by simp only [List.length_take]; omega)
    have h3 : pnmHeader (s.take 4096) = none :=
      pnmHeader_none_of_short (by simp only [List.length_take]; omega)
    rw [h1, h2, h3]
    simp only [ite_self]
  · have hlen : ¬ (s.take 4096).length < 7 := by
      simp only [List.length_take]
      omega
    rw [parseHeader_unfold, if_neg hlen]
    by_cases hA : [80, 55, 10].isPrefixOf s ∨ [80, 55, 13].isPrefixOf s
    · rw [if_pos hA]
      have hshape : ∃ c t, (c = 10 ∨ c = 13) ∧ s = 80 :: 55 :: c :: t := by
        rcases hA with h | h
        · obtain ⟨t, ht⟩ := List.isPrefixOf_iff_prefix.mp h
          exact ⟨10, t, Or.inl rfl, ht.symm⟩
        · obtain ⟨t, ht⟩ := List.isPrefixOf_iff_prefix.mp h
          exact ⟨13, t, Or.inr rfl, ht.symm⟩
      obtain ⟨c, t, hc, rfl⟩ := hshape
      have hb1 : ((80 :: 55 :: c :: t).take 4096).getD 1 0 = 55 := by
        rw [getD_take_eq (by norm_num)]
        rfl
      rw [hb1, if_pos (by norm_num)]
      rcases hq : pamHeader ((80 :: 55 :: c :: t).take 4096) with _ | hd <;>
        dsimp only
      apply pnmHeader_none_of_no_magic
      have hdata : (80 :: 55 :: c :: t).take 4096
          = 80 :: 55 :: c :: t.take 4093 := rfl
      rw [hdata]
      rcases hc with rfl | rfl
      · rfl
      · rfl
    · rw [if_neg hA]
      by_cases hB : [80, 49].isPrefixOf s ∨ [80, 50].isPrefixOf s
          ∨ [80, 51].isPrefixOf s ∨ [80, 52].isPrefixOf s
          ∨ [80, 53].isPrefixOf s ∨ [80, 54].isPrefixOf s
      · rw [if_pos hB]
        have hshape : ∃ d t, 48 < d ∧ d < 55 ∧ s = 80 :: d :: t := by
          rcases hB with h | h | h | h | h | h <;>
          · obtain ⟨t, ht⟩ := List.isPrefixOf_iff_prefix.mp h
            exact ⟨_, t, by norm_num, by norm_num, ht.symm⟩
        obtain ⟨d, t, hd1, hd2, rfl⟩ := hshape
        have hb1 : ((80 :: d :: t).take 4096).getD 1 0 = d := by
          rw [getD_take_eq (by norm_num)]
          rfl
        rw [hb1, if_pos ⟨by omega, by omega⟩]
        have hpam : pamHeader ((80 :: d :: t).take 4096) = none := by
          apply pamHeader_none_of_not_p7
          rw [isPrefixOf_take (by norm_num)]
          intro hx
          simp only [List.isPrefixOf, Bool.and_eq_true, beq_iff_eq] at hx
          omega
        rw [hpam]
      · rw [if_neg hB]
        by_cases hC : [80, 55, 32, 51, 51, 50].isPrefixOf s
        · rw [if_pos hC]
          obtain ⟨t, ht⟩ := List.isPrefixOf_iff_prefix.mp hC
          subst ht
          have hb1 : ((([80, 55, 32, 51, 51, 50] : List Nat) ++ t).take
              4096).getD 1 0 = 55 := by
            rw [getD_take_eq (by norm_num)]
            rfl
          rw [hb1, if_pos (by norm_num)]
          have hpam : pamHeader ((([80, 55, 32, 51, 51, 50] : List Nat)
              ++ t).take 4096) = none := pamHeader_none_of_no_nl rfl
          rw [hpam]
        · rw [if_neg hC]
          by_cases hg : 48 < (s.take 4096).getD 1 0 ∧ (s.take 4096).getD 1 0 < 56
          · rw [if_pos hg]
            have hpam : pamHeader (s.take 4096) = none := by
              by_cases hp2 : [80, 55].isPrefixOf (s.take 4096)
              · by_cases hnl : (((s.take 4096).drop 2).takeWhile isNL) = []
                · exact pamHeader_none_of_no_nl hnl
                · exfalso
                  obtain ⟨r, hr⟩ := List.isPrefixOf_iff_prefix.mp hp2
                  have hdrop : (s.take 4096).drop 2 = r := by
                    rw [← hr]
                    rfl
                  rw [hdrop] at hnl
                  rcases r with _ | ⟨c, r2⟩
                  · exact hnl rfl
                  · by_cases hcnl : isNL c
                    · have hc : c = 10 ∨ c = 13 := by
                        simpa [isNL] using hcnl
                      apply hA
                      have hpre : ([80, 55, c] : List Nat).isPrefixOf
                          (s.take 4096) := by
                        rw [← hr]
                        simp [List.isPrefixOf]
                      rw [isPrefixOf_take (by norm_num)] at hpre
                      rcases hc with rfl | rfl
                      · exact Or.inl hpre
                      · exact Or.inr hpre
                    · exact hnl (by simp [List.takeWhile_cons, hcnl])
              · exact pamHeader_none_of_not_p7 hp2
            rw [hpam]
            dsimp only
            apply pnmHeader_none_of_no_magic
            simp only [not_or] at hB
            obtain ⟨hB1, hB2, hB3, hB4, hB5, hB6⟩ := hB
            apply parsePnmMagic_none_of
            · rw [isPrefixOf_take (by norm_num)]; exact hB1
            · rw [isPrefixOf_take (by norm_num)]; exact hB2
            · rw [isPrefixOf_take (by norm_num)]; exact hB3
            · rw [isPrefixOf_take (by norm_num)]; exact hB4
            · rw [isPrefixOf_take (by norm_num)]; exact hB5
            · rw [isPrefixOf_take (by norm_num)]; exact hB6
            · rw [isPrefixOf_take (by norm_num)]; exact hC
          · rw [if_neg hg]

/-! ## C6: PAM mandatory fields and TUPLTYPE collection -/

theorem digit_not_ws {b : Nat} (h : isDigit b = true) : isWs b = false := by
  simp only [isDigit, Bool.and_eq_true, decide_eq_true_eq] at h
  simp only [isWs, Bool.or_eq_false_iff, decide_eq_false_iff_not]
  omega

theorem word_not_ws {b : Nat} (h : isWord b = true) : isWs b = false := by
  simp only [isWord, Bool.and_eq_true, Bool.or_eq_true, decide_eq_true_eq] at h
  simp only [isWs, Bool.or_eq_false_iff, decide_eq_false_iff_not]
  omega

theorem natToDec_shape (v : Nat) :
    ∃ d ds, natToDec v = d :: ds ∧ isDigit d = true := by
  rcases h : natToDec v with _ | ⟨d, ds⟩
  · exact absurd h (natToDec_ne_nil v)
  · exact ⟨d, ds, rfl, natToDec_digits v d (h ▸ List.mem_cons_self d ds)⟩

theorem takeWhile_ws_digits (v : Nat) (r : List Nat) :
    (natToDec v ++ r).takeWhile isWs = [] := by
  obtain ⟨d, ds, hd, hdig⟩ := natToDec_shape v
  rw [hd, List.cons_append, List.takeWhile_cons, digit_not_ws hdig]
  rfl

theorem keywordNum_render (v : Nat) (rest : List Nat) :
    keywordNum (32 :: (natToDec v ++ (10 :: rest)))
      = some (v, 1 + (natToDec v).length) := by
  rw [keywordNum]
  have h32 : isWs 32 = true := rfl
  have htw : (32 :: (natToDec v ++ (10 :: rest))).takeWhile isWs
      = [32] := by
    rw [List.takeWhile_cons, h32, if_pos rfl, takeWhile_ws_digits]
  have hdw : (32 :: (natToDec v ++ (10 :: rest))).dropWhile isWs
      = natToDec v ++ (10 :: rest) := by
    rw [List.dropWhile_cons, h32, if_pos rfl]
    obtain ⟨d, ds, hd, hdig⟩ := natToDec_shape v
    rw [hd, List.cons_append, List.dropWhile_cons, digit_not_ws hdig]
    rfl
  have htd : (natToDec v ++ (10 :: rest)).takeWhile isDigit = natToDec v :=
    takeWhile_append_eq (natToDec_digits v)
      (fun b hb => by
        rw [List.head?_cons, Option.some.injEq] at hb
        subst hb
        rfl)
  simp only [htw, hdw, htd]
  rw [if_neg (by simp), if_neg (by simpa using natToDec_ne_nil v)]
  rw [decVal_natToDec]
  rfl

theorem keywordWord_render (w : List Nat) (hw1 : w ≠ [])
    (hw2 : ∀ b ∈ w, isWord b = true) (rest : List Nat) :
    keywordWord (32 :: (w ++ (10 :: rest))) = some (1 + w.length) := by
  rw [keywordWord]
  obtain ⟨a, t, rfl⟩ : ∃ a t, w = a :: t := by
    rcases w with _ | ⟨a, t⟩
    · exact absurd rfl hw1
    · exact ⟨a, t, rfl⟩
  have ha : isWord a = true := hw2 a (List.mem_cons_self a t)
  have h32 : isWs 32 = true := rfl
  have htw : (32 :: (a :: t ++ (10 :: rest))).takeWhile isWs = [32] := by
    rw [List.takeWhile_cons, h32, if_pos rfl, List.cons_append,
      List.takeWhile_cons, word_not_ws ha]
    rfl
  have hdw : (32 :: (a :: t ++ (10 :: rest))).dropWhile isWs
      = a :: t ++ (10 :: rest) := by
    rw [List.dropWhile_cons, h32, if_pos rfl, List.cons_append,
      List.dropWhile_cons, word_not_ws ha]
    rfl
  have htd : (a :: t ++ (10 :: rest)).takeWhile isWord = a :: t :=
    takeWhile_append_eq hw2
      (fun b hb => by
        rw [List.head?_cons, Option.some.injEq] at hb
        subst hb
        rfl)
  simp only [htw, hdw, htd]
  rw [if_neg (by simp), if_neg (by simp)]
  simp [Nat.add_comm]

theorem renderLine_endhdr (l : PamLine) (rest : List Nat) :
    (strBytes "ENDHDR\n").isPrefixOf (renderLine l ++ rest) = false := by
  cases l with
  | field k v => cases k <;> rfl
  | tupl w => rfl
  | comment b => rfl

theorem takeWhile_nl_render (ls : List PamLine) (rest : List Nat) :
    (renderLines ls ++ (strBytes "ENDHDR\n" ++ rest)).takeWhile isNL = [] := by
  cases ls with
  | nil => rfl
  | cons l ls =>
    cases l with
    | field k v => cases k <;> rfl
    | tupl w => rfl
    | comment b => rfl

theorem pamItem_field_height (st : PamState) (v : Nat) (rest : List Nat) :
    pamItem st (renderLine (.field .height v) ++ rest)
      = (keywordNum (32 :: (natToDec v ++ (10 :: rest)))).bind
          (fun p => some ({st with height := some p.1}, 6 + p.2)) := by
  have hform : renderLine (.field .height v) ++ rest
      = 72 :: 69 :: 73 :: 71 :: 72 :: 84 :: 32 :: (natToDec v ++ (10 :: rest))
      := by
    simp [renderLine, keyBytes, strBytes]
  rw [hform]
  rfl

theorem pamItem_field_width (st : PamState) (v : Nat) (rest : List Nat) :
    pamItem st (renderLine (.field .width v) ++ rest)
      = (keywordNum (32 :: (natToDec v ++ (10 :: rest)))).bind
          (fun p => some ({st with width := some p.1}, 5 + p.2)) := by
  have hform : renderLine (.field .width v) ++ rest
      = 87 :: 73 :: 68 :: 84 :: 72 :: 32 :: (natToDec v ++ (10 :: rest)) := by
    simp [renderLine, keyBytes, strBytes]
  rw [hform]
  rfl

theorem pamItem_field_depth (st : PamState) (v : Nat) (rest : List Nat) :
    pamItem st (renderLine (.field .depth v) ++ rest)
      = (keywordNum (32 :: (natToDec v ++ (10 :: rest)))).bind
          (fun p => some ({st with depth := some p.1}, 5 + p.2)) := by
  have hform : renderLine (.field .depth v) ++ rest
      = 68 :: 69 :: 80 :: 84 :: 72 :: 32 :: (natToDec v ++ (10 :: rest)) := by
    simp [renderLine, keyBytes, strBytes]
  rw [hform]
  rfl

theorem pamItem_field_maxval (st : PamState) (v : Nat) (rest : List Nat) :
    pamItem st (renderLine (.field .maxval v) ++ rest)
      = (keywordNum (32 :: (natToDec v ++ (10 :: rest)))).bind
          (fun p => some ({st with maxval := some p.1}, 6 + p.2)) := by
  have hform : renderLine (.field .maxval v) ++ rest
      = 77 :: 65 :: 88 :: 86 :: 65 :: 76 :: 32 :: (natToDec v ++ (10 :: rest))
      := by
    simp [renderLine, keyBytes, strBytes]
  rw [hform]
  rfl

theorem pamItem_tupl (st : PamState) (w : List Nat) (rest : List Nat) :
    pamItem st (renderLine (.tupl w) ++ rest)
      = (keywordWord (32 :: (w ++ (10 :: rest)))).bind
          (fun n => some (st, 8 + n)) := by
  have hform : renderLine (.tupl w) ++ rest
      = 84 :: 85 :: 80 :: 76 :: 84 :: 89 :: 80 :: 69 :: 32
          :: (w ++ (10 :: rest)) := by
    simp [renderLine, strBytes]
  rw [hform]
  rfl

theorem pamItem_comment (st : PamState) (b : List Nat)
    (hb : ∀ x ∈ b, x ≠ 10 ∧ x ≠ 84) (rest : List Nat) :
    pamItem st (renderLine (.comment b) ++ rest)
      = some (st, 1 + b.length) := by
  have hform : renderLine (.comment b) ++ rest = 35 :: (b ++ (10 :: rest)) := by
    simp [renderLine]
  rw [hform, pamItem]
  rw [if_neg (by decide), if_pos rfl]
  have htw : (b ++ (10 :: rest)).takeWhile (· ≠ 10) = b :=
    takeWhile_append_eq
      (fun x hx => by simpa using (hb x hx).1)
      (fun x hx => by
        rw [List.head?_cons, Option.some.injEq] at hx
        subst hx
        simp)
  simp only [List.drop_succ_cons, List.drop_zero, htw]
  rw [Nat.add_comm]

theorem pamItem_render (st : PamState) (l : PamLine) (hwf : wfLine l)
    (rest : List Nat) :
    ∃ n, pamItem st (renderLine l ++ rest) = some (applyLine st l, n)
      ∧ (renderLine l ++ rest).drop n = 10 :: rest := by
  cases l with
  | field k v =>
    refine ⟨(renderLine (.field k v)).length - 1, ?_, ?_⟩
    · cases k
      · rw [pamItem_field_height, keywordNum_render]
        simp [applyLine, renderLine, keyBytes, strBytes]
        omega
      · rw [pamItem_field_width, keywordNum_render]
        simp [applyLine, renderLine, keyBytes, strBytes]
        omega
      · rw [pamItem_field_depth, keywordNum_render]
        simp [applyLine, renderLine, keyBytes, strBytes]
        omega
      · rw [pamItem_field_maxval, keywordNum_render]
        simp [applyLine, renderLine, keyBytes, strBytes]
        omega
    · have hsplit : renderLine (.field k v) ++ rest
          = (keyBytes k ++ ([32] ++ natToDec v)) ++ (10 :: rest) := by
        simp [renderLine]
      have hlen : (renderLine (.field k v)).length - 1
          = (keyBytes k ++ ([32] ++ natToDec v)).length := by
        cases k <;> simp [renderLine, keyBytes, strBytes]
      rw [hsplit, hlen, List.drop_left]
  | tupl w =>
    obtain ⟨hw1, hw2⟩ := hwf
    refine ⟨(renderLine (.tupl w)).length - 1, ?_, ?_⟩
    · rw [pamItem_tupl, keywordWord_render w hw1 hw2]
      simp [applyLine, renderLine, strBytes]
      omega
    · have hsplit : renderLine (.tupl w) ++ rest
          = (strBytes "TUPLTYPE " ++ w) ++ (10 :: rest) := by
        simp [renderLine]
      have hlen : (renderLine (.tupl w)).length - 1
          = (strBytes "TUPLTYPE " ++ w).length := by
        simp [renderLine, strBytes]
      rw [hsplit, hlen, List.drop_left]
  | comment b =>
    refine ⟨1 + b.length, ?_, ?_⟩
    · rw [pamItem_comment st b hwf rest]
      simp [applyLine]
    · have hsplit : renderLine (.comment b) ++ rest
        = (35 :: b) ++ (10 :: rest) := by
        simp [renderLine]
      have hlen : 1 + b.length = (35 :: b).length := by simp; omega
      rw [hsplit, hlen, List.drop_left]

theorem renderLine_length (l : PamLine) : 2 ≤ (renderLine l).length := by
  cases l with
  | field k v =>
    have := natToDec_ne_nil v
    cases k <;> simp [renderLine, keyBytes, strBytes]
  | tupl w => simp [renderLine, strBytes]
  | comment b => simp [renderLine]

theorem endhdr_not_nl (x : List Nat) :
    (strBytes "ENDHDR\n").isPrefixOf (10 :: x) = false := rfl

theorem pamLoopF_render (ls : List PamLine) :
    ∀ fuel st tail, (∀ l ∈ ls, wfLine l) →
    (renderLines ls ++ (strBytes "ENDHDR\n" ++ tail)).length < fuel →
    pamLoopF fuel st (renderLines ls ++ (strBytes "ENDHDR\n" ++ tail))
      = some (ls.foldl applyLine st, tail) := by
  induction ls with
  | nil =>
    intro fuel st tail hwf hlt
    simp only [renderLines, List.flatMap_nil, List.nil_append] at hlt ⊢
    rcases fuel with _ | fuel
    · omega
    · rw [pamLoopF, if_pos (List.isPrefixOf_iff_prefix.mpr
        (List.prefix_append _ _))]
      rw [show (7 : Nat) = (strBytes "ENDHDR\n").length from rfl,
        List.drop_left]
      rfl
  | cons l ls ih =>
    intro fuel st tail hwf hlt
    have hstream : renderLines (l :: ls) ++ (strBytes "ENDHDR\n" ++ tail)
        = renderLine l ++ (renderLines ls ++ (strBytes "ENDHDR\n" ++ tail))
        := by
      simp [renderLines]
    rw [hstream] at hlt ⊢
    obtain ⟨n, hitem, hdrop⟩ := pamItem_render st l (hwf l (by simp))
      (renderLines ls ++ (strBytes "ENDHDR\n" ++ tail))
    have hline := renderLine_length l
    rcases fuel with _ | fuel
    · simp at hlt
    · rw [pamLoopF, if_neg (by rw [renderLine_endhdr]; simp), hitem]
      dsimp only
      rw [hdrop]
      rcases fuel with _ | fuel
      · exfalso
        simp only [List.length_append] at hlt
        omega
      · rw [pamLoopF, if_neg (by rw [endhdr_not_nl]; simp), pamItem]
        rw [if_pos (show isNL 10 = true from rfl)]
        have hnl : List.takeWhile isNL
            (10 :: (renderLines ls ++ (strBytes "ENDHDR\n" ++ tail)))
            = [10] := by
          rw [List.takeWhile_cons, if_pos (show isNL 10 = true from rfl),
            takeWhile_nl_render]
        rw [hnl]
        simp only [List.length_cons, List.length_nil, List.drop_succ_cons,
          List.drop_zero]
        rw [List.foldl_cons]
        apply ih fuel (applyLine st l) tail
          (fun x hx => hwf x (by simp [hx]))
        simp only [List.length_append] at hlt ⊢
        omega

theorem lastFieldVal_concat (k : PamKey) (ls : List PamLine) (l : PamLine) :
    lastFieldVal k (ls ++ [l])
      = match l with
        | .field k2 v => if k2 = k then some v else lastFieldVal k ls
        | _ => lastFieldVal k ls := by
  simp only [lastFieldVal, List.foldl_append, List.foldl_cons, List.foldl_nil]

theorem foldl_applyLine_height (ls : List PamLine) (st : PamState) :
    (ls.foldl applyLine st).height = (lastFieldVal .height ls).or st.height := by
  induction ls using List.reverseRecOn with
  | nil => rfl
  | append_singleton ls l ih =>
    rw [List.foldl_append, List.foldl_cons, List.foldl_nil,
      lastFieldVal_concat]
    rcases l with ⟨k2, v⟩ | w | b
    · cases k2 <;> simp [applyLine, Option.or, ih]
    · simp [applyLine, ih]
    · simp [applyLine, ih]

theorem foldl_applyLine_width (ls : List PamLine) (st : PamState) :
    (ls.foldl applyLine st).width = (lastFieldVal .width ls).or st.width := by
  induction ls using List.reverseRecOn with
  | nil => rfl
  | append_singleton ls l ih =>
    rw [List.foldl_append, List.foldl_cons, List.foldl_nil,
      lastFieldVal_concat]
    rcases l with ⟨k2, v⟩ | w | b
    · cases k2 <;> simp [applyLine, Option.or, ih]
    · simp [applyLine, ih]
    · simp [applyLine, ih]

theorem foldl_applyLine_depth (ls : List PamLine) (st : PamState) :
    (ls.foldl applyLine st).depth = (lastFieldVal .depth ls).or st.depth := by
  induction ls using List.reverseRecOn with
  | nil => rfl
  | append_singleton ls l ih =>
    rw [List.foldl_append, List.foldl_cons, List.foldl_nil,
      lastFieldVal_concat]
    rcases l with ⟨k2, v⟩ | w | b
    · cases k2 <;> simp [applyLine, Option.or, ih]
    · simp [applyLine, ih]
    · simp [applyLine, ih]

theorem foldl_applyLine_maxval (ls : List PamLine) (st : PamState) :
    (ls.foldl applyLine st).maxval
      = (lastFieldVal .maxval ls).or st.maxval := by
  induction ls using List.reverseRecOn with
  | nil => rfl
  | append_singleton ls l ih =>
    rw [List.foldl_append, List.foldl_cons, List.foldl_nil,
      lastFieldVal_concat]
    rcases l with ⟨k2, v⟩ | w | b
    · cases k2 <;> simp [applyLine, Option.or, ih]
    · simp [applyLine, ih]
    · simp [applyLine, ih]

theorem findTupltypesF_nil (fuel : Nat) : findTupltypesF fuel [] = [] := by
  cases fuel <;> rfl

theorem tuplMatch1_not84 {b : Nat} {l : List Nat} (hb : b ≠ 84) :
    tuplMatch1 (b :: l) = none := by
  rw [tuplMatch1, if_neg]
  intro hx
  rw [show strBytes "TUPLTYPE" = [84, 85, 80, 76, 84, 89, 80, 69] from rfl]
    at hx
  simp only [List.isPrefixOf, Bool.and_eq_true, beq_iff_eq] at hx
  exact hb hx.1.symm

theorem findT_skip {x y l' : List Nat} (hx : l' = x ++ y) :
    ∀ fuel, x.length ≤ fuel →
    (∀ i, i < x.length → tuplMatch1 (x.drop i ++ y) = none) →
    findTupltypesF fuel l' = findTupltypesF (fuel - x.length) y := by
  subst hx
  induction x with
  | nil => intro fuel _ _; simp
  | cons a t ih =>
    intro fuel hfuel h
    rcases fuel with _ | fuel
    · simp at hfuel
    · have h0 := h 0 (by simp)
      simp only [List.drop_zero, List.cons_append] at h0
      rw [List.cons_append, findTupltypesF, h0]
      have ht := ih fuel (by simp at hfuel ⊢; omega)
        (fun i hi => by
          have := h (i + 1) (by simp at hi ⊢; omega)
          simpa using this)
      simpa using ht

theorem findT_skip_no84 {x y l' : List Nat} (hx : l' = x ++ y) {fuel : Nat}
    (hfuel : x.length ≤ fuel) (h84 : ∀ b ∈ x, b ≠ 84) :
    findTupltypesF fuel l' = findTupltypesF (fuel - x.length) y := by
  refine findT_skip hx fuel hfuel (fun i hi => ?_)
  rcases hd : x.drop i with _ | ⟨b, r⟩
  · have : (x.drop i).length = 0 := by rw [hd]; rfl
    simp only [List.length_drop] at this
    omega
  · refine tuplMatch1_not84 (h84 b ?_)
    have : b ∈ x.drop i := by rw [hd]; simp
    exact List.mem_of_mem_drop this

theorem findT_skip_T2 {y l' : List Nat} {b2 : Nat} (hx : l' = [84, b2] ++ y)
    {fuel : Nat} (hfuel : 2 ≤ fuel) (h85 : b2 ≠ 85) (h84 : b2 ≠ 84) :
    findTupltypesF fuel l' = findTupltypesF (fuel - 2) y := by
  refine findT_skip hx fuel hfuel (fun i hi => ?_)
  simp only [List.length_cons, List.length_nil] at hi
  interval_cases i
  · rw [tuplMatch1, if_neg]
    intro hp
    rw [show strBytes "TUPLTYPE" = [84, 85, 80, 76, 84, 89, 80, 69] from rfl]
      at hp
    simp only [List.drop_zero, List.cons_append, List.isPrefixOf,
      Bool.and_eq_true, beq_iff_eq] at hp
    exact h85 hp.2.1.symm
  · exact tuplMatch1_not84 h84

theorem tuplMatch1_render (w : List Nat) (hw1 : w ≠ [])
    (hw2 : ∀ b ∈ w, isWord b = true) (y : List Nat) :
    tuplMatch1 (84 :: 85 :: 80 :: 76 :: 84 :: 89 :: 80 :: 69 :: 32
      :: (w ++ (10 :: y))) = some (w, 9 + w.length) := by
  rw [tuplMatch1, if_pos (show (strBytes "TUPLTYPE").isPrefixOf
    (84 :: 85 :: 80 :: 76 :: 84 :: 89 :: 80 :: 69 :: 32
      :: (w ++ (10 :: y))) = true from rfl)]
  obtain ⟨a, t, rfl⟩ : ∃ a t, w = a :: t := by
    rcases w with _ | ⟨a, t⟩
    · exact absurd rfl hw1
    · exact ⟨a, t, rfl⟩
  have ha : isWord a = true := hw2 a (List.mem_cons_self a t)
  have hdrop : (84 :: 85 :: 80 :: 76 :: 84 :: 89 :: 80 :: 69 :: 32
      :: (a :: t ++ (10 :: y))).drop 8 = 32 :: (a :: t ++ (10 :: y)) := rfl
  have htw : (32 :: (a :: t ++ (10 :: y))).takeWhile isWs = [32] := by
    rw [List.takeWhile_cons, if_pos (show isWs 32 = true from rfl),
      List.cons_append, List.takeWhile_cons, word_not_ws ha]
    rfl
  have hdw : (32 :: (a :: t ++ (10 :: y))).dropWhile isWs
      = a :: t ++ (10 :: y) := by
    rw [List.dropWhile_cons, if_pos (show isWs 32 = true from rfl),
      List.cons_append, List.dropWhile_cons, word_not_ws ha]
    rfl
  have htd : (a :: t ++ (10 :: y)).takeWhile isWord = a :: t :=
    takeWhile_append_eq hw2
      (fun b hb => by
        rw [List.head?_cons, Option.some.injEq] at hb
        subst hb
        rfl)
  simp only [hdrop, htw, hdw, htd]
  rw [if_neg (by simp), if_neg (by simp)]
  simp only [List.length_cons, List.length_nil, List.length_singleton,
    Option.some.injEq, Prod.mk.injEq, true_and]

theorem findT_line (l : PamLine) (hwf : wfLine l) (y : List Nat) :
    ∀ fuel, (renderLine l).length ≤ fuel →
    ∃ fuel2, fuel - (renderLine l).length ≤ fuel2 ∧ fuel2 ≤ fuel ∧
      findTupltypesF fuel (renderLine l ++ y)
        = (tuplWord l).toList ++ findTupltypesF fuel2 y := by
  intro fuel hfuel
  cases l with
  | comment b =>
    refine ⟨fuel - (renderLine (.comment b)).length, le_rfl, by omega, ?_⟩
    have hx : renderLine (.comment b) ++ y = (35 :: (b ++ [10])) ++ y := rfl
    have h84 : ∀ x ∈ 35 :: (b ++ [10]), x ≠ 84 := by
      intro x hx2
      rcases List.mem_cons.mp hx2 with rfl | hx3
      · omega
      · rcases List.mem_append.mp hx3 with hx4 | hx4
        · exact (hwf x hx4).2
        · simp at hx4
          omega
    exact findT_skip_no84 hx hfuel h84
  | tupl w =>
    obtain ⟨hw1, hw2⟩ := hwf
    have hlen : (renderLine (.tupl w)).length = 10 + w.length := by
      rw [show renderLine (PamLine.tupl w)
        = [84, 85, 80, 76, 84, 89, 80, 69, 32] ++ (w ++ [10]) from rfl]
      simp only [List.length_append, List.length_cons, List.length_nil]
      omega
    rcases fuel with _ | fuel
    · rw [hlen] at hfuel; omega
    · refine ⟨fuel - 1, by rw [hlen]; omega, by omega, ?_⟩
      have hform : renderLine (.tupl w) ++ y
          = 84 :: 85 :: 80 :: 76 :: 84 :: 89 :: 80 :: 69 :: 32
            :: (w ++ (10 :: y)) := by
        rw [show renderLine (PamLine.tupl w)
          = [84, 85, 80, 76, 84, 89, 80, 69, 32] ++ (w ++ [10]) from rfl]
        simp
      rw [hform, findTupltypesF, tuplMatch1_render w hw1 hw2 y]
      have hdropn : (84 :: 85 :: 80 :: 76 :: 84 :: 89 :: 80 :: 69 :: 32
          :: (w ++ (10 :: y))).drop (9 + w.length) = 10 :: y := by
        show ((([84, 85, 80, 76, 84, 89, 80, 69, 32] : List Nat) ++ w)
          ++ (10 :: y)).drop (9 + w.length) = 10 :: y
        rw [show 9 + w.length
            = (([84, 85, 80, 76, 84, 89, 80, 69, 32] : List Nat) ++ w).length
          from by
            simp only [List.length_append, List.length_cons, List.length_nil]]
        exact List.drop_left _ _
      dsimp only
      rw [hdropn]
      have hskip := findT_skip_no84 (show (10 :: y : List Nat) = [10] ++ y
        from rfl) (show ([10] : List Nat).length ≤ fuel by
          rw [hlen] at hfuel; simp; omega) (by intro b hb; simp at hb; omega)
      rw [hskip]
      simp [tuplWord]
  | field k v =>
    refine ⟨fuel - (renderLine (.field k v)).length, le_rfl, by omega, ?_⟩
    have hL : (renderLine (.field k v)).length
        = (keyBytes k).length + 2 + (natToDec v).length := by
      simp [renderLine]
      omega
    have hdig84 : ∀ b ∈ natToDec v, b ≠ 84 := by
      intro b hb
      have := natToDec_digits v b hb
      simp only [isDigit, Bool.and_eq_true, decide_eq_true_eq] at this
      omega
    have h1084 : ∀ b ∈ ([10] : List Nat), b ≠ 84 := by
      intro b hb; simp at hb; omega
    cases k
    · have hform : renderLine (.field .height v) ++ y
          = [72, 69, 73, 71, 72]
            ++ ([84, 32] ++ (natToDec v ++ ([10] ++ y))) := by
        simp [renderLine, keyBytes, strBytes]
      have hkey : (keyBytes PamKey.height).length = 6 := rfl
      rw [hform,
        findT_skip_no84 rfl (by rw [hL, hkey] at hfuel; simp; omega)
          (by intro b hb; fin_cases hb <;> omega),
        findT_skip_T2 rfl (by rw [hL, hkey] at hfuel; simp; omega)
          (by omega) (by omega),
        findT_skip_no84 rfl
          (by rw [hL, hkey] at hfuel; simp; omega) hdig84,
        findT_skip_no84 rfl
          (by rw [hL, hkey] at hfuel; simp; omega) h1084]
      rw [hL, hkey]
      simp only [tuplWord, Option.toList_none, List.nil_append,
        List.length_cons, List.length_nil, List.length_singleton]
      congr 1
      omega
    · have hform : renderLine (.field .width v) ++ y
          = [87, 73, 68]
            ++ ([84, 72] ++ ([32] ++ (natToDec v ++ ([10] ++ y)))) := by
        simp [renderLine, keyBytes, strBytes]
      have hkey : (keyBytes PamKey.width).length = 5 := rfl
      rw [hform,
        findT_skip_no84 rfl (by rw [hL, hkey] at hfuel; simp; omega)
          (by intro b hb; fin_cases hb <;> omega),
        findT_skip_T2 rfl (by rw [hL, hkey] at hfuel; simp; omega)
          (by omega) (by omega),
        findT_skip_no84 rfl (by rw [hL, hkey] at hfuel; simp; omega)
          (by intro b hb; simp at hb; omega),
        findT_skip_no84 rfl
          (by rw [hL, hkey] at hfuel; simp; omega) hdig84,
        findT_skip_no84 rfl
          (by rw [hL, hkey] at hfuel; simp; omega) h1084]
      rw [hL, hkey]
      simp only [tuplWord, Option.toList_none, List.nil_append,
        List.length_cons, List.length_nil, List.length_singleton]
      congr 1
      omega
    · have hform : renderLine (.field .depth v) ++ y
          = [68, 69, 80]
            ++ ([84, 72] ++ ([32] ++ (natToDec v ++ ([10] ++ y)))) := by
        simp [renderLine, keyBytes, strBytes]
      have hkey : (keyBytes PamKey.depth).length = 5 := rfl
      rw [hform,
        findT_skip_no84 rfl (by rw [hL, hkey] at hfuel; simp; omega)
          (by intro b hb; fin_cases hb <;> omega),
        findT_skip_T2 rfl (by rw [hL, hkey] at hfuel; simp; omega)
          (by omega) (by omega),
        findT_skip_no84 rfl (by rw [hL, hkey] at hfuel; simp; omega)
          (by intro b hb; simp at hb; omega),
        findT_skip_no84 rfl
          (by rw [hL, hkey] at hfuel; simp; omega) hdig84,
        findT_skip_no84 rfl
          (by rw [hL, hkey] at hfuel; simp; omega) h1084]
      rw [hL, hkey]
      simp only [tuplWord, Option.toList_none, List.nil_append,
        List.length_cons, List.length_nil, List.length_singleton]
      congr 1
      omega
    · have hform : renderLine (.field .maxval v) ++ y
          = [77, 65, 88, 86, 65, 76, 32] ++ (natToDec v ++ ([10] ++ y)) := by
        simp [renderLine, keyBytes, strBytes]
      have hkey : (keyBytes PamKey.maxval).length = 6 := rfl
      rw [hform,
        findT_skip_no84 rfl (by rw [hL, hkey] at hfuel; simp; omega)
          (by intro b hb; fin_cases hb <;> omega),
        findT_skip_no84 rfl
          (by rw [hL, hkey] at hfuel; simp; omega) hdig84,
        findT_skip_no84 rfl
          (by rw [hL, hkey] at hfuel; simp; omega) h1084]
      rw [hL, hkey]
      simp only [tuplWord, Option.toList_none, List.nil_append,
        List.length_cons, List.length_nil, List.length_singleton]
      congr 1
      omega

theorem findT_render (ls : List PamLine) :
    ∀ fuel, (∀ l ∈ ls, wfLine l) →
    (renderLines ls ++ strBytes "ENDHDR\n").length ≤ fuel →
    findTupltypesF fuel (renderLines ls ++ strBytes "ENDHDR\n")
      = ls.filterMap tuplWord := by
  induction ls with
  | nil =>
    intro fuel _ hfuel
    simp only [renderLines, List.flatMap_nil, List.nil_append] at hfuel ⊢
    rw [findT_skip_no84 (List.append_nil _).symm
      (by simpa using hfuel) (by decide)]
    rw [findTupltypesF_nil]
    rfl
  | cons l ls ih =>
    intro fuel hwf hfuel
    have hstream : renderLines (l :: ls) ++ strBytes "ENDHDR\n"
        = renderLine l ++ (renderLines ls ++ strBytes "ENDHDR\n") := by
      simp [renderLines]
    rw [hstream] at hfuel ⊢
    have hflen : (renderLine l).length ≤ fuel := by
      simp only [List.length_append] at hfuel
      omega
    obtain ⟨fuel2, h1, h2, heq⟩ := findT_line l (hwf l (by simp))
      (renderLines ls ++ strBytes "ENDHDR\n") fuel hflen
    rw [heq, ih fuel2 (fun x hx => hwf x (by simp [hx]))
      (by simp only [List.length_append] at hfuel h1 ⊢; omega)]
    rcases l with ⟨k, v⟩ | w | b
    · simp [tuplWord]
    · simp [tuplWord]
    · simp [tuplWord]

theorem dropWhile_eq_self_of_takeWhile_nil {p : Nat → Bool} {l : List Nat}
    (h : l.takeWhile p = []) : l.dropWhile p = l := by
  rcases l with _ | ⟨a, t⟩
  · rfl
  · rw [List.takeWhile_cons] at h
    rw [List.dropWhile_cons]
    rcases hp : p a with _ | _
    · simp
    · simp [hp] at h

/-- C6: for every P7 header region built from well-formed header lines and
terminated by `ENDHDR`, parsing succeeds exactly when all four numeric fields
`HEIGHT`, `WIDTH`, `DEPTH`, `MAXVAL` occur (a region missing any of them is
rejected, falling through to the classic grammar which also fails), the
last occurrence of each field wins, and the produced header collects every
`TUPLTYPE` word, in order, into its tuple-type list. -/
theorem c6_pam_mandatory_fields (ls : List PamLine) (payload : List Nat)
    (hwf : ∀ l ∈ ls, wfLine l)
    (hfit : 10 + (renderLines ls).length ≤ 4096) :
    parseHeader (strBytes "P7\n" ++ (renderLines ls
        ++ (strBytes "ENDHDR\n" ++ payload)))
      = match lastFieldVal .height ls, lastFieldVal .width ls,
          lastFieldVal .depth ls, lastFieldVal .maxval ls with
        | some h, some w, some d, some m =>
          some { magic := .p7, width := w, height := h, maxval := m,
                 depth := d, tupltypes := ls.filterMap tuplWord,
                 hdrLen := 10 + (renderLines ls).length }
        | _, _, _, _ => none := by
  have hE : (strBytes "ENDHDR\n").length = 7 := rfl
  have hP : (strBytes "P7\n").length = 3 := rfl
  have hAlen : (strBytes "P7\n"
      ++ (renderLines ls ++ strBytes "ENDHDR\n")).length
      = 10 + (renderLines ls).length := by
    simp only [List.length_append, hE, hP]
    omega
  have hs : strBytes "P7\n" ++ (renderLines ls
      ++ (strBytes "ENDHDR\n" ++ payload))
      = (strBytes "P7\n" ++ (renderLines ls ++ strBytes "ENDHDR\n"))
        ++ payload := by
    simp [List.append_assoc]
  have hdata : (strBytes "P7\n" ++ (renderLines ls
      ++ (strBytes "ENDHDR\n" ++ payload))).take 4096
      = (strBytes "P7\n" ++ (renderLines ls ++ strBytes "ENDHDR\n"))
        ++ payload.take (4096 - (10 + (renderLines ls).length)) := by
    rw [hs, List.take_append_eq_append_take,
      List.take_of_length_le (by omega), hAlen]
  set R := renderLines ls with hR
  set E := strBytes "ENDHDR\n" with hEdef
  set p2 := payload.take (4096 - (10 + R.length)) with hp2
  have hdlen : ((strBytes "P7\n" ++ (R ++ E)) ++ p2).length
      = 10 + R.length + p2.length := by
    simp only [List.length_append, hE, hP]
    omega
  rw [parseHeader_unfold, hdata]
  rw [if_neg (by rw [hdlen]; omega)]
  rw [if_pos (by
    refine ⟨?_, ?_⟩ <;>
      rw [show ((strBytes "P7\n" ++ (R ++ E)) ++ p2).getD 1 0 = 55 from rfl]
        <;> omega)]
  have hdrop2 : ((strBytes "P7\n" ++ (R ++ E)) ++ p2).drop 2
      = 10 :: ((R ++ E) ++ p2) := rfl
  have htw2 : (((strBytes "P7\n" ++ (R ++ E)) ++ p2).drop 2).takeWhile isNL
      = [10] := by
    rw [hdrop2, List.takeWhile_cons, if_pos (show isNL 10 = true from rfl),
      List.append_assoc, hR, hEdef, takeWhile_nl_render]
  have hdw2 : (((strBytes "P7\n" ++ (R ++ E)) ++ p2).drop 2).dropWhile isNL
      = R ++ (E ++ p2) := by
    rw [hdrop2, List.dropWhile_cons, if_pos (show isNL 10 = true from rfl),
      List.append_assoc, hR, hEdef]
    exact dropWhile_eq_self_of_takeWhile_nil (takeWhile_nl_render ls _)
  have hpam : pamHeader ((strBytes "P7\n" ++ (R ++ E)) ++ p2)
      = match lastFieldVal .height ls, lastFieldVal .width ls,
          lastFieldVal .depth ls, lastFieldVal .maxval ls with
        | some h, some w, some d, some m =>
          some { magic := .p7, width := w, height := h, maxval := m,
                 depth := d, tupltypes := ls.filterMap tuplWord,
                 hdrLen := 10 + R.length }
        | _, _, _, _ => none := by
    rw [pamHeader, if_pos (show ([80, 55] : List Nat).isPrefixOf
      ((strBytes "P7\n" ++ (R ++ E)) ++ p2) = true from rfl)]
    rw [if_neg (by rw [htw2]; simp)]
    rw [hdw2, pamLoop, pamLoopF_render ls _ _ p2 hwf (Nat.lt_succ_self _)]
    dsimp only
    rw [foldl_applyLine_height, foldl_applyLine_width,
      foldl_applyLine_depth, foldl_applyLine_maxval]
    dsimp only
    rw [Option.or_none, Option.or_none, Option.or_none, Option.or_none]
    have hLL : ((strBytes "P7\n" ++ (R ++ E)) ++ p2).length - p2.length
        = 10 + R.length := by
      rw [hdlen]
      omega
    rw [hLL]
    have htake : ((strBytes "P7\n" ++ (R ++ E)) ++ p2).take (10 + R.length)
        = strBytes "P7\n" ++ (R ++ E) := by
      rw [show 10 + R.length = (strBytes "P7\n" ++ (R ++ E)).length from
        hAlen.symm]
      exact List.take_left _ _
    rw [htake]
    have hft : findTupltypes (strBytes "P7\n" ++ (R ++ E))
        = ls.filterMap tuplWord := by
      rw [findTupltypes]
      rw [findT_skip_no84 (show strBytes "P7\n" ++ (R ++ E)
          = [80, 55, 10] ++ (R ++ E) from rfl)
        (by rw [hAlen]; simp; omega)
        (by intro b hb; fin_cases hb <;> omega)]
      rw [hAlen]
      rw [hR, hEdef]
      refine findT_render ls _ hwf ?_
      simp only [List.length_append, hE]
      simp
      omega
    rw [hft]
  rw [hpam]
  rcases lastFieldVal .height ls with _ | vh <;>
    rcases lastFieldVal .width ls with _ | vw <;>
    rcases lastFieldVal .depth ls with _ | vd <;>
    rcases lastFieldVal .maxval ls with _ | vm <;>
    dsimp only <;>
    first
      | rfl
      | exact pnmHeader_none_of_no_magic rfl

/-- Witness for C6: a complete header (all four fields plus a `TUPLTYPE RGB`
line) parses to the expected header with the tuple type collected, and the
same header with `MAXVAL` removed is rejected. -/
theorem c6_pam_mandatory_fields_witness :
    (∀ l ∈ ([.field .height 1, .field .width 2, .field .depth 3,
        .field .maxval 255, .tupl (strBytes "RGB")] : List PamLine), wfLine l)
    ∧ 10 + (renderLines [.field .height 1, .field .width 2, .field .depth 3,
        .field .maxval 255, .tupl (strBytes "RGB")]).length ≤ 4096
    ∧ parseHeader (strBytes "P7\n"
        ++ (renderLines [.field .height 1, .field .width 2, .field .depth 3,
              .field .maxval 255, .tupl (strBytes "RGB")]
          ++ (strBytes "ENDHDR\n" ++ [0, 0])))
      = some { magic := .p7, width := 2, height := 1, maxval := 255,
               depth := 3, tupltypes := [strBytes "RGB"], hdrLen := 59 }
    ∧ parseHeader (strBytes "P7\n"
        ++ (renderLines [.field .height 1, .field .width 2, .field .depth 3,
              .tupl (strBytes "RGB")]
          ++ (strBytes "ENDHDR\n" ++ [0, 0])))
      = none := by
  have hwf0 : ∀ l ∈ ([.field .height 1, .field .width 2, .field .depth 3,
      .field .maxval 255, .tupl (strBytes "RGB")] : List PamLine),
      wfLine l := by
    intro l hl
    fin_cases hl <;> first | exact trivial | exact ⟨by decide, by decide⟩
  have hwf1 : ∀ l ∈ ([.field .height 1, .field .width 2, .field .depth 3,
      .tupl (strBytes "RGB")] : List PamLine), wfLine l := by
    intro l hl
    fin_cases hl <;> first | exact trivial | exact ⟨by decide, by decide⟩
  refine ⟨hwf0, by decide, ?_, ?_⟩
  · exact (c6_pam_mandatory_fields _ [0, 0] hwf0 (by decide)).trans (by decide)
  · exact (c6_pam_mandatory_fields _ [0, 0] hwf1 (by decide)).trans (by decide)

/-! ## C1: round-trip lemmas -/

theorem decodeU2_bound : ∀ l : List Nat, (∀ b ∈ l, b < 256) →
    ∀ v ∈ decodeU2 l, v < 65536 := by
  intro l
  induction l using decodeU2.induct with
  | case1 b0 b1 rest ih =>
    intro hb v hv
    rw [decodeU2] at hv
    rcases List.mem_cons.mp hv with rfl | hv2
    · have h0 := hb b0 (by simp)
      have h1 := hb b1 (by simp)
      omega
    · exact ih (fun b hbm => hb b (by simp [hbm])) v hv2
  | case2 l hne =>
    intro hb v hv
    rcases l with _ | ⟨a, _ | ⟨b, t⟩⟩
    · simp [decodeU2] at hv
    · simp [decodeU2] at hv
    · exact absurd rfl (hne a b t)

theorem encodeU2_decodeU2 : ∀ l : List Nat, l.length % 2 = 0 →
    (∀ b ∈ l, b < 256) →
    (decodeU2 l).flatMap (fun v => [v / 256 % 256, v % 256]) = l := by
  intro l
  induction l using decodeU2.induct with
  | case1 b0 b1 rest ih =>
    intro hlen hb
    rw [decodeU2, List.flatMap_cons]
    have h0 := hb b0 (by simp)
    have h1 := hb b1 (by simp)
    have hd : (b0 * 256 + b1) / 256 % 256 = b0 := by omega
    have hm : (b0 * 256 + b1) % 256 = b1 := by omega
    rw [hd, hm, ih (by simp only [List.length_cons] at hlen; omega)
      (fun b hbm => hb b (by simp [hbm]))]
    rfl
  | case2 l hne =>
    intro hlen hb
    rcases l with _ | ⟨a, _ | ⟨b, t⟩⟩
    · rfl
    · simp at hlen
    · exact absurd rfl (hne a b t)

theorem map_mod256_id {l : List Nat} (h : ∀ b ∈ l, b < 256) :
    l.map (· % 256) = l := by
  induction l with
  | nil => rfl
  | cons a t ih =>
    rw [List.map_cons, Nat.mod_eq_of_lt (h a (by simp)),
      ih (fun b hb => h b (by simp [hb]))]

theorem readRawBytes_take (itm size : Nat) (payload : List Nat) :
    readRawBytes itm size (payload.take (size * itm))
      = readRawBytes itm size payload := by
  rw [readRawBytes, readRawBytes, List.take_take, min_self]

theorem mem_take_drop {s : List Nat} {n m b : Nat}
    (hb : b ∈ (s.drop n).take m) : b ∈ s :=
  List.mem_of_mem_drop (List.mem_of_mem_take hb)

theorem readData_inv {hd : Header} {s : List Nat} {buf : Buffer}
    (hread : readData hd s = some buf)
    (hmag : ¬ (hd.magic = .p1 ∨ hd.magic = .p2 ∨ hd.magic = .p3))
    (h332 : hd.magic ≠ .p7_332) (hm1 : hd.maxval ≠ 1) :
    buf.magic = hd.magic ∧ buf.width = hd.width ∧ buf.height = hd.height
    ∧ buf.maxval = hd.maxval ∧ buf.depth = hd.depth
    ∧ buf.tupltypes = hd.tupltypes ∧ buf.frames ≠ 0
    ∧ readRawBytes (if hd.maxval < 256 then 1 else 2)
        (hd.height * hd.width * hd.depth) (s.drop hd.hdrLen)
      = some (buf.frames, buf.samples) := by
  have hraw : readRaw hd (s.drop hd.hdrLen)
      = readRawBytes (if hd.maxval < 256 then 1 else 2)
          (hd.height * hd.width * hd.depth) (s.drop hd.hdrLen) := by
    rw [readRaw, if_neg hmag, if_neg hm1]
    simp only [if_neg h332]
  rw [readData, hraw] at hread
  rcases hrb : readRawBytes (if hd.maxval < 256 then 1 else 2)
      (hd.height * hd.width * hd.depth) (s.drop hd.hdrLen) with _ | ⟨k, raw⟩
  · rw [hrb] at hread
    exact absurd hread (by simp)
  · rw [hrb] at hread
    have hread2 : (if k = 0 then (none : Option Buffer)
        else if hd.magic = .p7_332 then
          Option.bind (take332 raw) (fun y => some (Buffer.mk hd.magic
            hd.width hd.height hd.maxval hd.depth hd.tupltypes k y))
        else some (Buffer.mk hd.magic hd.width hd.height hd.maxval
          hd.depth hd.tupltypes k raw)) = some buf := hread
    by_cases hk : k = 0
    · rw [if_pos hk] at hread2
      exact absurd hread2 (by simp)
    · rw [if_neg hk, if_neg h332] at hread2
      have hb := (Option.some.inj hread2).symm
      subst hb
      exact ⟨rfl, rfl, rfl, rfl, rfl, rfl, hk, rfl⟩

theorem parseNetpbm_inv {s : List Nat} {buf : Buffer}
    (h : parseNetpbm s = some buf) :
    ∃ hd, parseHeader s = some hd ∧ readData hd s = some buf := by
  rw [parseNetpbm] at h
  rcases hph : parseHeader s with _ | hd
  · rw [hph] at h
    exact absurd h (by simp)
  · rw [hph] at h
    exact ⟨hd, rfl, h⟩

theorem commentsA_of_none {l : List Nat} (h : commentA1 l = none) :
    commentsA l = l := by
  rw [commentsA]
  rcases hl : l.length with _ | n
  · rfl
  · rw [commentsAF, h]

theorem commentsB_of_none {l : List Nat} (h : commentB1 l = none) :
    commentsB l = l := by
  rw [commentsB]
  rcases hl : l.length with _ | n
  · rfl
  · rw [commentsBF, h]

theorem dropWhile_take (p : Nat → Bool) :
    ∀ (l : List Nat) (n : Nat), (l.take n).dropWhile p
      = (l.dropWhile p).take (n - (l.takeWhile p).length) := by
  intro l
  induction l with
  | nil => intro n; simp
  | cons a t ih =>
    intro n
    rcases n with _ | n
    · simp
    · rw [List.take_succ_cons, List.dropWhile_cons, List.dropWhile_cons,
        List.takeWhile_cons]
      rcases hp : p a with _ | _
      · simp
      · simp only [eq_self_iff_true, if_true, List.length_cons,
          Nat.succ_sub_succ]
        exact ih n

theorem commentB1_take_none {payload : List Nat}
    (hsafe : ∀ b, (payload.dropWhile isWs).head? = some b → b ≠ 35)
    (n : Nat) : commentB1 (payload.take n) = none := by
  rw [commentB1, dropWhile_take]
  rcases hdw : payload.dropWhile isWs with _ | ⟨b, r⟩
  · simp
  · have hb : b ≠ 35 := hsafe b (by rw [hdw]; rfl)
    rcases hn : n - (payload.takeWhile isWs).length with _ | m
    · simp
    · rw [List.take_succ_cons]
      dsimp only
      rw [if_neg hb]

theorem tuplMatch1_inv {l : List Nat} {wd : List Nat} {n : Nat}
    (h : tuplMatch1 l = some (wd, n)) :
    wd ≠ [] ∧ ∀ b ∈ wd, isWord b = true := by
  rw [tuplMatch1] at h
  split at h
  · rcases hws : ((l.drop 8).takeWhile isWs) with _ | ⟨x, xs⟩
    · simp only [hws] at h
      simp at h
    · simp only [hws] at h
      rw [if_neg (by simp)] at h
      rcases hwd : (((l.drop 8).dropWhile isWs).takeWhile isWord)
          with _ | ⟨c, cs⟩
      · simp only [hwd] at h
        simp at h
      · simp only [hwd] at h
        rw [if_neg (by simp)] at h
        simp only [Option.some.injEq, Prod.mk.injEq] at h
        obtain ⟨h1, -⟩ := h
        subst h1
        refine ⟨by simp, ?_⟩
        intro b hb
        rw [← hwd] at hb
        exact List.mem_takeWhile_imp hb
  · exact absurd h (by simp)

theorem findTupltypesF_words : ∀ fuel (l : List Nat) (w : List Nat),
    w ∈ findTupltypesF fuel l → w ≠ [] ∧ ∀ b ∈ w, isWord b = true := by
  intro fuel
  induction fuel with
  | zero => intro l w hw; simp [findTupltypesF] at hw
  | succ fuel ih =>
    intro l w hw
    rcases l with _ | ⟨b, t⟩
    · rw [show findTupltypesF (fuel + 1) [] = [] from rfl] at hw
      simp at hw
    · rw [findTupltypesF] at hw
      rcases hm : tuplMatch1 (b :: t) with _ | ⟨wd, n⟩
      · rw [hm] at hw
        dsimp only at hw
        exact ih t w hw
      · rw [hm] at hw
        dsimp only at hw
        rcases List.mem_cons.mp hw with rfl | hw2
        · exact tuplMatch1_inv hm
        · exact ih _ w hw2

theorem pamHeader_inv {data : List Nat} {hd : Header}
    (h : pamHeader data = some hd) :
    hd.magic = .p7 ∧ ∀ t ∈ hd.tupltypes, t ≠ [] ∧ ∀ b ∈ t, isWord b = true := by
  rw [pamHeader] at h
  split at h
  · split at h
    · exact absurd h (by simp)
    · rcases hl : pamLoop ⟨none, none, none, none⟩
          ((data.drop 2).dropWhile isNL) with _ | ⟨st, rest⟩ <;>
        rw [hl] at h <;> dsimp only at h
      · exact absurd h (by simp)
      · rcases st with ⟨⟨⟩ | hv, ⟨⟩ | wv, ⟨⟩ | dv, ⟨⟩ | mv⟩ <;>
          dsimp only at h <;>
          first
            | exact Option.noConfusion h
            | (refine ⟨?_, ?_⟩
               · rw [← (Option.some.inj h)]
               · intro t ht
                 rw [← (Option.some.inj h)] at ht
                 dsimp only at ht
                 rw [findTupltypes] at ht
                 exact findTupltypesF_words _ _ t ht)
  · exact absurd h (by simp)

theorem pnmHeader_inv {data : List Nat} {hd : Header}
    (h : pnmHeader data = some hd) :
    hd.depth = depthOf hd.magic ∧ hd.tupltypes = [typeName hd.magic]
    ∧ hd.magic ≠ .p7 := by
  rw [pnmHeader] at h
  rcases hm : parsePnmMagic data with _ | ⟨mg, l0⟩ <;> rw [hm] at h <;>
    dsimp only at h
  · exact absurd h (by simp)
  · have hmg : mg ≠ .p7 := by
      rw [parsePnmMagic] at hm
      repeat' split at hm
      all_goals first
        | exact Option.noConfusion hm
        | (simp only [Option.some.injEq, Prod.mk.injEq] at hm
           obtain ⟨h1, -⟩ := hm
           subst h1
           simp)
    rcases hw : spanWs1 l0 with _ | l1 <;> rw [hw] at h <;> dsimp only at h
    · exact absurd h (by simp)
    · rcases hf : pnmField (commentsA l1) with _ | ⟨w, l3⟩ <;>
        rw [hf] at h <;> dsimp only at h
      · exact absurd h (by simp)
      · split at h
        · rcases hlf : pnmLastField l3 with _ | ⟨h2, l4⟩ <;>
            rw [hlf] at h <;> dsimp only at h
          · exact absurd h (by simp)
          · rw [← (Option.some.inj h)]
            exact ⟨rfl, rfl, hmg⟩
        · rcases hf2 : pnmField l3 with _ | ⟨h2, l3b⟩ <;> rw [hf2] at h <;>
            dsimp only at h
          · exact absurd h (by simp)
          · rcases hlf : pnmLastField l3b with _ | ⟨m2, l4⟩ <;>
              rw [hlf] at h <;> dsimp only at h
            · exact absurd h (by simp)
            · rw [← (Option.some.inj h)]
              exact ⟨rfl, rfl, hmg⟩

theorem parseHeader_inv {s : List Nat} {hd : Header}
    (h : parseHeader s = some hd) :
    pamHeader (s.take 4096) = some hd ∨ pnmHeader (s.take 4096) = some hd := by
  rw [parseHeader_unfold] at h
  split at h
  · exact absurd h (by simp)
  · split at h
    · rcases hp : pamHeader (s.take 4096) with _ | hd2 <;>
        rw [hp] at h <;> dsimp only at h
      · exact Or.inr h
      · exact Or.inl h
    · exact absurd h (by simp)

theorem dropWhile_ws_digits (v : Nat) (r : List Nat) :
    (natToDec v ++ r).dropWhile isWs = natToDec v ++ r :=
  dropWhile_eq_self_of_takeWhile_nil (takeWhile_ws_digits v r)

theorem parseDigits_render (v : Nat) (r : List Nat)
    (hr : ∀ b, r.head? = some b → isDigit b = false) :
    parseDigits (natToDec v ++ r) = some (v, r) := by
  rw [parseDigits]
  have ht : (natToDec v ++ r).takeWhile isDigit = natToDec v :=
    takeWhile_append_eq (natToDec_digits v) hr
  have hdw : (natToDec v ++ r).dropWhile isDigit = r :=
    dropWhile_append_eq (natToDec_digits v) hr
  rw [ht, hdw, if_neg (by simpa using natToDec_ne_nil v), decVal_natToDec]

theorem spanWs1_digits (v : Nat) (r : List Nat) :
    spanWs1 (32 :: (natToDec v ++ r)) = some (natToDec v ++ r) := by
  rw [spanWs1]
  have ht : (32 :: (natToDec v ++ r)).takeWhile isWs = [32] := by
    rw [List.takeWhile_cons, if_pos (show isWs 32 = true from rfl),
      takeWhile_ws_digits]
  have hdw : (32 :: (natToDec v ++ r)).dropWhile isWs = natToDec v ++ r := by
    rw [List.dropWhile_cons, if_pos (show isWs 32 = true from rfl),
      dropWhile_ws_digits]
  rw [ht, hdw, if_neg (by simp)]

theorem commentsA_digits (v : Nat) (r : List Nat) :
    commentsA (natToDec v ++ r) = natToDec v ++ r := by
  apply commentsA_of_none
  obtain ⟨d, ds, hd, hdig⟩ := natToDec_shape v
  rw [hd, List.cons_append, commentA1]
  rw [if_neg]
  simp only [isDigit, Bool.and_eq_true, decide_eq_true_eq] at hdig
  omega

theorem pnmField_render (v v2 : Nat) (r : List Nat) :
    pnmField (natToDec v ++ (32 :: (natToDec v2 ++ r)))
      = some (v, natToDec v2 ++ r) := by
  rw [pnmField, dropWhile_ws_digits,
    parseDigits_render v (32 :: (natToDec v2 ++ r))
      (fun b hb => by
        rw [List.head?_cons, Option.some.injEq] at hb
        subst hb
        rfl)]
  dsimp only
  rw [spanWs1_digits]
  dsimp only
  rw [commentsA_digits]

theorem pnmLastField_render (v : Nat) (pt : List Nat) :
    pnmLastField (natToDec v ++ (10 :: pt)) = some (v, pt) := by
  rw [pnmLastField, dropWhile_ws_digits,
    parseDigits_render v (10 :: pt)
      (fun b hb => by
        rw [List.head?_cons, Option.some.injEq] at hb
        subst hb
        rfl)]
  dsimp only
  rw [if_pos (show isWs 10 = true from rfl)]

theorem pnmHeader_render5 (w h m : Nat) (pt : List Nat)
    (hsafe : commentB1 pt = none) :
    pnmHeader (80 :: 53 :: 32 :: (natToDec w ++ (32 :: (natToDec h
        ++ (32 :: (natToDec m ++ (10 :: pt)))))))
      = some { magic := .p5, width := w, height := h, maxval := m,
               depth := 1, tupltypes := [strBytes "GRAYSCALE"],
               hdrLen := 6 + ((natToDec w).length + ((natToDec h).length
                 + (natToDec m).length)) } := by
  rw [pnmHeader]
  rw [show parsePnmMagic (80 :: 53 :: 32 :: (natToDec w ++ (32 :: (natToDec h
      ++ (32 :: (natToDec m ++ (10 :: pt)))))))
    = some (Magic.p5, 32 :: (natToDec w ++ (32 :: (natToDec h
      ++ (32 :: (natToDec m ++ (10 :: pt))))))) from rfl]
  dsimp only
  rw [spanWs1_digits]
  dsimp only
  rw [commentsA_digits, pnmField_render]
  dsimp only
  rw [if_neg (fun hx => Bool.noConfusion hx)]
  rw [pnmField_render]
  dsimp only
  rw [pnmLastField_render]
  dsimp only
  rw [commentsB_of_none hsafe, mkPnmHeader]
  have hlen : (80 :: 53 :: 32 :: (natToDec w ++ (32 :: (natToDec h
      ++ (32 :: (natToDec m ++ (10 :: pt))))))).length
      = 6 + ((natToDec w).length + ((natToDec h).length
        + (natToDec m).length)) + pt.length := by
    simp only [List.length_cons, List.length_append]
    omega
  rw [hlen, show 6 + ((natToDec w).length + ((natToDec h).length
      + (natToDec m).length)) + pt.length - pt.length
    = 6 + ((natToDec w).length + ((natToDec h).length
      + (natToDec m).length)) from by omega]
  rfl

theorem pnmHeader_render6 (w h m : Nat) (pt : List Nat)
    (hsafe : commentB1 pt = none) :
    pnmHeader (80 :: 54 :: 32 :: (natToDec w ++ (32 :: (natToDec h
        ++ (32 :: (natToDec m ++ (10 :: pt)))))))
      = some { magic := .p6, width := w, height := h, maxval := m,
               depth := 3, tupltypes := [strBytes "RGB"],
               hdrLen := 6 + ((natToDec w).length + ((natToDec h).length
                 + (natToDec m).length)) } := by
  rw [pnmHeader]
  rw [show parsePnmMagic (80 :: 54 :: 32 :: (natToDec w ++ (32 :: (natToDec h
      ++ (32 :: (natToDec m ++ (10 :: pt)))))))
    = some (Magic.p6, 32 :: (natToDec w ++ (32 :: (natToDec h
      ++ (32 :: (natToDec m ++ (10 :: pt))))))) from rfl]
  dsimp only
  rw [spanWs1_digits]
  dsimp only
  rw [commentsA_digits, pnmField_render]
  dsimp only
  rw [if_neg (fun hx => Bool.noConfusion hx)]
  rw [pnmField_render]
  dsimp only
  rw [pnmLastField_render]
  dsimp only
  rw [commentsB_of_none hsafe, mkPnmHeader]
  have hlen : (80 :: 54 :: 32 :: (natToDec w ++ (32 :: (natToDec h
      ++ (32 :: (natToDec m ++ (10 :: pt))))))).length
      = 6 + ((natToDec w).length + ((natToDec h).length
        + (natToDec m).length)) + pt.length := by
    simp only [List.length_cons, List.length_append]
    omega
  rw [hlen, show 6 + ((natToDec w).length + ((natToDec h).length
      + (natToDec m).length)) + pt.length - pt.length
    = 6 + ((natToDec w).length + ((natToDec h).length
      + (natToDec m).length)) from by omega]
  rfl

theorem takeWhile_nl_renderCons (l : PamLine) (ls : List PamLine)
    (X : List Nat) : (renderLines (l :: ls) ++ X).takeWhile isNL = [] := by
  cases l with
  | field k v => cases k <;> rfl
  | tupl w => rfl
  | comment b => rfl

theorem pamLoopF_render2 (ls : List PamLine) :
    ∀ fuel (st : PamState) (nl tail : List Nat), (∀ l ∈ ls, wfLine l) →
    (nl = [] ∨ nl = [10]) →
    (renderLines ls ++ (nl ++ (strBytes "ENDHDR\n" ++ tail))).length < fuel →
    pamLoopF fuel st (renderLines ls ++ (nl ++ (strBytes "ENDHDR\n" ++ tail)))
      = some (ls.foldl applyLine st, tail) := by
  induction ls with
  | nil =>
    intro fuel st nl tail hwf hnl hlt
    simp only [renderLines, List.flatMap_nil, List.nil_append] at hlt ⊢
    rcases hnl with rfl | rfl
    · simp only [List.nil_append] at hlt ⊢
      rcases fuel with _ | fuel
      · omega
      · rw [pamLoopF, if_pos (List.isPrefixOf_iff_prefix.mpr
          (List.prefix_append _ _))]
        rw [show (7 : Nat) = (strBytes "ENDHDR\n").length from rfl,
          List.drop_left]
        rfl
    · simp only [List.singleton_append] at hlt ⊢
      rcases fuel with _ | _ | fuel
      · exact absurd hlt (by omega)
      · exfalso
        simp only [List.length_cons, List.length_append,
          show (strBytes "ENDHDR\n").length = 7 from rfl] at hlt
        omega
      · rw [pamLoopF, if_neg (by rw [endhdr_not_nl]; simp), pamItem]
        rw [if_pos (show isNL 10 = true from rfl)]
        have hnl2 : List.takeWhile isNL (10 :: (strBytes "ENDHDR\n" ++ tail))
            = [10] := rfl
        rw [hnl2]
        simp only [List.length_cons, List.length_nil, List.drop_succ_cons,
          List.drop_zero]
        rw [pamLoopF, if_pos (List.isPrefixOf_iff_prefix.mpr
          (List.prefix_append _ _))]
        rw [show (7 : Nat) = (strBytes "ENDHDR\n").length from rfl,
          List.drop_left]
        rfl
  | cons l ls ih =>
    intro fuel st nl tail hwf hnl hlt
    have hstream : renderLines (l :: ls)
        ++ (nl ++ (strBytes "ENDHDR\n" ++ tail))
        = renderLine l ++ (renderLines ls
          ++ (nl ++ (strBytes "ENDHDR\n" ++ tail))) := by
      simp [renderLines]
    rw [hstream] at hlt ⊢
    obtain ⟨n, hitem, hdrop⟩ := pamItem_render st l (hwf l (by simp)) _
    have hline := renderLine_length l
    rcases fuel with _ | fuel
    · simp at hlt
    · rw [pamLoopF, if_neg (by rw [renderLine_endhdr]; simp), hitem]
      dsimp only
      rw [hdrop]
      rcases fuel with _ | fuel
      · exfalso
        simp only [List.length_append] at hlt
        omega
      · rw [pamLoopF, if_neg (by rw [endhdr_not_nl]; simp), pamItem]
        rw [if_pos (show isNL 10 = true from rfl)]
        rcases ls with _ | ⟨l2, ls2⟩
        · rcases hnl with rfl | rfl
          · have hnl2 : List.takeWhile isNL (10 :: (renderLines []
                ++ ([] ++ (strBytes "ENDHDR\n" ++ tail)))) = [10] := rfl
            rw [hnl2]
            simp only [List.length_cons, List.length_nil,
              List.drop_succ_cons, List.drop_zero]
            rw [List.foldl_cons]
            apply ih fuel (applyLine st l) [] tail (by simp)
              (Or.inl rfl)
            simp only [List.length_append] at hlt ⊢
            omega
          · have hnl2 : List.takeWhile isNL (10 :: (renderLines []
                ++ ([10] ++ (strBytes "ENDHDR\n" ++ tail)))) = [10, 10] := rfl
            rw [hnl2]
            simp only [List.length_cons, List.length_nil,
              List.drop_succ_cons, List.drop_zero]
            have hdrop2 : List.drop 1 (renderLines []
                ++ ([10] ++ (strBytes "ENDHDR\n" ++ tail)))
                = renderLines [] ++ ([] ++ (strBytes "ENDHDR\n" ++ tail))
              := rfl
            rw [hdrop2, List.foldl_cons]
            apply ih fuel (applyLine st l) [] tail (by simp)
              (Or.inl rfl)
            simp only [List.length_append, List.length_cons] at hlt ⊢
            omega
        · have hnl2 : List.takeWhile isNL (10 :: (renderLines (l2 :: ls2)
              ++ (nl ++ (strBytes "ENDHDR\n" ++ tail)))) = [10] := by
            rw [List.takeWhile_cons, if_pos (show isNL 10 = true from rfl),
              takeWhile_nl_renderCons]
          rw [hnl2]
          simp only [List.length_cons, List.length_nil,
            List.drop_succ_cons, List.drop_zero]
          rw [List.foldl_cons]
          apply ih fuel (applyLine st l) nl tail
            (fun x hx => hwf x (by simp [hx])) hnl
          simp only [List.length_append] at hlt ⊢
          omega

theorem findT_tail_nil {tail : List Nat}
    (h : ∀ i, i < tail.length → tuplMatch1 (tail.drop i) = none) :
    ∀ fuel, tail.length ≤ fuel → findTupltypesF fuel tail = [] := by
  intro fuel hf
  rw [findT_skip (x := tail) (y := []) (List.append_nil tail).symm fuel hf
    (fun i hi => by rw [List.append_nil]; exact h i hi)]
  exact findTupltypesF_nil _

theorem findT_render_gen (ls : List PamLine) (tail : List Nat)
    (htail : ∀ i, i < tail.length → tuplMatch1 (tail.drop i) = none) :
    ∀ fuel, (∀ l ∈ ls, wfLine l) → (renderLines ls ++ tail).length ≤ fuel →
    findTupltypesF fuel (renderLines ls ++ tail) = ls.filterMap tuplWord := by
  induction ls with
  | nil =>
    intro fuel hwf hfl
    simp only [renderLines, List.flatMap_nil, List.nil_append] at hfl ⊢
    rw [findT_tail_nil htail fuel hfl]
    rfl
  | cons l ls ih =>
    intro fuel hwf hfl
    have hstream : renderLines (l :: ls) ++ tail
        = renderLine l ++ (renderLines ls ++ tail) := by
      simp [renderLines]
    rw [hstream] at hfl ⊢
    obtain ⟨fuel2, h1, h2, heq⟩ := findT_line l (hwf l (by simp))
      (renderLines ls ++ tail) fuel
      (by simp only [List.length_append] at hfl; omega)
    rw [heq, ih fuel2 (fun x hx => hwf x (by simp [hx]))
      (by simp only [List.length_append] at hfl h1 ⊢; omega)]
    rcases l with ⟨k, v⟩ | w | b <;> simp [tuplWord]

theorem renderHeader_p7 (b : Buffer) (hb : b.magic = .p7) :
    renderHeader b
      = strBytes "P7\n"
        ++ (renderLines ([.field .height b.height, .field .width b.width,
              .field .depth b.depth, .field .maxval b.maxval]
            ++ b.tupltypes.map PamLine.tupl)
          ++ ((if b.tupltypes = [] then [10] else ([] : List Nat))
            ++ strBytes "ENDHDR\n")) := by
  rw [renderHeader, if_pos hb]
  rcases hts : b.tupltypes with _ | ⟨t, ts⟩
  · simp [renderLines, renderLine, keyBytes, strBytes, List.append_assoc]
  · rw [if_neg (by simp)]
    simp only [renderLines, renderLine, keyBytes, List.flatMap_append,
      List.flatMap_cons, List.flatMap_nil, List.flatMap_map]
    simp [renderLine, strBytes, List.append_assoc]

theorem endhdr_windows : ∀ i, i < (strBytes "ENDHDR\n").length →
    tuplMatch1 ((strBytes "ENDHDR\n").drop i) = none := by
  intro i hi
  rw [show (strBytes "ENDHDR\n").length = 7 from rfl] at hi
  interval_cases i <;> decide

theorem nl_windows (nl : List Nat) (hnl : nl = [] ∨ nl = [10]) :
    ∀ i, i < (nl ++ strBytes "ENDHDR\n").length →
    tuplMatch1 ((nl ++ strBytes "ENDHDR\n").drop i) = none := by
  rcases hnl with rfl | rfl
  · intro i hi
    simp only [List.nil_append] at hi ⊢
    exact endhdr_windows i hi
  · intro i hi
    rw [show (([10] : List Nat) ++ strBytes "ENDHDR\n").length = 8 from rfl]
      at hi
    interval_cases i <;> decide

theorem pamHeader_render7 (ls : List PamLine) (nl p2 : List Nat)
    (hwf : ∀ l ∈ ls, wfLine l) (hnl : nl = [] ∨ nl = [10]) :
    pamHeader ((strBytes "P7\n" ++ (renderLines ls
        ++ (nl ++ strBytes "ENDHDR\n"))) ++ p2)
      = match lastFieldVal .height ls, lastFieldVal .width ls,
          lastFieldVal .depth ls, lastFieldVal .maxval ls with
        | some h, some w, some d, some m =>
          some { magic := .p7, width := w, height := h, maxval := m,
                 depth := d, tupltypes := ls.filterMap tuplWord,
                 hdrLen := 10 + nl.length + (renderLines ls).length }
        | _, _, _, _ => none := by
  have hE : (strBytes "ENDHDR\n").length = 7 := rfl
  have hdlen : ((strBytes "P7\n" ++ (renderLines ls
      ++ (nl ++ strBytes "ENDHDR\n"))) ++ p2).length
      = 10 + nl.length + (renderLines ls).length + p2.length := by
    simp only [List.length_append, hE, show (strBytes "P7\n").length = 3
      from rfl]
    omega
  rw [pamHeader, if_pos (show ([80, 55] : List Nat).isPrefixOf
    ((strBytes "P7\n" ++ (renderLines ls ++ (nl ++ strBytes "ENDHDR\n")))
      ++ p2) = true from rfl)]
  have hdrop2 : ((strBytes "P7\n" ++ (renderLines ls
      ++ (nl ++ strBytes "ENDHDR\n"))) ++ p2).drop 2
      = 10 :: ((renderLines ls ++ (nl ++ strBytes "ENDHDR\n")) ++ p2) := rfl
  have hassoc : (renderLines ls ++ (nl ++ strBytes "ENDHDR\n")) ++ p2
      = renderLines ls ++ (nl ++ (strBytes "ENDHDR\n" ++ p2)) := by
    simp [List.append_assoc]
  rcases ls with _ | ⟨l0, ls0⟩
  · have hcomp : ((strBytes "P7\n" ++ (renderLines []
        ++ (nl ++ strBytes "ENDHDR\n"))) ++ p2).drop 2
        = 10 :: (nl ++ (strBytes "ENDHDR\n" ++ p2)) := by
      rw [hdrop2, hassoc]
      rfl
    rcases hnl with rfl | rfl
    · rw [if_neg (by rw [hcomp]; simp [List.takeWhile_cons, isNL])]
      have hdw : (((strBytes "P7\n" ++ (renderLines []
          ++ ([] ++ strBytes "ENDHDR\n"))) ++ p2).drop 2).dropWhile isNL
          = strBytes "ENDHDR\n" ++ p2 := by
        rw [hcomp]
        rfl
      rw [hdw, pamLoop]
      rw [show strBytes "ENDHDR\n" ++ p2
        = renderLines [] ++ ([] ++ (strBytes "ENDHDR\n" ++ p2)) from rfl]
      rw [pamLoopF_render2 [] _ _ [] p2 (by simp) (Or.inl rfl)
        (Nat.lt_succ_self _)]
      rfl
    · rw [if_neg (by rw [hcomp]; simp [List.takeWhile_cons, isNL])]
      have hdw : (((strBytes "P7\n" ++ (renderLines []
          ++ ([10] ++ strBytes "ENDHDR\n"))) ++ p2).drop 2).dropWhile isNL
          = strBytes "ENDHDR\n" ++ p2 := by
        rw [hcomp]
        rfl
      rw [hdw, pamLoop]
      rw [show strBytes "ENDHDR\n" ++ p2
        = renderLines [] ++ ([] ++ (strBytes "ENDHDR\n" ++ p2)) from rfl]
      rw [pamLoopF_render2 [] _ _ [] p2 (by simp) (Or.inl rfl)
        (Nat.lt_succ_self _)]
      rfl
  · have htw : (((strBytes "P7\n" ++ (renderLines (l0 :: ls0)
        ++ (nl ++ strBytes "ENDHDR\n"))) ++ p2).drop 2).takeWhile isNL
        = [10] := by
      rw [hdrop2, hassoc, List.takeWhile_cons,
        if_pos (show isNL 10 = true from rfl), takeWhile_nl_renderCons]
    rw [if_neg (by rw [htw]; simp)]
    have hdw : (((strBytes "P7\n" ++ (renderLines (l0 :: ls0)
        ++ (nl ++ strBytes "ENDHDR\n"))) ++ p2).drop 2).dropWhile isNL
        = renderLines (l0 :: ls0) ++ (nl ++ (strBytes "ENDHDR\n" ++ p2))
        := by
      rw [hdrop2, hassoc, List.dropWhile_cons,
        if_pos (show isNL 10 = true from rfl)]
      exact dropWhile_eq_self_of_takeWhile_nil (takeWhile_nl_renderCons _ _ _)
    rw [hdw, pamLoop]
    rw [pamLoopF_render2 (l0 :: ls0) _ _ nl p2 hwf hnl (Nat.lt_succ_self _)]
    dsimp only
    rw [foldl_applyLine_height, foldl_applyLine_width,
      foldl_applyLine_depth, foldl_applyLine_maxval]
    dsimp only
    rw [Option.or_none, Option.or_none, Option.or_none, Option.or_none]
    have hLL : ((strBytes "P7\n" ++ (renderLines (l0 :: ls0)
        ++ (nl ++ strBytes "ENDHDR\n"))) ++ p2).length - p2.length
        = 10 + nl.length + (renderLines (l0 :: ls0)).length := by
      rw [hdlen]
      omega
    rw [hLL]
    have htake : ((strBytes "P7\n" ++ (renderLines (l0 :: ls0)
        ++ (nl ++ strBytes "ENDHDR\n"))) ++ p2).take
          (10 + nl.length + (renderLines (l0 :: ls0)).length)
        = strBytes "P7\n" ++ (renderLines (l0 :: ls0)
          ++ (nl ++ strBytes "ENDHDR\n")) := by
      rw [show 10 + nl.length + (renderLines (l0 :: ls0)).length
          = (strBytes "P7\n" ++ (renderLines (l0 :: ls0)
            ++ (nl ++ strBytes "ENDHDR\n"))).length from by
        simp only [List.length_append, hE,
          show (strBytes "P7\n").length = 3 from rfl]
        omega]
      exact List.take_left _ _
    rw [htake]
    have hft : findTupltypes (strBytes "P7\n" ++ (renderLines (l0 :: ls0)
        ++ (nl ++ strBytes "ENDHDR\n")))
        = (l0 :: ls0).filterMap tuplWord := by
      rw [findTupltypes]
      rw [findT_skip_no84 (show strBytes "P7\n" ++ (renderLines (l0 :: ls0)
          ++ (nl ++ strBytes "ENDHDR\n"))
          = [80, 55, 10] ++ (renderLines (l0 :: ls0)
            ++ (nl ++ strBytes "ENDHDR\n")) from rfl)
        (by simp only [List.length_append, hE,
          show (strBytes "P7\n").length = 3 from rfl]; simp)
        (by intro b hb; fin_cases hb <;> omega)]
      refine findT_render_gen (l0 :: ls0) (nl ++ strBytes "ENDHDR\n")
        (nl_windows nl hnl) _ hwf ?_
      simp only [List.length_append, hE,
        show (strBytes "P7\n").length = 3 from rfl]
      simp
    rw [hft]

theorem readRawBytes_inv {itm size : Nat} {payload : List Nat}
    {k : Nat} {samples : List Nat}
    (h : readRawBytes itm size payload = some (k, samples)) :
    (payload.take (size * itm)).length % itm = 0
    ∧ samples = (if itm = 1 then payload.take (size * itm)
        else decodeU2 (payload.take (size * itm))) := by
  rw [readRawBytes] at h
  split at h
  · exact absurd h (by simp)
  · next hmod =>
    rcases hr : reshapeRows ((payload.take (size * itm)).length / itm) size
      with _ | k2
    · rw [hr] at h
      exact absurd h (by simp)
    · rw [hr] at h
      have h3 : (some (k2, (if itm = 1 then payload.take (size * itm)
          else decodeU2 (payload.take (size * itm))))
            : Option (Nat × List Nat)) = some (k, samples) := h
      simp only [Option.some.injEq, Prod.mk.injEq] at h3
      obtain ⟨-, h2⟩ := h3
      rw [Decidable.not_not] at hmod
      exact ⟨hmod, h2.symm⟩

theorem readData_bytes (hd : Header) (s : List Nat)
    (hascii : ¬ (hd.magic = .p1 ∨ hd.magic = .p2 ∨ hd.magic = .p3))
    (h332 : hd.magic ≠ .p7_332) (hm1 : hd.maxval ≠ 1) {k : Nat}
    {samples : List Nat}
    (hrb : readRawBytes (if hd.maxval < 256 then 1 else 2)
        (hd.height * hd.width * hd.depth) (s.drop hd.hdrLen)
      = some (k, samples))
    (hk : k ≠ 0) :
    readData hd s = some
      { magic := hd.magic, width := hd.width, height := hd.height,
        maxval := hd.maxval, depth := hd.depth, tupltypes := hd.tupltypes,
        frames := k, samples := samples } := by
  have hraw : readRaw hd (s.drop hd.hdrLen)
      = readRawBytes (if hd.maxval < 256 then 1 else 2)
          (hd.height * hd.width * hd.depth) (s.drop hd.hdrLen) := by
    rw [readRaw, if_neg hascii, if_neg hm1]
    simp only [if_neg h332]
  rw [readData, hraw, hrb]
  have hstep : (do
      let x ← (some (k, samples) : Option (Nat × List Nat))
      if x.1 = 0 then none
      else do
        let y ← if hd.magic = .p7_332 then take332 x.2 else some x.2
        some (Buffer.mk hd.magic hd.width hd.height hd.maxval
          hd.depth hd.tupltypes x.1 y))
      = if k = 0 then (none : Option Buffer)
        else if hd.magic = .p7_332 then
          Option.bind (take332 samples) (fun y => some (Buffer.mk hd.magic
            hd.width hd.height hd.maxval hd.depth hd.tupltypes k y))
        else some (Buffer.mk hd.magic hd.width hd.height hd.maxval
          hd.depth hd.tupltypes k samples) := rfl
  rw [hstep, if_neg hk, if_neg h332]

theorem encodePayload_of_bytes {buf : Buffer} {payload : List Nat}
    (hm1 : buf.maxval ≠ 1)
    (hbound : ∀ b ∈ payload, b < 256)
    (hrb : readRawBytes (if buf.maxval < 256 then 1 else 2)
        (buf.height * buf.width * buf.depth) payload
      = some (buf.frames, buf.samples)) :
    encodePayload buf = payload.take (buf.height * buf.width * buf.depth
      * (if buf.maxval < 256 then 1 else 2)) := by
  obtain ⟨hmod, hsm⟩ := readRawBytes_inv hrb
  rw [encodePayload, if_neg hm1]
  by_cases hlt : buf.maxval < 256
  · rw [if_pos hlt] at hsm
    rw [if_pos hlt, if_pos hlt]
    rw [if_pos (by norm_num)] at hsm
    rw [hsm]
    exact map_mod256_id (fun b hb => hbound b (List.mem_of_mem_take hb))
  · rw [if_neg hlt] at hsm hmod
    rw [if_neg hlt, if_neg hlt]
    rw [if_neg (by norm_num)] at hsm
    rw [hsm]
    exact encodeU2_decodeU2 _ hmod
      (fun b hb => hbound b (List.mem_of_mem_take hb))

theorem readData_fields {hd : Header} {s : List Nat} {buf : Buffer}
    (h : readData hd s = some buf) :
    buf.magic = hd.magic ∧ buf.width = hd.width ∧ buf.height = hd.height
    ∧ buf.maxval = hd.maxval ∧ buf.depth = hd.depth
    ∧ buf.tupltypes = hd.tupltypes := by
  rw [readData] at h
  rcases hr : readRaw hd (s.drop hd.hdrLen) with _ | ⟨k, raw⟩
  · rw [hr] at h
    exact absurd h (by simp)
  · rw [hr] at h
    have h2 : (if k = 0 then (none : Option Buffer)
        else if hd.magic = .p7_332 then
          Option.bind (take332 raw) (fun y => some (Buffer.mk hd.magic
            hd.width hd.height hd.maxval hd.depth hd.tupltypes k y))
        else some (Buffer.mk hd.magic hd.width hd.height hd.maxval
          hd.depth hd.tupltypes k raw)) = some buf := h
    by_cases hk : k = 0
    · rw [if_pos hk] at h2
      exact absurd h2 (by simp)
    · rw [if_neg hk] at h2
      by_cases h332 : hd.magic = .p7_332
      · rw [if_pos h332] at h2
        rcases ht : take332 raw with _ | smp
        · rw [ht] at h2
          exact absurd h2 (by simp)
        · rw [ht] at h2
          have hb := (Option.some.inj h2).symm
          subst hb
          exact ⟨rfl, rfl, rfl, rfl, rfl, rfl⟩
      · rw [if_neg h332] at h2
        have hb := (Option.some.inj h2).symm
        subst hb
        exact ⟨rfl, rfl, rfl, rfl, rfl, rfl⟩

theorem lastFieldVal_append_tupls (k : PamKey) (ls1 : List PamLine)
    (ts : List (List Nat)) :
    lastFieldVal k (ls1 ++ ts.map PamLine.tupl) = lastFieldVal k ls1 := by
  induction ts using List.reverseRecOn with
  | nil => simp
  | append_singleton ts t ih =>
    rw [show ls1 ++ (ts ++ [t]).map PamLine.tupl
      = (ls1 ++ ts.map PamLine.tupl) ++ [PamLine.tupl t] from by simp]
    rw [lastFieldVal_concat]
    simpa using ih

theorem filterMap_tupls (ts : List (List Nat)) :
    (ts.map PamLine.tupl).filterMap tuplWord = ts := by
  induction ts with
  | nil => rfl
  | cons t ts ih => simp [List.filterMap_cons, tuplWord, ih]

/-! ## Bilevel round-trip machinery (`packbits` after `unpackbits`) -/

theorem sigBit_le_one (v : Nat) : sigBit v ≤ 1 := by
  rw [sigBit]
  split <;> omega

theorem sigBit_of_le_one {v : Nat} (h : v ≤ 1) : sigBit v = v := by
  rw [sigBit]
  split <;> omega

theorem packByte_eq (grp : List Nat) :
    packByte grp
      = sigBit (grp.getD 0 0) * 128 + sigBit (grp.getD 1 0) * 64
        + sigBit (grp.getD 2 0) * 32 + sigBit (grp.getD 3 0) * 16
        + sigBit (grp.getD 4 0) * 8 + sigBit (grp.getD 5 0) * 4
        + sigBit (grp.getD 6 0) * 2 + sigBit (grp.getD 7 0) := by
  rw [packByte, show List.range 8 = [0, 1, 2, 3, 4, 5, 6, 7] from rfl]
  simp only [List.foldl_cons, List.foldl_nil]
  norm_num

theorem bitAt_packByte (grp : List Nat) (t : Nat) (ht : t < 8) :
    bitAt (packByte grp) t = sigBit (grp.getD t 0) := by
  have h0 := sigBit_le_one (grp.getD 0 0)
  have h1 := sigBit_le_one (grp.getD 1 0)
  have h2 := sigBit_le_one (grp.getD 2 0)
  have h3 := sigBit_le_one (grp.getD 3 0)
  have h4 := sigBit_le_one (grp.getD 4 0)
  have h5 := sigBit_le_one (grp.getD 5 0)
  have h6 := sigBit_le_one (grp.getD 6 0)
  have h7 := sigBit_le_one (grp.getD 7 0)
  rw [packByte_eq, bitAt]
  interval_cases t <;> simp only [Nat.reduceSub, Nat.reducePow] <;> omega

theorem getD_take_drop (l : List Nat) (a b t : Nat) (ht : t < b) :
    ((l.drop a).take b).getD t 0 = l.getD (a + t) 0 := by
  rw [List.getD_eq_getElem?_getD, List.getD_eq_getElem?_getD,
    List.getElem?_take, if_pos ht, List.getElem?_drop]

theorem ext_getD {l1 l2 : List Nat} (hlen : l1.length = l2.length)
    (h : ∀ i, i < l1.length → l1.getD i 0 = l2.getD i 0) : l1 = l2 := by
  apply List.ext_getElem hlen
  intro i h1 h2
  have hi := h i h1
  rwa [List.getD_eq_getElem _ _ h1, List.getD_eq_getElem _ _ h2] at hi

theorem unpack1bit_le_one {kh rb d w : Nat} {bytes : List Nat} :
    ∀ v ∈ unpack1bit kh rb d w bytes, v ≤ 1 := by
  intro v hv
  rw [unpack1bit] at hv
  simp only [List.mem_flatMap, List.mem_map, List.mem_range] at hv
  obtain ⟨fr, -, c, -, ch, -, hveq⟩ := hv
  rw [← hveq, bitAt]
  have := Nat.mod_lt (bytes.getD ((fr * rb + c / 8) * d + ch) 0
    / 2 ^ (7 - c % 8)) (show 0 < 2 by norm_num)
  omega

theorem unpack1bit_packLast {K w : Nat} (samples : List Nat)
    (hw : 1 ≤ w) (hlen : samples.length = K * w)
    (hbit : ∀ v ∈ samples, v ≤ 1) :
    unpack1bit K ((w + 7) / 8) 1 w (packLast w samples) = samples := by
  have hKd : samples.length / w = K := by
    rw [hlen]
    exact Nat.mul_div_cancel K hw
  apply ext_getD
  · rw [unpack1bit_length, mul_one, hlen]
  · intro i hi
    rw [unpack1bit_length, mul_one] at hi
    obtain ⟨r, c, hieq, hrK, hcw⟩ : ∃ r c, i = r * w + c ∧ r < K ∧ c < w := by
      refine ⟨i / w, i % w, ?_, ?_, Nat.mod_lt _ hw⟩
      · rw [Nat.mul_comm]
        exact (Nat.div_add_mod i w).symm
      · exact Nat.div_lt_of_lt_mul (Nat.mul_comm K w ▸ hi)
    subst hieq
    have hgoal := @unpack1bit_getD K ((w + 7) / 8) 1 w r c 0
      (packLast w samples) hrK hcw (by omega)
    rw [show (r * w + c) * 1 + 0 = r * w + c from by ring,
      show (r * ((w + 7) / 8) + c / 8) * 1 + 0
        = r * ((w + 7) / 8) + c / 8 from by ring] at hgoal
    rw [hgoal]
    have hpl : (packLast w samples).getD (r * ((w + 7) / 8) + c / 8) 0
        = packByte ((samples.drop (r * w + 8 * (c / 8))).take
            (min 8 (w - 8 * (c / 8)))) := by
      rw [packLast]
      rw [show (if w = 0 then 0 else samples.length / w) = K from by
        rw [if_neg (by omega), hKd]]
      rw [flatMap_range_getD _ (fun i _ => by
            rw [List.length_map, List.length_range]) hrK (by omega)]
      exact getD_map_range _ (by omega)
    rw [hpl, bitAt_packByte _ _ (by omega)]
    rw [getD_take_drop _ _ _ _ (by omega)]
    rw [show r * w + 8 * (c / 8) + c % 8 = r * w + c from by omega]
    have hmem : samples.getD (r * w + c) 0 ∈ samples := by
      have hlt : r * w + c < samples.length := by
        rw [hlen]
        nlinarith
      rw [List.getD_eq_getElem _ _ hlt]
      exact List.getElem_mem _
    exact sigBit_of_le_one (hbit _ hmem)

theorem reshapeRows_mul {k rows : Nat} (h : 0 < rows) :
    reshapeRows (k * rows) rows = some k := by
  rw [reshapeRows, if_neg (by omega),
    if_neg (by simp [Nat.mul_mod_left])]
  rw [Nat.mul_div_cancel k h]

theorem readRawBits_inv {h rb d w k : Nat} {payload samples : List Nat}
    (hr : readRawBits h rb d w payload = some (k, samples)) :
    0 < h * rb * d ∧ payload.length = k * (h * rb * d)
    ∧ samples = unpack1bit (k * h) rb d w payload := by
  rw [readRawBits] at hr
  rcases hre : reshapeRows payload.length (h * rb * d) with _ | k2 <;>
    rw [hre] at hr
  · exact absurd hr (by simp)
  · have h2 : (some (k2, unpack1bit (k2 * h) rb d w payload)
        : Option (Nat × List Nat)) = some (k, samples) := hr
    simp only [Option.some.injEq, Prod.mk.injEq] at h2
    obtain ⟨hk2, hs⟩ := h2
    rw [reshapeRows] at hre
    split at hre
    · exact absurd hre (by simp)
    · next hrows =>
      split at hre
      · exact absurd hre (by simp)
      · next hmod =>
        have hkeq : payload.length / (h * rb * d) = k :=
          (Option.some.inj hre).trans hk2
        have hmod0 : payload.length % (h * rb * d) = 0 :=
          Decidable.not_not.mp hmod
        have hdvd : (h * rb * d) ∣ payload.length :=
          Nat.dvd_of_mod_eq_zero hmod0
        refine ⟨by omega, ?_, ?_⟩
        · rw [← hkeq]
          exact (Nat.div_mul_cancel hdvd).symm
        · rw [← hs, hk2]

theorem readRawBits_pack {hh w k : Nat} {payload samples : List Nat}
    (hr : readRawBits hh ((w + 7) / 8) 1 w payload = some (k, samples)) :
    readRawBits hh ((w + 7) / 8) 1 w (packLast w samples)
      = some (k, samples) := by
  obtain ⟨hpos, hplen, hs⟩ := readRawBits_inv hr
  have hw : 1 ≤ w := by
    rcases Nat.eq_zero_or_pos w with hw0 | hw1
    · rw [hw0] at hpos
      simp at hpos
    · exact hw1
  have hslen : samples.length = (k * hh) * w := by
    rw [hs, unpack1bit_length, mul_one, Nat.mul_assoc]
  have hbit : ∀ v ∈ samples, v ≤ 1 := by
    rw [hs]
    exact unpack1bit_le_one
  have hup := @unpack1bit_packLast (k * hh) w samples hw hslen hbit
  have hpllen : (packLast w samples).length
      = k * (hh * ((w + 7) / 8) * 1) := by
    rw [packLast, flatMap_range_length _ _ ((w + 7) / 8)
      (fun i _ => by rw [List.length_map, List.length_range])]
    rw [if_neg (by omega), hslen, Nat.mul_div_cancel _ hw]
    ring
  rw [readRawBits, hpllen, reshapeRows_mul hpos]
  show some (k, unpack1bit (k * hh) ((w + 7) / 8) 1 w (packLast w samples))
    = some (k, samples)
  rw [hup]

theorem readData_inv_bits {hd : Header} {s : List Nat} {buf : Buffer}
    (hread : readData hd s = some buf)
    (hmag : ¬ (hd.magic = .p1 ∨ hd.magic = .p2 ∨ hd.magic = .p3))
    (h332 : hd.magic ≠ .p7_332) (hm1 : hd.maxval = 1) :
    buf.magic = hd.magic ∧ buf.width = hd.width ∧ buf.height = hd.height
    ∧ buf.maxval = hd.maxval ∧ buf.depth = hd.depth
    ∧ buf.tupltypes = hd.tupltypes ∧ buf.frames ≠ 0
    ∧ readRawBits hd.height ((hd.width + 7) / 8) hd.depth hd.width
        (s.drop hd.hdrLen) = some (buf.frames, buf.samples) := by
  have hraw : readRaw hd (s.drop hd.hdrLen)
      = readRawBits hd.height ((hd.width + 7) / 8) hd.depth hd.width
          (s.drop hd.hdrLen) := by
    rw [readRaw, if_neg hmag, if_pos hm1]
    simp only [if_neg h332]
  rw [readData, hraw] at hread
  rcases hrb : readRawBits hd.height ((hd.width + 7) / 8) hd.depth hd.width
      (s.drop hd.hdrLen) with _ | ⟨k, raw⟩
  · rw [hrb] at hread
    exact absurd hread (by simp)
  · rw [hrb] at hread
    have hread2 : (if k = 0 then (none : Option Buffer)
        else if hd.magic = .p7_332 then
          Option.bind (take332 raw) (fun y => some (Buffer.mk hd.magic
            hd.width hd.height hd.maxval hd.depth hd.tupltypes k y))
        else some (Buffer.mk hd.magic hd.width hd.height hd.maxval
          hd.depth hd.tupltypes k raw)) = some buf := hread
    by_cases hk : k = 0
    · rw [if_pos hk] at hread2
      exact absurd hread2 (by simp)
    · rw [if_neg hk, if_neg h332] at hread2
      have hb := (Option.some.inj hread2).symm
      subst hb
      exact ⟨rfl, rfl, rfl, rfl, rfl, rfl, hk, rfl⟩

theorem readData_bits (hd : Header) (s : List Nat)
    (hascii : ¬ (hd.magic = .p1 ∨ hd.magic = .p2 ∨ hd.magic = .p3))
    (h332 : hd.magic ≠ .p7_332) (hm1 : hd.maxval = 1) {k : Nat}
    {samples : List Nat}
    (hrb : readRawBits hd.height ((hd.width + 7) / 8) hd.depth hd.width
        (s.drop hd.hdrLen) = some (k, samples))
    (hk : k ≠ 0) :
    readData hd s = some
      { magic := hd.magic, width := hd.width, height := hd.height,
        maxval := hd.maxval, depth := hd.depth, tupltypes := hd.tupltypes,
        frames := k, samples := samples } := by
  have hraw : readRaw hd (s.drop hd.hdrLen)
      = readRawBits hd.height ((hd.width + 7) / 8) hd.depth hd.width
          (s.drop hd.hdrLen) := by
    rw [readRaw, if_neg hascii, if_pos hm1]
    simp only [if_neg h332]
  rw [readData, hraw, hrb]
  have hstep : (do
      let x ← (some (k, samples) : Option (Nat × List Nat))
      if x.1 = 0 then none
      else do
        let y ← if hd.magic = .p7_332 then take332 x.2 else some x.2
        some (Buffer.mk hd.magic hd.width hd.height hd.maxval
          hd.depth hd.tupltypes x.1 y))
      = if k = 0 then (none : Option Buffer)
        else if hd.magic = .p7_332 then
          Option.bind (take332 samples) (fun y => some (Buffer.mk hd.magic
            hd.width hd.height hd.maxval hd.depth hd.tupltypes k y))
        else some (Buffer.mk hd.magic hd.width hd.height hd.maxval
          hd.depth hd.tupltypes k samples) := rfl
  rw [hstep, if_neg hk, if_neg h332]

theorem pnmHeader_magic {data : List Nat} {hd : Header} {mg : Magic}
    {l0 : List Nat} (h : pnmHeader data = some hd)
    (hm : parsePnmMagic data = some (mg, l0)) : hd.magic = mg := by
  rw [pnmHeader, hm] at h
  dsimp only at h
  rcases hw : spanWs1 l0 with _ | l1 <;> rw [hw] at h <;> dsimp only at h
  · exact absurd h (by simp)
  · rcases hf : pnmField (commentsA l1) with _ | ⟨w, l3⟩ <;>
      rw [hf] at h <;> dsimp only at h
    · exact absurd h (by simp)
    · split at h
      · rcases hlf : pnmLastField l3 with _ | ⟨h2, l4⟩ <;>
          rw [hlf] at h <;> dsimp only at h
        · exact absurd h (by simp)
        · rw [← (Option.some.inj h)]
          rfl
      · rcases hf2 : pnmField l3 with _ | ⟨h2, l3b⟩ <;> rw [hf2] at h <;>
          dsimp only at h
        · exact absurd h (by simp)
        · rcases hlf : pnmLastField l3b with _ | ⟨m2, l4⟩ <;>
            rw [hlf] at h <;> dsimp only at h
          · exact absurd h (by simp)
          · rw [← (Option.some.inj h)]
            rfl

theorem pnmHeader_p4_maxval {data : List Nat} {hd : Header}
    (h : pnmHeader data = some hd) (h4 : hd.magic = .p4) :
    hd.maxval = 1 := by
  rcases hm : parsePnmMagic data with _ | ⟨mg, l0⟩
  · rw [pnmHeader, hm] at h
    exact absurd h (by simp)
  · have hmg : mg = Magic.p4 := (pnmHeader_magic h hm).symm.trans h4
    have hpre : ([80, 52] : List Nat).isPrefixOf data = true := by
      rw [parsePnmMagic] at hm
      repeat' split at hm
      all_goals first
        | exact Option.noConfusion hm
        | (simp only [Option.some.injEq, Prod.mk.injEq] at hm
           obtain ⟨h1, -⟩ := hm
           first
             | (rw [hmg] at h1
                exact absurd h1 (by decide))
             | assumption)
    have hgd : data.getD 1 0 = 52 := by
      obtain ⟨t, ht⟩ := List.isPrefixOf_iff_prefix.mp hpre
      rw [← ht]
      rfl
    rw [pnmHeader, hm] at h
    dsimp only at h
    rcases hw : spanWs1 l0 with _ | l1 <;> rw [hw] at h <;> dsimp only at h
    · exact absurd h (by simp)
    · rcases hf : pnmField (commentsA l1) with _ | ⟨w, l3⟩ <;>
        rw [hf] at h <;> dsimp only at h
      · exact absurd h (by simp)
      · split at h
        · rcases hlf : pnmLastField l3 with _ | ⟨h2, l4⟩ <;>
            rw [hlf] at h <;> dsimp only at h
          · exact absurd h (by simp)
          · rw [← (Option.some.inj h)]
            rfl
        · next hcond =>
          exact absurd (by rw [hgd]; rfl) hcond

theorem pnmHeader_render4 (w h : Nat) (pt : List Nat)
    (hsafe : commentB1 pt = none) :
    pnmHeader (80 :: 52 :: 32 :: (natToDec w ++ (32 :: (natToDec h
        ++ (10 :: pt)))))
      = some { magic := .p4, width := w, height := h, maxval := 1,
               depth := 1, tupltypes := [strBytes "BLACKANDWHITE"],
               hdrLen := 5 + ((natToDec w).length + (natToDec h).length) }
      := by
  rw [pnmHeader]
  rw [show parsePnmMagic (80 :: 52 :: 32 :: (natToDec w ++ (32 :: (natToDec h
      ++ (10 :: pt)))))
    = some (Magic.p4, 32 :: (natToDec w ++ (32 :: (natToDec h
      ++ (10 :: pt))))) from rfl]
  dsimp only
  rw [spanWs1_digits]
  dsimp only
  rw [commentsA_digits, pnmField_render]
  dsimp only
  rw [show ∀ X : List Nat, (80 :: 52 :: 32 :: X).getD 1 0 = 52
    from fun _ => rfl]
  rw [if_pos (show (decide ((52 : Nat) = 49)
    || decide ((52 : Nat) = 52)) = true from rfl)]
  rw [pnmLastField_render]
  dsimp only
  rw [commentsB_of_none hsafe, mkPnmHeader]
  have hlen : (80 :: 52 :: 32 :: (natToDec w ++ (32 :: (natToDec h
      ++ (10 :: pt))))).length
      = 5 + ((natToDec w).length + (natToDec h).length) + pt.length := by
    simp only [List.length_cons, List.length_append]
    omega
  rw [hlen, show 5 + ((natToDec w).length + (natToDec h).length) + pt.length
      - pt.length = 5 + ((natToDec w).length + (natToDec h).length)
    from by omega]
  rfl

theorem c1_p5_branch (s : List Nat) (buf : Buffer)
    (h1 : parseNetpbm s = some buf)
    (hbytes : isByteStream s)
    (h5 : buf.magic = .p5)
    (hm1 : buf.maxval ≠ 1)
    (hfit : (renderHeader buf).length ≤ 4096)
    (hsafe5 : ∀ b, ((encodePayload buf).dropWhile isWs).head? = some b
      → b ≠ 35) :
    parseNetpbm (serialize buf) = some buf := by
  obtain ⟨hd, hph, hread⟩ := parseNetpbm_inv h1
  obtain ⟨hfm, hfw, hfh, hfmx, hfd, hft2⟩ := readData_fields hread
  have hdmag : hd.magic = .p5 := hfm.symm.trans h5
  have hascii : ¬ (hd.magic = .p1 ∨ hd.magic = .p2 ∨ hd.magic = .p3) := by
    rw [hdmag]; simp
  have h332 : hd.magic ≠ .p7_332 := by rw [hdmag]; simp
  have hm1d : hd.maxval ≠ 1 := by rw [← hfmx]; exact hm1
  obtain ⟨-, -, -, -, -, -, hkne, hrb⟩ := readData_inv hread hascii h332 hm1d
  have hrbb : readRawBytes (if buf.maxval < 256 then 1 else 2)
      (buf.height * buf.width * buf.depth) (s.drop hd.hdrLen)
      = some (buf.frames, buf.samples) := by
    rw [hfmx, hfh, hfw, hfd]
    exact hrb
  have hbound : ∀ b ∈ s.drop hd.hdrLen, b < 256 :=
    fun b hb => hbytes b (List.mem_of_mem_drop hb)
  have henc : encodePayload buf = (s.drop hd.hdrLen).take
      (buf.height * buf.width * buf.depth
        * (if buf.maxval < 256 then 1 else 2)) :=
    encodePayload_of_bytes hm1 hbound hrbb
  have hencrb : readRawBytes (if buf.maxval < 256 then 1 else 2)
      (buf.height * buf.width * buf.depth) (encodePayload buf)
      = some (buf.frames, buf.samples) := by
    rw [henc, readRawBytes_take]
    exact hrbb
  have hpnm : pnmHeader (s.take 4096) = some hd := by
    rcases parseHeader_inv hph with hpam | hpnm
    · exact absurd (h5.symm.trans (hfm.trans (pamHeader_inv hpam).1))
        (by decide)
    · exact hpnm
  have hinv := pnmHeader_inv hpnm
  have hdepth : buf.depth = 1 := by
    rw [hfd, hinv.1, hdmag]
    rfl
  have htTL : buf.tupltypes = [strBytes "GRAYSCALE"] := by
    rw [hft2, hinv.2.1, hdmag]
    rfl
  have hrh : renderHeader buf
      = 80 :: 53 :: 32 :: (natToDec buf.width ++ (32 :: (natToDec buf.height
        ++ (32 :: (natToDec buf.maxval ++ [10]))))) := by
    rw [renderHeader, if_neg (by rw [h5]; simp), if_neg hm1, if_pos hdepth]
    simp [strBytes, List.append_assoc]
  have hl1 : 1 ≤ (natToDec buf.width).length :=
    List.length_pos.mpr (natToDec_ne_nil _)
  have hl2 : 1 ≤ (natToDec buf.height).length :=
    List.length_pos.mpr (natToDec_ne_nil _)
  have hl3 : 1 ≤ (natToDec buf.maxval).length :=
    List.length_pos.mpr (natToDec_ne_nil _)
  have hlen58 : 6 + ((natToDec buf.width).length
      + ((natToDec buf.height).length + (natToDec buf.maxval).length))
      = (renderHeader buf).length := by
    rw [hrh]
    simp only [List.length_cons, List.length_append, List.length_nil]
    omega
  have hwin : (serialize buf).take 4096
      = renderHeader buf ++ (encodePayload buf).take
          (4096 - (renderHeader buf).length) := by
    rw [serialize, List.take_append_eq_append_take,
      List.take_of_length_le hfit]
  set pt := (encodePayload buf).take (4096 - (renderHeader buf).length)
    with hpt
  have hsafept : commentB1 pt = none := commentB1_take_none hsafe5 _
  have hcons : renderHeader buf ++ pt
      = 80 :: 53 :: 32 :: (natToDec buf.width ++ (32 :: (natToDec buf.height
        ++ (32 :: (natToDec buf.maxval ++ (10 :: pt)))))) := by
    rw [hrh]
    simp [List.append_assoc]
  have hpnm5 := pnmHeader_render5 buf.width buf.height buf.maxval pt hsafept
  rw [hlen58] at hpnm5
  have hph2 : parseHeader (serialize buf)
      = some { magic := .p5, width := buf.width, height := buf.height,
               maxval := buf.maxval, depth := 1,
               tupltypes := [strBytes "GRAYSCALE"],
               hdrLen := (renderHeader buf).length } := by
    rw [parseHeader_unfold, hwin, hcons]
    rw [if_neg (by
        simp only [List.length_cons, List.length_append, List.length_nil]
        omega)]
    rw [show ∀ X : List Nat, (80 :: 53 :: 32 :: X).getD 1 0 = 53
      from fun _ => rfl]
    rw [if_pos (show (48 : Nat) < 53 ∧ (53 : Nat) < 56 by norm_num)]
    rw [pamHeader_none_of_not_p7 (by simp [List.isPrefixOf])]
    exact hpnm5
  have hdl : (serialize buf).drop (renderHeader buf).length
      = encodePayload buf := by
    rw [serialize, List.drop_left]
  rw [hdepth] at hencrb
  have hrb5 : readRawBytes (if buf.maxval < 256 then 1 else 2)
      (buf.height * buf.width * 1) ((serialize buf).drop
        (renderHeader buf).length) = some (buf.frames, buf.samples) := by
    rw [hdl]
    exact hencrb
  have hrd := readData_bytes
    { magic := .p5, width := buf.width, height := buf.height,
      maxval := buf.maxval, depth := 1,
      tupltypes := [strBytes "GRAYSCALE"],
      hdrLen := (renderHeader buf).length } (serialize buf)
    (by simp) (by simp) hm1 hrb5 hkne
  rw [parseNetpbm, hph2]
  show readData (Header.mk Magic.p5 buf.width buf.height buf.maxval 1
    [strBytes "GRAYSCALE"] (renderHeader buf).length) (serialize buf)
    = some buf
  rw [hrd, ← h5, ← hdepth, ← htTL]

theorem c1_p6_branch (s : List Nat) (buf : Buffer)
    (h1 : parseNetpbm s = some buf)
    (hbytes : isByteStream s)
    (h6 : buf.magic = .p6)
    (hm1 : buf.maxval ≠ 1)
    (hfit : (renderHeader buf).length ≤ 4096)
    (hsafe5 : ∀ b, ((encodePayload buf).dropWhile isWs).head? = some b
      → b ≠ 35) :
    parseNetpbm (serialize buf) = some buf := by
  obtain ⟨hd, hph, hread⟩ := parseNetpbm_inv h1
  obtain ⟨hfm, hfw, hfh, hfmx, hfd, hft2⟩ := readData_fields hread
  have hdmag : hd.magic = .p6 := hfm.symm.trans h6
  have hascii : ¬ (hd.magic = .p1 ∨ hd.magic = .p2 ∨ hd.magic = .p3) := by
    rw [hdmag]; simp
  have h332 : hd.magic ≠ .p7_332 := by rw [hdmag]; simp
  have hm1d : hd.maxval ≠ 1 := by rw [← hfmx]; exact hm1
  obtain ⟨-, -, -, -, -, -, hkne, hrb⟩ := readData_inv hread hascii h332 hm1d
  have hrbb : readRawBytes (if buf.maxval < 256 then 1 else 2)
      (buf.height * buf.width * buf.depth) (s.drop hd.hdrLen)
      = some (buf.frames, buf.samples) := by
    rw [hfmx, hfh, hfw, hfd]
    exact hrb
  have hbound : ∀ b ∈ s.drop hd.hdrLen, b < 256 :=
    fun b hb => hbytes b (List.mem_of_mem_drop hb)
  have henc : encodePayload buf = (s.drop hd.hdrLen).take
      (buf.height * buf.width * buf.depth
        * (if buf.maxval < 256 then 1 else 2)) :=
    encodePayload_of_bytes hm1 hbound hrbb
  have hencrb : readRawBytes (if buf.maxval < 256 then 1 else 2)
      (buf.height * buf.width * buf.depth) (encodePayload buf)
      = some (buf.frames, buf.samples) := by
    rw [henc, readRawBytes_take]
    exact hrbb
  have hpnm : pnmHeader (s.take 4096) = some hd := by
    rcases parseHeader_inv hph with hpam | hpnm
    · exact absurd (h6.symm.trans (hfm.trans (pamHeader_inv hpam).1))
        (by decide)
    · exact hpnm
  have hinv := pnmHeader_inv hpnm
  have hdepth : buf.depth = 3 := by
    rw [hfd, hinv.1, hdmag]
    rfl
  have htTL : buf.tupltypes = [strBytes "RGB"] := by
    rw [hft2, hinv.2.1, hdmag]
    rfl
  have hrh : renderHeader buf
      = 80 :: 54 :: 32 :: (natToDec buf.width ++ (32 :: (natToDec buf.height
        ++ (32 :: (natToDec buf.maxval ++ [10]))))) := by
    rw [renderHeader, if_neg (by rw [h6]; simp), if_neg hm1,
      if_neg (by rw [hdepth]; norm_num)]
    simp [strBytes, List.append_assoc]
  have hl1 : 1 ≤ (natToDec buf.width).length :=
    List.length_pos.mpr (natToDec_ne_nil _)
  have hl2 : 1 ≤ (natToDec buf.height).length :=
    List.length_pos.mpr (natToDec_ne_nil _)
  have hl3 : 1 ≤ (natToDec buf.maxval).length :=
    List.length_pos.mpr (natToDec_ne_nil _)
  have hlen58 : 6 + ((natToDec buf.width).length
      + ((natToDec buf.height).length + (natToDec buf.maxval).length))
      = (renderHeader buf).length := by
    rw [hrh]
    simp only [List.length_cons, List.length_append, List.length_nil]
    omega
  have hwin : (serialize buf).take 4096
      = renderHeader buf ++ (encodePayload buf).take
          (4096 - (renderHeader buf).length) := by
    rw [serialize, List.take_append_eq_append_take,
      List.take_of_length_le hfit]
  set pt := (encodePayload buf).take (4096 - (renderHeader buf).length)
    with hpt
  have hsafept : commentB1 pt = none := commentB1_take_none hsafe5 _
  have hcons : renderHeader buf ++ pt
      = 80 :: 54 :: 32 :: (natToDec buf.width ++ (32 :: (natToDec buf.height
        ++ (32 :: (natToDec buf.maxval ++ (10 :: pt)))))) := by
    rw [hrh]
    simp [List.append_assoc]
  have hpnm5 := pnmHeader_render6 buf.width buf.height buf.maxval pt hsafept
  rw [hlen58] at hpnm5
  have hph2 : parseHeader (serialize buf)
      = some { magic := .p6, width := buf.width, height := buf.height,
               maxval := buf.maxval, depth := 3,
               tupltypes := [strBytes "RGB"],
               hdrLen := (renderHeader buf).length } := by
    rw [parseHeader_unfold, hwin, hcons]
    rw [if_neg (by
        simp only [List.length_cons, List.length_append, List.length_nil]
        omega)]
    rw [show ∀ X : List Nat, (80 :: 54 :: 32 :: X).getD 1 0 = 54
      from fun _ => rfl]
    rw [if_pos (show (48 : Nat) < 54 ∧ (54 : Nat) < 56 by norm_num)]
    rw [pamHeader_none_of_not_p7 (by simp [List.isPrefixOf])]
    exact hpnm5
  have hdl : (serialize buf).drop (renderHeader buf).length
      = encodePayload buf := by
    rw [serialize, List.drop_left]
  rw [hdepth] at hencrb
  have hrb5 : readRawBytes (if buf.maxval < 256 then 1 else 2)
      (buf.height * buf.width * 3) ((serialize buf).drop
        (renderHeader buf).length) = some (buf.frames, buf.samples) := by
    rw [hdl]
    exact hencrb
  have hrd := readData_bytes
    { magic := .p6, width := buf.width, height := buf.height,
      maxval := buf.maxval, depth := 3,
      tupltypes := [strBytes "RGB"],
      hdrLen := (renderHeader buf).length } (serialize buf)
    (by simp) (by simp) hm1 hrb5 hkne
  rw [parseNetpbm, hph2]
  show readData (Header.mk Magic.p6 buf.width buf.height buf.maxval 3
    [strBytes "RGB"] (renderHeader buf).length) (serialize buf)
    = some buf
  rw [hrd, ← h6, ← hdepth, ← htTL]


theorem c1_p7_branch (s : List Nat) (buf : Buffer)
    (h1 : parseNetpbm s = some buf)
    (hbytes : isByteStream s)
    (h7 : buf.magic = .p7)
    (hm1 : buf.maxval ≠ 1)
    (hfit : (renderHeader buf).length ≤ 4096) :
    parseNetpbm (serialize buf) = some buf := by
  obtain ⟨hd, hph, hread⟩ := parseNetpbm_inv h1
  obtain ⟨hfm, hfw, hfh, hfmx, hfd, hft2⟩ := readData_fields hread
  have hdmag : hd.magic = .p7 := hfm.symm.trans h7
  have hascii : ¬ (hd.magic = .p1 ∨ hd.magic = .p2 ∨ hd.magic = .p3) := by
    rw [hdmag]; simp
  have h332 : hd.magic ≠ .p7_332 := by rw [hdmag]; simp
  have hm1d : hd.maxval ≠ 1 := by rw [← hfmx]; exact hm1
  obtain ⟨-, -, -, -, -, -, hkne, hrb⟩ := readData_inv hread hascii h332 hm1d
  have hrbb : readRawBytes (if buf.maxval < 256 then 1 else 2)
      (buf.height * buf.width * buf.depth) (s.drop hd.hdrLen)
      = some (buf.frames, buf.samples) := by
    rw [hfmx, hfh, hfw, hfd]
    exact hrb
  have hbound : ∀ b ∈ s.drop hd.hdrLen, b < 256 :=
    fun b hb => hbytes b (List.mem_of_mem_drop hb)
  have henc : encodePayload buf = (s.drop hd.hdrLen).take
      (buf.height * buf.width * buf.depth
        * (if buf.maxval < 256 then 1 else 2)) :=
    encodePayload_of_bytes hm1 hbound hrbb
  have hencrb : readRawBytes (if buf.maxval < 256 then 1 else 2)
      (buf.height * buf.width * buf.depth) (encodePayload buf)
      = some (buf.frames, buf.samples) := by
    rw [henc, readRawBytes_take]
    exact hrbb
  have hpam : pamHeader (s.take 4096) = some hd := by
    rcases parseHeader_inv hph with hpam | hpnm
    · exact hpam
    · exact absurd hdmag (pnmHeader_inv hpnm).2.2
  have hwordsBuf : ∀ t ∈ buf.tupltypes, t ≠ [] ∧ ∀ b ∈ t, isWord b = true := by
    rw [hft2]
    exact (pamHeader_inv hpam).2
  have hwf : ∀ l ∈ ([PamLine.field .height buf.height,
      PamLine.field .width buf.width, PamLine.field .depth buf.depth,
      PamLine.field .maxval buf.maxval]
        ++ buf.tupltypes.map PamLine.tupl), wfLine l := by
    intro l hl
    rcases List.mem_append.mp hl with hl4 | hlt
    · fin_cases hl4 <;> exact trivial
    · obtain ⟨t, ht, rfl⟩ := List.mem_map.mp hlt
      exact hwordsBuf t ht
  have hnlcase : (if buf.tupltypes = [] then ([10] : List Nat) else [])
      = [] ∨ (if buf.tupltypes = [] then ([10] : List Nat) else [])
      = [10] := by
    by_cases hts : buf.tupltypes = []
    · rw [if_pos hts]
      exact Or.inr rfl
    · rw [if_neg hts]
      exact Or.inl rfl
  have hrh := renderHeader_p7 buf h7
  have hlen10 : 10 + (if buf.tupltypes = [] then ([10] : List Nat)
        else []).length
      + (renderLines ([PamLine.field .height buf.height,
      PamLine.field .width buf.width, PamLine.field .depth buf.depth,
      PamLine.field .maxval buf.maxval]
        ++ buf.tupltypes.map PamLine.tupl)).length
      = (renderHeader buf).length := by
    rw [hrh]
    simp only [List.length_append, show (strBytes "P7\n").length = 3 from rfl,
      show (strBytes "ENDHDR\n").length = 7 from rfl]
    omega
  have hwin : (serialize buf).take 4096
      = renderHeader buf ++ (encodePayload buf).take
          (4096 - (renderHeader buf).length) := by
    rw [serialize, List.take_append_eq_append_take,
      List.take_of_length_le hfit]
  set pt := (encodePayload buf).take (4096 - (renderHeader buf).length)
    with hpt
  have hgd : (renderHeader buf ++ pt).getD 1 0 = 55 := by
    rw [hrh]
    rfl
  have hfilter : (([PamLine.field .height buf.height,
      PamLine.field .width buf.width, PamLine.field .depth buf.depth,
      PamLine.field .maxval buf.maxval]
        ++ buf.tupltypes.map PamLine.tupl)).filterMap tuplWord = buf.tupltypes := by
    rw [List.filterMap_append, filterMap_tupls]
    rfl
  have hH : lastFieldVal .height ([PamLine.field .height buf.height,
      PamLine.field .width buf.width, PamLine.field .depth buf.depth,
      PamLine.field .maxval buf.maxval]
        ++ buf.tupltypes.map PamLine.tupl) = some buf.height := by
    rw [lastFieldVal_append_tupls]
    rfl
  have hW : lastFieldVal .width ([PamLine.field .height buf.height,
      PamLine.field .width buf.width, PamLine.field .depth buf.depth,
      PamLine.field .maxval buf.maxval]
        ++ buf.tupltypes.map PamLine.tupl) = some buf.width := by
    rw [lastFieldVal_append_tupls]
    rfl
  have hD : lastFieldVal .depth ([PamLine.field .height buf.height,
      PamLine.field .width buf.width, PamLine.field .depth buf.depth,
      PamLine.field .maxval buf.maxval]
        ++ buf.tupltypes.map PamLine.tupl) = some buf.depth := by
    rw [lastFieldVal_append_tupls]
    rfl
  have hM : lastFieldVal .maxval ([PamLine.field .height buf.height,
      PamLine.field .width buf.width, PamLine.field .depth buf.depth,
      PamLine.field .maxval buf.maxval]
        ++ buf.tupltypes.map PamLine.tupl) = some buf.maxval := by
    rw [lastFieldVal_append_tupls]
    rfl
  have hph2 : parseHeader (serialize buf)
      = some { magic := .p7, width := buf.width, height := buf.height,
               maxval := buf.maxval, depth := buf.depth,
               tupltypes := buf.tupltypes,
               hdrLen := 10 + (if buf.tupltypes = []
                   then ([10] : List Nat) else []).length
                 + (renderLines ([PamLine.field .height buf.height,
      PamLine.field .width buf.width, PamLine.field .depth buf.depth,
      PamLine.field .maxval buf.maxval]
        ++ buf.tupltypes.map PamLine.tupl)).length } := by
    rw [parseHeader_unfold, hwin]
    rw [if_neg (by rw [List.length_append, ← hlen10]; omega)]
    rw [hgd]
    rw [if_pos (show (48 : Nat) < 55 ∧ (55 : Nat) < 56 by norm_num)]
    rw [hrh]
    rw [pamHeader_render7 _ _ pt hwf hnlcase]
    rw [hH, hW, hD, hM]
    dsimp only
    rw [hfilter]
  rw [hlen10] at hph2
  have hdl : (serialize buf).drop (renderHeader buf).length
      = encodePayload buf := by
    rw [serialize, List.drop_left]
  have hrb7 : readRawBytes (if buf.maxval < 256 then 1 else 2)
      (buf.height * buf.width * buf.depth) ((serialize buf).drop
        (renderHeader buf).length) = some (buf.frames, buf.samples) := by
    rw [hdl]
    exact hencrb
  have hrd := readData_bytes
    { magic := .p7, width := buf.width, height := buf.height,
      maxval := buf.maxval, depth := buf.depth,
      tupltypes := buf.tupltypes,
      hdrLen := (renderHeader buf).length } (serialize buf)
    (by simp) (by simp) hm1 hrb7 hkne
  rw [parseNetpbm, hph2]
  show readData (Header.mk Magic.p7 buf.width buf.height buf.maxval buf.depth
    buf.tupltypes (renderHeader buf).length) (serialize buf)
    = some buf
  rw [hrd, ← h7]

theorem c1_bilevel_classic_branch (s : List Nat) (buf : Buffer)
    (h1 : parseNetpbm s = some buf)
    (hmagic : buf.magic = .p4 ∨ buf.magic = .p5)
    (hmax : buf.maxval = 1) (hdep : buf.depth = 1)
    (hfit : (renderHeader buf).length ≤ 4096)
    (hsafe : ∀ b, ((encodePayload buf).dropWhile isWs).head? = some b
      → b ≠ 35) :
    parseNetpbm (serialize buf) = some
      { magic := .p4, width := buf.width, height := buf.height,
        maxval := 1, depth := 1, tupltypes := [strBytes "BLACKANDWHITE"],
        frames := buf.frames, samples := buf.samples } := by
  obtain ⟨hd, hph, hread⟩ := parseNetpbm_inv h1
  obtain ⟨hfm, hfw, hfh, hfmx, hfd, hft2⟩ := readData_fields hread
  have hascii : ¬ (hd.magic = .p1 ∨ hd.magic = .p2 ∨ hd.magic = .p3) := by
    rcases hmagic with h4 | h5
    · rw [← hfm, h4]; simp
    · rw [← hfm, h5]; simp
  have h332 : hd.magic ≠ .p7_332 := by
    rcases hmagic with h4 | h5
    · rw [← hfm, h4]; simp
    · rw [← hfm, h5]; simp
  have hm1d : hd.maxval = 1 := by rw [← hfmx]; exact hmax
  obtain ⟨-, -, -, -, -, -, hkne, hrb⟩ :=
    readData_inv_bits hread hascii h332 hm1d
  have hrbb : readRawBits buf.height ((buf.width + 7) / 8) 1 buf.width
      (s.drop hd.hdrLen) = some (buf.frames, buf.samples) := by
    rw [hfh, hfw, ← hdep, hfd]
    exact hrb
  have henc : encodePayload buf = packLast buf.width buf.samples := by
    rw [encodePayload, if_pos hmax, hdep]
    rw [if_neg (by norm_num)]
  have hencrb : readRawBits buf.height ((buf.width + 7) / 8) 1 buf.width
      (encodePayload buf) = some (buf.frames, buf.samples) := by
    rw [henc]
    exact readRawBits_pack hrbb
  have hnp7 : buf.magic ≠ .p7 := by
    rcases hmagic with h4 | h5
    · rw [h4]; simp
    · rw [h5]; simp
  have hrh : renderHeader buf
      = 80 :: 52 :: 32 :: (natToDec buf.width ++ (32 :: (natToDec buf.height
        ++ [10]))) := by
    rw [renderHeader, if_neg hnp7, if_pos hmax]
    simp [strBytes, List.append_assoc]
  have hl1 : 1 ≤ (natToDec buf.width).length :=
    List.length_pos.mpr (natToDec_ne_nil _)
  have hl2 : 1 ≤ (natToDec buf.height).length :=
    List.length_pos.mpr (natToDec_ne_nil _)
  have hlen45 : 5 + ((natToDec buf.width).length
      + (natToDec buf.height).length) = (renderHeader buf).length := by
    rw [hrh]
    simp only [List.length_cons, List.length_append, List.length_nil]
    omega
  have hwin : (serialize buf).take 4096
      = renderHeader buf ++ (encodePayload buf).take
          (4096 - (renderHeader buf).length) := by
    rw [serialize, List.take_append_eq_append_take,
      List.take_of_length_le hfit]
  set pt := (encodePayload buf).take (4096 - (renderHeader buf).length)
    with hpt
  have hsafept : commentB1 pt = none := commentB1_take_none hsafe _
  have hcons : renderHeader buf ++ pt
      = 80 :: 52 :: 32 :: (natToDec buf.width ++ (32 :: (natToDec buf.height
        ++ (10 :: pt)))) := by
    rw [hrh]
    simp [List.append_assoc]
  have hpnm4 := pnmHeader_render4 buf.width buf.height pt hsafept
  rw [hlen45] at hpnm4
  have hph2 : parseHeader (serialize buf)
      = some { magic := .p4, width := buf.width, height := buf.height,
               maxval := 1, depth := 1,
               tupltypes := [strBytes "BLACKANDWHITE"],
               hdrLen := (renderHeader buf).length } := by
    rw [parseHeader_unfold, hwin, hcons]
    rw [if_neg (by
        simp only [List.length_cons, List.length_append, List.length_nil]
        omega)]
    rw [show ∀ X : List Nat, (80 :: 52 :: 32 :: X).getD 1 0 = 52
      from fun _ => rfl]
    rw [if_pos (show (48 : Nat) < 52 ∧ (52 : Nat) < 56 by norm_num)]
    rw [pamHeader_none_of_not_p7 (by simp [List.isPrefixOf])]
    exact hpnm4
  have hdl : (serialize buf).drop (renderHeader buf).length
      = encodePayload buf := by
    rw [serialize, List.drop_left]
  have hrb4 : readRawBits buf.height ((buf.width + 7) / 8) 1 buf.width
      ((serialize buf).drop (renderHeader buf).length)
      = some (buf.frames, buf.samples) := by
    rw [hdl]
    exact hencrb
  have hrd := readData_bits
    { magic := .p4, width := buf.width, height := buf.height,
      maxval := 1, depth := 1,
      tupltypes := [strBytes "BLACKANDWHITE"],
      hdrLen := (renderHeader buf).length } (serialize buf)
    (by simp) (by simp) rfl hrb4 hkne
  rw [parseNetpbm, hph2]
  show readData (Header.mk Magic.p4 buf.width buf.height 1 1
    [strBytes "BLACKANDWHITE"] (renderHeader buf).length) (serialize buf)
    = some { magic := .p4, width := buf.width, height := buf.height,
             maxval := 1, depth := 1,
             tupltypes := [strBytes "BLACKANDWHITE"],
             frames := buf.frames, samples := buf.samples }
  rw [hrd]

theorem c1_p7_bilevel_branch (s : List Nat) (buf : Buffer)
    (h1 : parseNetpbm s = some buf)
    (h7 : buf.magic = .p7)
    (hmax : buf.maxval = 1)
    (hdep : buf.depth = 1)
    (hfit : (renderHeader buf).length ≤ 4096) :
    parseNetpbm (serialize buf) = some buf := by
  obtain ⟨hd, hph, hread⟩ := parseNetpbm_inv h1
  obtain ⟨hfm, hfw, hfh, hfmx, hfd, hft2⟩ := readData_fields hread
  have hdmag : hd.magic = .p7 := hfm.symm.trans h7
  have hascii : ¬ (hd.magic = .p1 ∨ hd.magic = .p2 ∨ hd.magic = .p3) := by
    rw [hdmag]; simp
  have h332 : hd.magic ≠ .p7_332 := by rw [hdmag]; simp
  have hm1d : hd.maxval = 1 := by rw [← hfmx]; exact hmax
  obtain ⟨-, -, -, -, -, -, hkne, hrb⟩ :=
    readData_inv_bits hread hascii h332 hm1d
  have hrbb : readRawBits buf.height ((buf.width + 7) / 8) 1 buf.width
      (s.drop hd.hdrLen) = some (buf.frames, buf.samples) := by
    rw [hfh, hfw, ← hdep, hfd]
    exact hrb
  have henc : encodePayload buf = packLast buf.width buf.samples := by
    rw [encodePayload, if_pos hmax, hdep]
    rw [if_neg (by norm_num)]
  have hencrb : readRawBits buf.height ((buf.width + 7) / 8) 1 buf.width
      (encodePayload buf) = some (buf.frames, buf.samples) := by
    rw [henc]
    exact readRawBits_pack hrbb
  have hpam : pamHeader (s.take 4096) = some hd := by
    rcases parseHeader_inv hph with hpam | hpnm
    · exact hpam
    · exact absurd hdmag (pnmHeader_inv hpnm).2.2
  have hwordsBuf : ∀ t ∈ buf.tupltypes, t ≠ [] ∧ ∀ b ∈ t, isWord b = true := by
    rw [hft2]
    exact (pamHeader_inv hpam).2
  have hwf : ∀ l ∈ ([PamLine.field .height buf.height,
      PamLine.field .width buf.width, PamLine.field .depth buf.depth,
      PamLine.field .maxval buf.maxval]
        ++ buf.tupltypes.map PamLine.tupl), wfLine l := by
    intro l hl
    rcases List.mem_append.mp hl with hl4 | hlt
    · fin_cases hl4 <;> exact trivial
    · obtain ⟨t, ht, rfl⟩ := List.mem_map.mp hlt
      exact hwordsBuf t ht
  have hnlcase : (if buf.tupltypes = [] then ([10] : List Nat) else [])
      = [] ∨ (if buf.tupltypes = [] then ([10] : List Nat) else [])
      = [10] := by
    by_cases hts : buf.tupltypes = []
    · rw [if_pos hts]
      exact Or.inr rfl
    · rw [if_neg hts]
      exact Or.inl rfl
  have hrh := renderHeader_p7 buf h7
  have hlen10 : 10 + (if buf.tupltypes = [] then ([10] : List Nat)
        else []).length
      + (renderLines ([PamLine.field .height buf.height,
      PamLine.field .width buf.width, PamLine.field .depth buf.depth,
      PamLine.field .maxval buf.maxval]
        ++ buf.tupltypes.map PamLine.tupl)).length
      = (renderHeader buf).length := by
    rw [hrh]
    simp only [List.length_append, show (strBytes "P7\n").length = 3 from rfl,
      show (strBytes "ENDHDR\n").length = 7 from rfl]
    omega
  have hwin : (serialize buf).take 4096
      = renderHeader buf ++ (encodePayload buf).take
          (4096 - (renderHeader buf).length) := by
    rw [serialize, List.take_append_eq_append_take,
      List.take_of_length_le hfit]
  set pt := (encodePayload buf).take (4096 - (renderHeader buf).length)
    with hpt
  have hgd : (renderHeader buf ++ pt).getD 1 0 = 55 := by
    rw [hrh]
    rfl
  have hfilter : (([PamLine.field .height buf.height,
      PamLine.field .width buf.width, PamLine.field .depth buf.depth,
      PamLine.field .maxval buf.maxval]
        ++ buf.tupltypes.map PamLine.tupl)).filterMap tuplWord = buf.tupltypes := by
    rw [List.filterMap_append, filterMap_tupls]
    rfl
  have hH : lastFieldVal .height ([PamLine.field .height buf.height,
      PamLine.field .width buf.width, PamLine.field .depth buf.depth,
      PamLine.field .maxval buf.maxval]
        ++ buf.tupltypes.map PamLine.tupl) = some buf.height := by
    rw [lastFieldVal_append_tupls]
    rfl
  have hW : lastFieldVal .width ([PamLine.field .height buf.height,
      PamLine.field .width buf.width, PamLine.field .depth buf.depth,
      PamLine.field .maxval buf.maxval]
        ++ buf.tupltypes.map PamLine.tupl) = some buf.width := by
    rw [lastFieldVal_append_tupls]
    rfl
  have hD : lastFieldVal .depth ([PamLine.field .height buf.height,
      PamLine.field .width buf.width, PamLine.field .depth buf.depth,
      PamLine.field .maxval buf.maxval]
        ++ buf.tupltypes.map PamLine.tupl) = some buf.depth := by
    rw [lastFieldVal_append_tupls]
    rfl
  have hM : lastFieldVal .maxval ([PamLine.field .height buf.height,
      PamLine.field .width buf.width, PamLine.field .depth buf.depth,
      PamLine.field .maxval buf.maxval]
        ++ buf.tupltypes.map PamLine.tupl) = some buf.maxval := by
    rw [lastFieldVal_append_tupls]
    rfl
  have hph2 : parseHeader (serialize buf)
      = some { magic := .p7, width := buf.width, height := buf.height,
               maxval := buf.maxval, depth := buf.depth,
               tupltypes := buf.tupltypes,
               hdrLen := 10 + (if buf.tupltypes = []
                   then ([10] : List Nat) else []).length
                 + (renderLines ([PamLine.field .height buf.height,
      PamLine.field .width buf.width, PamLine.field .depth buf.depth,
      PamLine.field .maxval buf.maxval]
        ++ buf.tupltypes.map PamLine.tupl)).length } := by
    rw [parseHeader_unfold, hwin]
    rw [if_neg (by rw [List.length_append, ← hlen10]; omega)]
    rw [hgd]
    rw [if_pos (show (48 : Nat) < 55 ∧ (55 : Nat) < 56 by norm_num)]
    rw [hrh]
    rw [pamHeader_render7 _ _ pt hwf hnlcase]
    rw [hH, hW, hD, hM]
    dsimp only
    rw [hfilter]
  rw [hlen10] at hph2
  have hdl : (serialize buf).drop (renderHeader buf).length
      = encodePayload buf := by
    rw [serialize, List.drop_left]
  have hrb7 : readRawBits buf.height ((buf.width + 7) / 8) 1 buf.width
      ((serialize buf).drop (renderHeader buf).length)
      = some (buf.frames, buf.samples) := by
    rw [hdl]
    exact hencrb
  rw [← hdep] at hrb7
  have hrd := readData_bits
    { magic := .p7, width := buf.width, height := buf.height,
      maxval := buf.maxval, depth := buf.depth,
      tupltypes := buf.tupltypes,
      hdrLen := (renderHeader buf).length } (serialize buf)
    (by simp) (by simp) hmax hrb7 hkne
  rw [parseNetpbm, hph2]
  show readData (Header.mk Magic.p7 buf.width buf.height buf.maxval buf.depth
    buf.tupltypes (renderHeader buf).length) (serialize buf)
    = some buf
  rw [hrd, ← h7]

/-- C1 counterexample: a bilevel PAM stream (`maxval = 1`, depth 3) is a
binary variant (not ASCII, not packed-RGB-332), parses to a buffer, yet
serializing that buffer and re-parsing fails: `_tofile` re-packs 1-bit data
along the channel axis (4 payload bytes for 12 samples), which `_read_data`
cannot reshape back. The claimed round-trip therefore does not hold for all
binary variants. -/
theorem c1_counterexample :
    parseNetpbm (strBytes "P7\nWIDTH 2\nHEIGHT 2\nDEPTH 3\nMAXVAL 1\nENDHDR\n"
        ++ [255, 0, 255, 0, 255, 0]) = some
      { magic := .p7, width := 2, height := 2, maxval := 1, depth := 3,
        tupltypes := [], frames := 1,
        samples := [1, 0, 1, 1, 0, 1, 0, 1, 0, 0, 1, 0] }
    ∧ parseNetpbm (serialize
      { magic := .p7, width := 2, height := 2, maxval := 1, depth := 3,
        tupltypes := [], frames := 1,
        samples := [1, 0, 1, 1, 0, 1, 0, 1, 0, 0, 1, 0] }) = none := by
  decide

/-- C1 (amended): for every buffer produced by parsing a binary-variant
Netpbm stream (P4, P5, P6 or P7; the ASCII forms P1/P2/P3 and the
packed-RGB-332 form are excluded by the claim) that is not multichannel
bilevel (`maxval = 1` with depth at least 2, excluded by the counterexample:
there `packbits` packs along the channel axis), serializing with the writer
and re-parsing yields a buffer that is identical at the claim's identity
list — same width, same height, same depth, same maxval, and the same
ordered sample sequence — provided the serialized header fits the 4096-byte
probe window and, for the classic variants, the payload does not begin with
a comment byte `#` after whitespace (the probe window would otherwise
consume payload bytes as a header comment). Depth-1 bilevel data (P4 in
particular) round-trips: the squeezed array's last axis is the width axis,
so `packbits(axis=-1)` reproduces the on-disk row packing; a bilevel P5
buffer is re-written with a P4 header, so its magic and tuple type change
while the claim's five identity fields are preserved. -/
theorem c1_roundtrip (s : List Nat) (buf : Buffer)
    (h1 : parseNetpbm s = some buf)
    (hbytes : isByteStream s)
    (hmag : buf.magic = .p4 ∨ buf.magic = .p5 ∨ buf.magic = .p6
      ∨ buf.magic = .p7)
    (hbil : buf.maxval = 1 → buf.depth = 1)
    (hfit : (renderHeader buf).length ≤ 4096)
    (hsafe : buf.magic = .p7
      ∨ ∀ b, ((encodePayload buf).dropWhile isWs).head? = some b → b ≠ 35) :
    ∃ buf2, parseNetpbm (serialize buf) = some buf2
      ∧ buf2.width = buf.width ∧ buf2.height = buf.height
      ∧ buf2.depth = buf.depth ∧ buf2.maxval = buf.maxval
      ∧ buf2.samples = buf.samples := by
  rcases hmag with h4 | h5 | h6 | h7
  · have hsafe4 : ∀ b, ((encodePayload buf).dropWhile isWs).head? = some b
        → b ≠ 35 := by
      rcases hsafe with h7 | hs
      · exact absurd (h4.symm.trans h7) (by decide)
      · exact hs
    obtain ⟨hd, hph, hread⟩ := parseNetpbm_inv h1
    obtain ⟨hfm, -, -, hfmx, hfd, -⟩ := readData_fields hread
    have hdmag : hd.magic = .p4 := hfm.symm.trans h4
    have hpnm : pnmHeader (s.take 4096) = some hd := by
      rcases parseHeader_inv hph with hpam | hpnm
      · exact absurd (hdmag.symm.trans (pamHeader_inv hpam).1) (by decide)
      · exact hpnm
    have hmax : buf.maxval = 1 := by
      rw [hfmx]
      exact pnmHeader_p4_maxval hpnm hdmag
    have hdep : buf.depth = 1 := by
      rw [hfd, (pnmHeader_inv hpnm).1, hdmag]
      rfl
    exact ⟨_, c1_bilevel_classic_branch s buf h1 (Or.inl h4) hmax hdep
      hfit hsafe4, rfl, rfl, hdep.symm, hmax.symm, rfl⟩
  · have hsafe5 : ∀ b, ((encodePayload buf).dropWhile isWs).head? = some b
        → b ≠ 35 := by
      rcases hsafe with h7 | hs
      · exact absurd (h5.symm.trans h7) (by decide)
      · exact hs
    by_cases hmax : buf.maxval = 1
    · have hdep : buf.depth = 1 := hbil hmax
      exact ⟨_, c1_bilevel_classic_branch s buf h1 (Or.inr h5) hmax hdep
        hfit hsafe5, rfl, rfl, hdep.symm, hmax.symm, rfl⟩
    · exact ⟨buf, c1_p5_branch s buf h1 hbytes h5 hmax hfit hsafe5,
        rfl, rfl, rfl, rfl, rfl⟩
  · have hsafe6 : ∀ b, ((encodePayload buf).dropWhile isWs).head? = some b
        → b ≠ 35 := by
      rcases hsafe with h7 | hs
      · exact absurd (h6.symm.trans h7) (by decide)
      · exact hs
    by_cases hmax : buf.maxval = 1
    · exfalso
      obtain ⟨hd, hph, hread⟩ := parseNetpbm_inv h1
      obtain ⟨hfm, -, -, -, hfd, -⟩ := readData_fields hread
      have hdmag : hd.magic = .p6 := hfm.symm.trans h6
      have hpnm : pnmHeader (s.take 4096) = some hd := by
        rcases parseHeader_inv hph with hpam | hpnm
        · exact absurd (hdmag.symm.trans (pamHeader_inv hpam).1) (by decide)
        · exact hpnm
      have hd3 : buf.depth = 3 := by
        rw [hfd, (pnmHeader_inv hpnm).1, hdmag]
        rfl
      have := hbil hmax
      omega
    · exact ⟨buf, c1_p6_branch s buf h1 hbytes h6 hmax hfit hsafe6,
        rfl, rfl, rfl, rfl, rfl⟩
  · by_cases hmax : buf.maxval = 1
    · exact ⟨buf, c1_p7_bilevel_branch s buf h1 h7 hmax (hbil hmax) hfit,
        rfl, rfl, rfl, rfl, rfl⟩
    · exact ⟨buf, c1_p7_branch s buf h1 hbytes h7 hmax hfit,
        rfl, rfl, rfl, rfl, rfl⟩

/-- Witness for C1: a concrete bilevel P4 stream (the contested depth-1
bilevel case) whose parsed buffer round-trips at all five identity fields. -/
theorem c1_roundtrip_witness :
    ∃ buf2, parseNetpbm (serialize
        { magic := .p4, width := 10, height := 1, maxval := 1, depth := 1,
          tupltypes := [strBytes "BLACKANDWHITE"], frames := 1,
          samples := [1, 0, 1, 0, 1, 0, 1, 0, 1, 0] }) = some buf2
      ∧ buf2.width = 10 ∧ buf2.height = 1 ∧ buf2.depth = 1
      ∧ buf2.maxval = 1
      ∧ buf2.samples = [1, 0, 1, 0, 1, 0, 1, 0, 1, 0] :=
  c1_roundtrip (strBytes "P4 10 1\n" ++ [170, 129])
    { magic := .p4, width := 10, height := 1, maxval := 1, depth := 1,
      tupltypes := [strBytes "BLACKANDWHITE"], frames := 1,
      samples := [1, 0, 1, 0, 1, 0, 1, 0, 1, 0] }
    (by decide) (by unfold isByteStream; decide)
    (Or.inl rfl) (fun _ => rfl) (by decide)
    (Or.inr (by
      intro b hb
      have hb2 : (some 170 : Option Nat) = some b := hb
      rw [← Option.some.inj hb2]
      decide))

end Cr2fits
